import Mathlib

/-!
# Host info service: a model of `main.go`

The program is one HTTP handler that reports the host name and a host IPv4
address as JSON and keeps a history of requests in `./log/history.json`.

Modelling conventions.

* A Go `string` and the content of a file are lists of characters (`Str`):
  text that is valid UTF-8.
* The file system is reduced to the history file and its parent directory
  (`World`); results of operating-system calls that the program only reads
  (host name, interface addresses, clock, failures of `MkdirAll`, `WriteFile`
  and of the response write) are inputs collected in `Env`.
* Standard-library functions (`net.IP`, `net.SplitHostPort`, `time.Time`,
  `encoding/json`) are modelled after their Go implementation; each model says
  what it covers. A `time.Time` is given by its calendar reading; the times
  the data model speaks of, those RFC 3339 can render, are singled out by
  `Time.wf`.
* Requests are handled one after the other; concurrent access to the file is
  not modelled.

The definitions come first; the lemmas about the library models and the
theorems about `getHostIP`, `getHistoryContent`, `appendHistory` and the
handler follow.
-/

namespace HostInfo

/-- Go strings and file contents. -/
abbrev Str := List Char

/-- One octet. -/
abbrev Byte := Fin 256

deriving instance DecidableEq for Except

/-! ## Decimal digits -/

/-- The character of a decimal digit, `'0' + n`. -/
def digitChar (n : Nat) : Char := Char.ofNat (48 + n)

/-- Whether a character is one of `'0'..'9'`. -/
def isDigit (c : Char) : Bool := decide (48 ≤ c.toNat) && decide (c.toNat ≤ 57)

/-- The value of a decimal digit character (0 for other characters below `'0'`). -/
def digitVal (c : Char) : Nat := c.toNat - 48

/-- Value of a run of decimal digits. -/
def digitsVal (ds : Str) : Nat := ds.foldl (fun acc c => 10 * acc + digitVal c) 0

/-! ## `net.IP` and `net.Addr` -/

/-- A `net.IP`: a byte slice, of any length. -/
abbrev IP := List Byte

/-- Go `IP.To4`: the 4-byte form of an address, or `none` (Go `nil`) when the
address is neither 4 bytes long nor an IPv4-mapped 16-byte address. -/
def IP.To4 (ip : IP) : Option IP :=
  if ip.length = 4 then some ip
  else if ip.length = 16 ∧ ip.take 10 = List.replicate 10 0 ∧
      ip.get? 10 = some 255 ∧ ip.get? 11 = some 255 then some (ip.drop 12)
  else none

/-- The address `::1`. -/
def IPv6loopback : IP := [0, 0, 0, 0, 0, 0, 0, 0, 0, 0, 0, 0, 0, 0, 0, 1]

/-- Go `IP.IsLoopback`: `127.x.y.z` for an address with a 4-byte form, `::1`
otherwise. -/
def IP.IsLoopback (ip : IP) : Bool :=
  match IP.To4 ip with
  | some ip4 => ip4.head? == some 127
  | none => ip == IPv6loopback

/-- Decimal text of one octet, without leading zeros (Go `appendDecimal`). -/
def byteDecimal (b : Byte) : Str :=
  (if 100 ≤ b.val then [digitChar (b.val / 100)] else []) ++
  (if 10 ≤ b.val then [digitChar (b.val / 10 % 10)] else []) ++
  [digitChar (b.val % 10)]

/-- Dotted-decimal text of a 4-byte address: what Go `IP.String` prints for an
address whose `To4` form is the argument. -/
def dottedDecimal (ip4 : IP) : Str :=
  List.intercalate ['.'] (ip4.map byteDecimal)

/-- The entries of `net.InterfaceAddrs()`: values of the interface type
`net.Addr`, whose dynamic type is `*net.IPNet` (address and mask; the unicast
addresses) or `*net.IPAddr` (address and zone; the anycast addresses the
Windows implementation adds). -/
inductive Addr where
  | ipNet (ip : IP) (mask : List Byte)
  | ipAddr (ip : IP) (zone : Str)
  deriving DecidableEq, Repr

/-- The IP address an interface address carries. -/
def Addr.ip : Addr → IP
  | .ipNet ip _ => ip
  | .ipAddr ip _ => ip

/-- The message of the error `getHostIP` returns when no address is selected. -/
def noHostIPError : Str := "Unable to determine host IP address".toList

/-- The `for _, addr := range addrs` loop of `getHostIP`. -/
def getHostIPLoop : List Addr → Except Str Str
  | [] => .error noHostIPError
  | addr :: rest =>
    match addr with
    | .ipNet ip _ =>
      if !IP.IsLoopback ip then
        match IP.To4 ip with
        | some ip4 => .ok (dottedDecimal ip4)
        | none => getHostIPLoop rest
      else getHostIPLoop rest
    | .ipAddr _ _ => getHostIPLoop rest

/-- `getHostIP`, given the result of `net.InterfaceAddrs()`. -/
def getHostIP (ifaddrs : Except Str (List Addr)) : Except Str Str :=
  match ifaddrs with
  | .error err => .error err
  | .ok addrs => getHostIPLoop addrs

/-- An address that is not loopback and has a 4-byte IPv4 form. -/
def Addr.usableIPv4 (a : Addr) : Bool :=
  !IP.IsLoopback a.ip && (IP.To4 a.ip).isSome

/-- The test `getHostIP` applies: a `*net.IPNet` that is not loopback and has a
4-byte IPv4 form. -/
def Addr.selected : Addr → Bool
  | .ipNet ip _ => !IP.IsLoopback ip && (IP.To4 ip).isSome
  | .ipAddr _ _ => false

/-- Reads an IPv4 field: one to three decimal digits without a leading zero,
of value at most 255, followed by the rest of the text. -/
def readOctet (s : Str) : Option (Nat × Str) :=
  let ds := s.takeWhile isDigit
  if ds.length = 0 ∨ 3 < ds.length then none
  else if 1 < ds.length ∧ ds.head? = some '0' then none
  else if 255 < digitsVal ds then none
  else some (digitsVal ds, s.dropWhile isDigit)

/-- Reads a dotted-quad IPv4 literal `a.b.c.d`, the whole text. -/
def parseIPv4 (s : Str) : Option (List Nat) :=
  match readOctet s with
  | some (a, '.' :: s1) =>
    match readOctet s1 with
    | some (b, '.' :: s2) =>
      match readOctet s2 with
      | some (c, '.' :: s3) =>
        match readOctet s3 with
        | some (d, []) => some [a, b, c, d]
        | _ => none
      | _ => none
    | _ => none
  | _ => none

/-! ## `net.SplitHostPort` -/

/-- The text of a `*net.AddrError`: the reason, after the address when the
address is not empty. -/
def addrError (addr why : Str) : Str :=
  if addr = [] then why else "address ".toList ++ addr ++ ": ".toList ++ why

/-- Index of the last occurrence of a character (Go `LastIndexByteString`). -/
def lastIndexOf (c : Char) (s : Str) : Option Nat :=
  match s.reverse.indexOf? c with
  | some k => some (s.length - 1 - k)
  | none => none

/-- Go `net.SplitHostPort`: splits `host:port`, `[host]:port` into host and
port, the port starting after the last colon. -/
def SplitHostPort (hostport : Str) : Except Str (Str × Str) :=
  match lastIndexOf ':' hostport with
  | none => .error (addrError hostport "missing port in address".toList)
  | some i =>
    if hostport.head? = some '[' then
      match hostport.indexOf? ']' with
      | none => .error (addrError hostport "missing ']' in address".toList)
      | some close =>
        if close + 1 = hostport.length then
          .error (addrError hostport "missing port in address".toList)
        else if close + 1 = i then
          if ((hostport.drop 1).contains '[') then
            .error (addrError hostport "unexpected '[' in address".toList)
          else if ((hostport.drop (close + 1)).contains ']') then
            .error (addrError hostport "unexpected ']' in address".toList)
          else .ok ((hostport.take close).drop 1, hostport.drop (i + 1))
        else if hostport.get? (close + 1) = some ':' then
          .error (addrError hostport "too many colons in address".toList)
        else .error (addrError hostport "missing port in address".toList)
    else
      if (hostport.take i).contains ':' then
        .error (addrError hostport "too many colons in address".toList)
      else if hostport.contains '[' then
        .error (addrError hostport "unexpected '[' in address".toList)
      else if hostport.contains ']' then
        .error (addrError hostport "unexpected ']' in address".toList)
      else .ok (hostport.take i, hostport.drop (i + 1))

/-! ## `time.Time` -/

/-- A `time.Time`, given by the calendar reading it has in its own location:
what `Date`, `Clock`, `Nanosecond` and `Zone` return (`offset` in seconds east
of UTC). The monotonic clock reading and the name of the location are not
modelled; neither is printed by `Format` or by `MarshalJSON`. -/
structure Time where
  year : Int
  month : Nat
  day : Nat
  hour : Nat
  minute : Nat
  second : Nat
  nsec : Nat
  offset : Int
  deriving DecidableEq, Repr

/-- The zero `time.Time`: January 1, year 1, 00:00:00 UTC. -/
def Time.zero : Time := ⟨1, 1, 1, 0, 0, 0, 0, 0⟩

/-- Go `isLeap`. -/
def isLeap (year : Nat) : Bool :=
  year % 4 = 0 && (year % 100 ≠ 0 || year % 400 = 0)

/-- Go `daysIn`: the number of days of a month. -/
def daysIn (month : Nat) (year : Nat) : Nat :=
  if month = 2 then (if isLeap year then 29 else 28)
  else if month = 4 ∨ month = 6 ∨ month = 9 ∨ month = 11 then 30
  else 31

/-- A calendar reading that RFC 3339 can render: a four-digit year, a date and
a time of day that exist, and a zone offset of whole minutes below 24 hours. -/
def Time.wf (t : Time) : Prop :=
  0 ≤ t.year ∧ t.year ≤ 9999 ∧ 1 ≤ t.month ∧ t.month ≤ 12 ∧
  1 ≤ t.day ∧ t.day ≤ daysIn t.month t.year.toNat ∧
  t.hour < 24 ∧ t.minute < 60 ∧ t.second < 60 ∧ t.nsec < 1000000000 ∧
  t.offset % 60 = 0 ∧ -86400 < t.offset ∧ t.offset < 86400

instance (t : Time) : Decidable t.wf := by
  unfold Time.wf; infer_instance

/-- The last `width` decimal digits of `n`, most significant first. -/
def fixedDigits : Nat → Nat → Str
  | 0, _ => []
  | width + 1, n => fixedDigits width (n / 10) ++ [digitChar (n % 10)]

/-- Go `appendInt`: decimal text of `x`, zero-padded to `width` digits, with
a leading `-` for a negative number. -/
def appendInt (x : Int) (width : Nat) : Str :=
  (if x < 0 then ['-'] else []) ++
  (if x.natAbs < 10 ^ width then fixedDigits width x.natAbs
   else Nat.toDigits 10 x.natAbs)

/-- Removes trailing `'0'` characters. -/
def trimZeros (s : Str) : Str := (s.reverse.dropWhile (· = '0')).reverse

/-- Go `appendNano` for the layout `.999999999`: nothing for zero nanoseconds,
otherwise a dot and nine digits with the trailing zeros removed. -/
def appendNano (nsec : Nat) : Str :=
  if nsec = 0 then [] else '.' :: trimZeros (appendInt nsec 9)

/-- The zone of `Z07:00`: `Z` for offset zero, otherwise sign, hours and
minutes; the seconds of the offset are dropped. -/
def appendZone (offset : Int) : Str :=
  if offset = 0 then ['Z']
  else
    let zone := Int.tdiv offset 60
    (if zone < 0 then ['-'] else ['+']) ++
      appendInt (Int.ofNat (zone.natAbs / 60)) 2 ++ [':'] ++
      appendInt (Int.ofNat (zone.natAbs % 60)) 2

/-- Go `Time.appendFormatRFC3339`: the layouts `RFC3339` (`nanos = false`) and
`RFC3339Nano` (`nanos = true`). -/
def appendFormatRFC3339 (t : Time) (nanos : Bool) : Str :=
  appendInt t.year 4 ++ ['-'] ++ appendInt t.month 2 ++ ['-'] ++ appendInt t.day 2 ++
  ['T'] ++ appendInt t.hour 2 ++ [':'] ++ appendInt t.minute 2 ++ [':'] ++
  appendInt t.second 2 ++ (if nanos then appendNano t.nsec else []) ++
  appendZone t.offset

/-- `t.Format(time.RFC3339)`. -/
def Time.FormatRFC3339 (t : Time) : Str := appendFormatRFC3339 t false

/-- Go `Time.MarshalJSON`: the quoted `RFC3339Nano` text; an error for a year
outside `[0,9999]` or a zone offset of 24 hours or more. -/
def Time.MarshalJSON (t : Time) : Except Str Str :=
  if t.year < 0 ∨ 9999 < t.year then
    .error "Time.MarshalJSON: year outside of range [0,9999]".toList
  else if t.offset ≠ 0 ∧ 24 ≤ (Int.tdiv t.offset 60).natAbs / 60 then
    .error "Time.MarshalJSON: timezone hour outside of range [0,23]".toList
  else .ok (['"'] ++ appendFormatRFC3339 t true ++ ['"'])

/-- Go `parseUint` of `parseRFC3339`: a field of digits within a range. -/
def parseUint (ds : Str) (lo hi : Nat) : Option Nat :=
  if ds.all isDigit ∧ lo ≤ digitsVal ds ∧ digitsVal ds ≤ hi then some (digitsVal ds) else none

/-- Go `parseNanoseconds` on the digits after the dot: the first nine digits,
scaled to nanoseconds. -/
def parseNanoseconds (ds : Str) : Nat :=
  digitsVal (ds.take 9) * 10 ^ (9 - (ds.take 9).length)

/-- The optional fractional second of `parseRFC3339`: a dot followed by at
least one digit. Returns the nanoseconds and the text after the fraction. -/
def parseFraction (s : Str) : Nat × Str :=
  match s with
  | '.' :: c :: r =>
    if isDigit c then
      (parseNanoseconds ((c :: r).takeWhile isDigit), (c :: r).dropWhile isDigit)
    else (0, s)
  | _ => (0, s)

/-- The zone of `parseRFC3339`: `Z`, or sign, two-digit hours up to 23, colon
and two-digit minutes up to 59, and nothing after it. -/
def parseZone (s : Str) : Option Int :=
  match s with
  | ['Z'] => some 0
  | [sg, h1, h2, c, m1, m2] =>
    match parseUint [h1, h2] 0 23, parseUint [m1, m2] 0 59 with
    | some hr, some mm =>
      if (sg = '-' ∨ sg = '+') ∧ c = ':' then
        some (if sg = '-' then -(((hr * 60 + mm) * 60 : Nat) : Int)
              else (((hr * 60 + mm) * 60 : Nat) : Int))
      else none
    | _, _ => none
  | _ => none

/-- Go `parseRFC3339`, the strict parser `Time.UnmarshalJSON` tries first;
`none` is its result `ok = false`. -/
def parseRFC3339 (s : Str) : Option Time :=
  match s with
  | y1 :: y2 :: y3 :: y4 :: p1 :: m1 :: m2 :: p2 :: d1 :: d2 :: p3 :: h1 :: h2 :: p4 ::
      n1 :: n2 :: p5 :: s1 :: s2 :: rest =>
    match parseUint [y1, y2, y3, y4] 0 9999, parseUint [m1, m2] 1 12 with
    | some year, some month =>
      match parseUint [d1, d2] 1 (daysIn month year), parseUint [h1, h2] 0 23,
          parseUint [n1, n2] 0 59, parseUint [s1, s2] 0 59 with
      | some day, some hour, some min, some sec =>
        if p1 = '-' ∧ p2 = '-' ∧ p3 = 'T' ∧ p4 = ':' ∧ p5 = ':' then
          match parseZone (parseFraction rest).2 with
          | some off => some ⟨(year : Int), month, day, hour, min, sec, (parseFraction rest).1, off⟩
          | none => none
        else none
      | _, _, _, _ => none
    | _, _ => none
  | _ => none

/-- The lower-case hexadecimal digit of `n < 16`. -/
def hexChar (n : Nat) : Char :=
  if n < 10 then Char.ofNat (48 + n) else Char.ofNat (87 + n)

/-- The bytes of the UTF-8 encoding of a character. -/
def utf8Char (c : Char) : List Nat :=
  if c.toNat < 128 then [c.toNat]
  else if c.toNat < 2048 then [192 + c.toNat / 64, 128 + c.toNat % 64]
  else if c.toNat < 65536 then
    [224 + c.toNat / 4096, 128 + c.toNat / 64 % 64, 128 + c.toNat % 64]
  else
    [240 + c.toNat / 262144, 128 + c.toNat / 4096 % 64, 128 + c.toNat / 64 % 64,
      128 + c.toNat % 64]

/-- The bytes of a Go string. -/
def utf8Bytes (s : Str) : List Nat := (s.map utf8Char).flatten

/-- The first byte of the UTF-8 encoding of a character. -/
def firstByte (c : Char) : Nat := (utf8Char c).headD 0

/-- Go `quote` of package `time`: the text between double quotes, with a
backslash before `"` and `\`, and every byte of a control character or of a
character outside ASCII written `\xHH`. -/
def timeQuote (s : Str) : Str :=
  ['"'] ++ (s.map fun c =>
    if 128 ≤ c.toNat ∨ c.toNat < 32 then
      ((utf8Char c).map fun b => ['\\', 'x', hexChar (b / 16), hexChar (b % 16)]).flatten
    else if c = '"' ∨ c = '\\' then ['\\', c]
    else [c]).flatten ++ ['"']

/-- The layout `time.RFC3339`. -/
def layoutRFC3339 : Str := "2006-01-02T15:04:05Z07:00".toList

/-- The text of a `*time.ParseError` without message: the element of the
value that could not be parsed as an element of the layout. -/
def parseErrorText (value valueElem layoutElem : Str) : Str :=
  "parsing time ".toList ++ timeQuote value ++ " as ".toList ++ timeQuote layoutRFC3339 ++
    ": cannot parse ".toList ++ timeQuote valueElem ++ " as ".toList ++ timeQuote layoutElem

/-- The text of a `*time.ParseError` with a message. -/
def parseErrorMessage (value message : Str) : Str :=
  "parsing time ".toList ++ timeQuote value ++ message

/-- Go `getnum`: a number of two digits, or of one digit when the field is
not of fixed width, and the text after it. -/
def getnum (s : Str) (fixed : Bool) : Option (Nat × Str) :=
  match s with
  | [] => none
  | a :: r =>
    if isDigit a then
      match r with
      | [] => if fixed then none else some (digitVal a, [])
      | b :: r2 =>
        if isDigit b then some (digitVal a * 10 + digitVal b, r2)
        else if fixed then none else some (digitVal a, r)
    else none

/-- A literal character of the layout (Go `skip`). -/
def expectChar (avalue : Str) (c : Char) (value : Str) : Except Str Str :=
  match value with
  | [] => .error (parseErrorText avalue value [c])
  | x :: r => if x = c then .ok r else .error (parseErrorText avalue value [c])

/-- A numeric element of the layout, read by `getnum`. -/
def expectNum (avalue layoutElem : Str) (fixed : Bool) (value : Str) :
    Except Str (Nat × Str) :=
  match getnum value fixed with
  | some p => .ok p
  | none => .error (parseErrorText avalue value layoutElem)

/-- The fractional second `time.Parse` accepts after the seconds although the
layout has none: a dot or a comma followed by at least one digit. -/
def parseFractionLenient (s : Str) : Nat × Str :=
  match s with
  | p :: c :: r =>
    if (p = '.' ∨ p = ',') ∧ isDigit c = true then
      (parseNanoseconds ((c :: r).takeWhile isDigit), (c :: r).dropWhile isDigit)
    else (0, s)
  | _ => (0, s)

/-- A number of two digits given by two bytes. -/
def num2 (a b : Option Nat) : Option Nat :=
  match a, b with
  | some x, some y =>
    if 48 ≤ x ∧ x ≤ 57 ∧ 48 ≤ y ∧ y ≤ 57 then some ((x - 48) * 10 + (y - 48)) else none
  | _, _ => none

/-- The hours of the zone of `time.Parse`, the bytes 1 and 2 of the text. -/
def zoneHour (value : Str) : Option Nat :=
  num2 ((utf8Bytes value).get? 1) ((utf8Bytes value).get? 2)

/-- The minutes of the zone of `time.Parse`, the bytes 4 and 5 of the text,
read only when the hours are two digits. -/
def zoneMinute (value : Str) : Option Nat :=
  if (zoneHour value).isSome then num2 ((utf8Bytes value).get? 4) ((utf8Bytes value).get? 5)
  else none

/-- The element `Z07:00` of `time.Parse`: `Z`, or a sign, two digits, a colon
and two digits, taken at fixed byte positions; hours up to 24 and minutes up to
60 pass the range test. Returns the offset in seconds and the text after the
zone. -/
def parseZoneLenient (avalue value : Str) : Except Str (Int × Str) :=
  if value.head? = some 'Z' then .ok (0, value.drop 1)
  else if (utf8Bytes value).length < 6 ∨ (utf8Bytes value).get? 3 ≠ some 58 then
    .error (parseErrorText avalue value "Z07:00".toList)
  else if 60 < (zoneMinute value).getD 0 then
    .error (parseErrorMessage avalue ": time zone offset minute out of range".toList)
  else if 24 < (zoneHour value).getD 0 then
    .error (parseErrorMessage avalue ": time zone offset hour out of range".toList)
  else if (zoneHour value).isSome ∧ (zoneMinute value).isSome ∧
      (utf8Bytes value).head? = some 43 then
    .ok (((((zoneHour value).getD 0 * 60 + (zoneMinute value).getD 0) * 60 : Nat) : Int),
      value.drop 6)
  else if (zoneHour value).isSome ∧ (zoneMinute value).isSome ∧
      (utf8Bytes value).head? = some 45 then
    .ok (-((((zoneHour value).getD 0 * 60 + (zoneMinute value).getD 0) * 60 : Nat) : Int),
      value.drop 6)
  else .error (parseErrorText avalue value "Z07:00".toList)

/-- The elements of the layout after the year: month, day, hour, minute,
second with an optional fraction, and zone; then the test for text left over
and the test of the day of the month. -/
def timeParseRest (avalue : Str) (year : Nat) (value : Str) : Except Str Time :=
  match expectChar avalue '-' value with
  | .error e => .error e
  | .ok v1 =>
  match expectNum avalue "01".toList true v1 with
  | .error e => .error e
  | .ok (month, v2) =>
  if month = 0 ∨ 12 < month then
    .error (parseErrorMessage avalue ": month out of range".toList)
  else
  match expectChar avalue '-' v2 with
  | .error e => .error e
  | .ok v3 =>
  match expectNum avalue "02".toList true v3 with
  | .error e => .error e
  | .ok (day, v4) =>
  match expectChar avalue 'T' v4 with
  | .error e => .error e
  | .ok v5 =>
  match expectNum avalue "15".toList false v5 with
  | .error e => .error e
  | .ok (hour, v6) =>
  if 24 ≤ hour then .error (parseErrorMessage avalue ": hour out of range".toList)
  else
  match expectChar avalue ':' v6 with
  | .error e => .error e
  | .ok v7 =>
  match expectNum avalue "04".toList true v7 with
  | .error e => .error e
  | .ok (min, v8) =>
  if 60 ≤ min then .error (parseErrorMessage avalue ": minute out of range".toList)
  else
  match expectChar avalue ':' v8 with
  | .error e => .error e
  | .ok v9 =>
  match expectNum avalue "05".toList true v9 with
  | .error e => .error e
  | .ok (sec, v10) =>
  if 60 ≤ sec then .error (parseErrorMessage avalue ": second out of range".toList)
  else
  match parseZoneLenient avalue (parseFractionLenient v10).2 with
  | .error e => .error e
  | .ok (off, v11) =>
  if v11 ≠ [] then
    .error (parseErrorMessage avalue (": extra text: ".toList ++ timeQuote v11))
  else if day < 1 ∨ daysIn month year < day then
    .error (parseErrorMessage avalue ": day out of range".toList)
  else .ok ⟨(year : Int), month, day, hour, min, sec, (parseFractionLenient v10).1, off⟩

/-- Go `time.Parse(time.RFC3339, value)`: the year of four digits, then the
other elements of the layout. -/
def timeParse (avalue : Str) : Except Str Time :=
  match avalue with
  | y1 :: y2 :: y3 :: y4 :: rest =>
    if isDigit y1 ∧ isDigit y2 ∧ isDigit y3 ∧ isDigit y4 then
      timeParseRest avalue (digitsVal [y1, y2, y3, y4]) rest
    else .error (parseErrorText avalue avalue "2006".toList)
  | _ => .error (parseErrorText avalue avalue "2006".toList)

/-- Go `parseStrictRFC3339`, the parser of `Time.UnmarshalJSON`: the strict
parser first, and when that fails `time.Parse(RFC3339, ...)`, whose result is
returned as it is (the stricter tests after it are switched off in Go). -/
def parseStrictRFC3339 (s : Str) : Except Str Time :=
  match parseRFC3339 s with
  | some t => .ok t
  | none => timeParse s

/-- A calendar reading `Time.UnmarshalJSON` can produce: a four-digit year, a
date and a time of day that exist and a zone offset of whole minutes. -/
def Time.calendar (t : Time) : Prop :=
  0 ≤ t.year ∧ t.year ≤ 9999 ∧ 1 ≤ t.month ∧ t.month ≤ 12 ∧
  1 ≤ t.day ∧ t.day ≤ daysIn t.month t.year.toNat ∧
  t.hour < 24 ∧ t.minute < 60 ∧ t.second < 60 ∧ t.nsec < 1000000000 ∧
  t.offset % 60 = 0

instance (t : Time) : Decidable t.calendar := by
  unfold Time.calendar; infer_instance

/-- The text RFC 3339 prescribes for a time, to the second:
`YYYY-MM-DDTHH:MM:SS` followed by `Z` for offset zero and otherwise by the
sign of the offset and its hours and minutes, `+HH:MM` or `-HH:MM`. Written
from RFC 3339 (section 5.6) for the times `Time.wf` singles out. -/
def rfc3339Text (t : Time) : Str :=
  [digitChar (t.year.toNat / 1000 % 10), digitChar (t.year.toNat / 100 % 10),
    digitChar (t.year.toNat / 10 % 10), digitChar (t.year.toNat % 10), '-',
    digitChar (t.month / 10), digitChar (t.month % 10), '-',
    digitChar (t.day / 10), digitChar (t.day % 10), 'T',
    digitChar (t.hour / 10), digitChar (t.hour % 10), ':',
    digitChar (t.minute / 10), digitChar (t.minute % 10), ':',
    digitChar (t.second / 10), digitChar (t.second % 10)] ++
  (if t.offset = 0 then ['Z']
   else
    [if t.offset < 0 then '-' else '+',
      digitChar (t.offset.natAbs / 3600 / 10), digitChar (t.offset.natAbs / 3600 % 10), ':',
      digitChar (t.offset.natAbs / 60 % 60 / 10), digitChar (t.offset.natAbs / 60 % 60 % 10)])

/-! ## `encoding/json`: text of strings -/

/-- Value of a hexadecimal digit, either case. -/
def hexVal (c : Char) : Option Nat :=
  if 48 ≤ c.toNat ∧ c.toNat ≤ 57 then some (c.toNat - 48)
  else if 97 ≤ c.toNat ∧ c.toNat ≤ 102 then some (c.toNat - 87)
  else if 65 ≤ c.toNat ∧ c.toNat ≤ 70 then some (c.toNat - 55)
  else none

/-- How `json.Marshal` writes one character of a string (HTML escaping on, as
`json.Marshal` has it): `\"`, `\\`, `\b`, `\f`, `\n`, `\r`, `\t`; `\u00XX` for
other control characters and for `<`, `>`, `&`; `\u2028` and `\u2029` for
the characters U+2028 and U+2029; every other character as itself. -/
def escapeChar (c : Char) : Str :=
  if c = '"' then ['\\', '"']
  else if c = '\\' then ['\\', '\\']
  else if c.toNat = 8 then ['\\', 'b']
  else if c.toNat = 12 then ['\\', 'f']
  else if c = '\n' then ['\\', 'n']
  else if c = '\r' then ['\\', 'r']
  else if c = '\t' then ['\\', 't']
  else if c.toNat < 32 ∨ c = '<' ∨ c = '>' ∨ c = '&' then
    ['\\', 'u', '0', '0', hexChar (c.toNat / 16), hexChar (c.toNat % 16)]
  else if c.toNat = 8232 ∨ c.toNat = 8233 then
    ['\\', 'u', '2', '0', '2', hexChar (c.toNat % 16)]
  else [c]

/-- The text between the quotes of a marshalled string. -/
def escapeString (s : Str) : Str := (s.map escapeChar).flatten

/-- A marshalled string. -/
def quoteString (s : Str) : Str := ['"'] ++ escapeString s ++ ['"']

/-- Go `quoteChar` of `encoding/json`: a byte as it is named in the text of
an error, between single quotes: `'\''` and `'"'` for the two quotes,
otherwise the byte as `strconv.Quote` writes the character of that number. -/
def quoteChar (b : Nat) : Str :=
  if b = 39 then "'\\''".toList
  else if b = 34 then "'\"'".toList
  else
    "'".toList ++
    (if b = 92 then ['\\', '\\']
     else if (32 ≤ b ∧ b ≤ 126) ∨ (161 ≤ b ∧ b ≤ 255 ∧ b ≠ 173) then [Char.ofNat b]
     else if b = 7 then ['\\', 'a']
     else if b = 8 then ['\\', 'b']
     else if b = 12 then ['\\', 'f']
     else if b = 10 then ['\\', 'n']
     else if b = 13 then ['\\', 'r']
     else if b = 9 then ['\\', 't']
     else if b = 11 then ['\\', 'v']
     else if b < 32 ∨ b = 127 then ['\\', 'x', hexChar (b / 16), hexChar (b % 16)]
     else ['\\', 'u', '0', '0', hexChar (b / 16), hexChar (b % 16)]) ++
    "'".toList

/-- The errors of the scanner, Go `*json.SyntaxError`: a byte the scanner
cannot take in the state it is in, named with the context the scanner gives, or
the end of the input inside a value. -/
inductive ScanError where
  | invalidCharacter (byte : Nat) (context : Str)
  | unexpectedEnd
  deriving DecidableEq, Repr

/-- The text of a `*json.SyntaxError`. -/
def ScanError.Error : ScanError → Str
  | .invalidCharacter byte context =>
    "invalid character ".toList ++ quoteChar byte ++ [' '] ++ context
  | .unexpectedEnd => "unexpected end of JSON input".toList

/-- The error of the scanner on a character: on its first byte. -/
def invalidChar (c : Char) (context : Str) : ScanError :=
  .invalidCharacter (firstByte c) context

/-- The error of the scanner at the end of the input in a state that does not
take a space: `eof` steps the scanner with a space, and the error names it. -/
def invalidEnd (context : Str) : ScanError := .invalidCharacter 32 context

/-- The states of the scanner inside a string literal: in the string, after a
backslash, and inside a `\u` escape with some hexadecimal digits still to
come. -/
inductive StringState where
  | inString
  | inStringEsc
  | inStringEscU (digits : Nat)
  deriving DecidableEq, Repr

/-- Puts a character in front of the text scanned after it. -/
def keepChar (c : Char) : Except ScanError (Str × Str) → Except ScanError (Str × Str)
  | .ok (raw, after) => .ok (c :: raw, after)
  | .error e => .error e

/-- The scanner inside a string literal (`stateInString`, `stateInStringEsc`,
`stateInStringEscU` to `stateInStringEscU123`): returns the text up to the
closing quote, escapes left as written, and the text after the closing quote.
A control character, an unknown escape or the end of the input is an error. -/
def scanStringFrom : StringState → Str → Except ScanError (Str × Str)
  | .inString, [] => .error .unexpectedEnd
  | .inStringEsc, [] => .error (invalidEnd "in string escape code".toList)
  | .inStringEscU _, [] => .error (invalidEnd "in \\u hexadecimal character escape".toList)
  | .inString, c :: rest =>
    if c = '"' then .ok ([], rest)
    else if c = '\\' then keepChar c (scanStringFrom .inStringEsc rest)
    else if c.toNat < 32 then .error (invalidChar c "in string literal".toList)
    else keepChar c (scanStringFrom .inString rest)
  | .inStringEsc, c :: rest =>
    if c = '"' ∨ c = '\\' ∨ c = '/' ∨ c = 'b' ∨ c = 'f' ∨ c = 'n' ∨ c = 'r' ∨ c = 't' then
      keepChar c (scanStringFrom .inString rest)
    else if c = 'u' then keepChar c (scanStringFrom (.inStringEscU 4) rest)
    else .error (invalidChar c "in string escape code".toList)
  | .inStringEscU digits, c :: rest =>
    if (hexVal c).isSome then
      keepChar c (scanStringFrom (if digits ≤ 1 then .inString else .inStringEscU (digits - 1)) rest)
    else .error (invalidChar c "in \\u hexadecimal character escape".toList)

/-- The scanner on a string literal, after the opening quote. -/
def scanString (s : Str) : Except ScanError (Str × Str) := scanStringFrom .inString s

/-- Go `getu4`: the number of a `\uXXXX` escape at the head of the text. -/
def getu4 (s : Str) : Option Nat :=
  match s with
  | '\\' :: 'u' :: h1 :: h2 :: h3 :: h4 :: _ =>
    match hexVal h1, hexVal h2, hexVal h3, hexVal h4 with
    | some a, some b, some c, some d => some (((a * 16 + b) * 16 + c) * 16 + d)
    | _, _, _, _ => none
  | _ => none

/-- The character U+FFFD. -/
def replacementChar : Char := Char.ofNat 65533

/-- The character a one-letter escape stands for. -/
def unescape (d : Char) : Char :=
  if d = 'b' then Char.ofNat 8 else if d = 'f' then Char.ofNat 12
  else if d = 'n' then '\n' else if d = 'r' then '\r'
  else if d = 't' then '\t' else d

/-- Go `unquote` on the text between the quotes of a scanned string literal:
escapes are replaced by the characters they stand for, a surrogate pair by its
character and a lone surrogate by U+FFFD. The first argument is the number of
characters still to pass over, those of an escape already decoded. -/
def unquoteFrom : Nat → Str → Str
  | _, [] => []
  | skip + 1, _ :: rest => unquoteFrom skip rest
  | 0, c :: rest =>
    if c = '\\' then
      if rest.head? = some 'u' then
        match getu4 (c :: rest) with
        | some r1 =>
          if 55296 ≤ r1 ∧ r1 < 57344 then
            match getu4 (rest.drop 5) with
            | some r2 =>
              if r1 < 56320 ∧ 56320 ≤ r2 ∧ r2 < 57344 then
                Char.ofNat ((r1 - 55296) * 1024 + (r2 - 56320) + 65536) ::
                  unquoteFrom 11 rest
              else replacementChar :: unquoteFrom 5 rest
            | none => replacementChar :: unquoteFrom 5 rest
          else Char.ofNat r1 :: unquoteFrom 5 rest
        | none => c :: unquoteFrom 0 rest
      else
        match rest.head? with
        | some d => unescape d :: unquoteFrom 1 rest
        | none => [c]
    else c :: unquoteFrom 0 rest

/-- Go `unquote`. -/
def unquote (raw : Str) : Str := unquoteFrom 0 raw

/-! ## `encoding/json`: syntax of values -/

/-- JSON white space. -/
def isSpace (c : Char) : Bool := c = ' ' || c = '\t' || c = '\r' || c = '\n'

/-- Drops leading white space. -/
def skipSpace : Str → Str
  | [] => []
  | c :: rest => if isSpace c then skipSpace rest else c :: rest

/-- The exponent of a number, after `e` or `E` (`stateE`, `stateESign`,
`stateE0`): an optional sign and at least one digit. Returns the text after the
number. -/
def scanExponent (s : Str) : Except ScanError Str :=
  match s with
  | [] => .error (invalidEnd "in exponent of numeric literal".toList)
  | c :: r =>
    if c = '+' ∨ c = '-' then
      match r with
      | [] => .error (invalidEnd "in exponent of numeric literal".toList)
      | d :: r1 =>
        if isDigit d then .ok (r1.dropWhile isDigit)
        else .error (invalidChar d "in exponent of numeric literal".toList)
    else if isDigit c then .ok (r.dropWhile isDigit)
    else .error (invalidChar c "in exponent of numeric literal".toList)

/-- What may follow the integer part of a number (`state0`, `stateDot`,
`stateDot0`): a fraction, an exponent. -/
def scanFraction (s : Str) : Except ScanError Str :=
  match s with
  | [] => .ok []
  | c :: r =>
    if c = '.' then
      match r with
      | [] => .error (invalidEnd "after decimal point in numeric literal".toList)
      | d :: r1 =>
        if isDigit d then
          match r1.dropWhile isDigit with
          | [] => .ok []
          | e :: r2 => if e = 'e' ∨ e = 'E' then scanExponent r2 else .ok (e :: r2)
        else .error (invalidChar d "after decimal point in numeric literal".toList)
    else if c = 'e' ∨ c = 'E' then scanExponent r
    else .ok (c :: r)

/-- The integer part of a number after the sign `-` (`stateNeg`), and what
follows it. -/
def scanNeg (s : Str) : Except ScanError Str :=
  match s with
  | [] => .error (invalidEnd "in numeric literal".toList)
  | c :: r =>
    if c = '0' then scanFraction r
    else if isDigit c then scanFraction (r.dropWhile isDigit)
    else .error (invalidChar c "in numeric literal".toList)

/-- The context the scanner gives inside a literal `true`, `false` or `null`. -/
def literalContext (name : Str) (expected : Char) : Str :=
  "in literal ".toList ++ name ++ " (expecting '".toList ++ [expected] ++ "')".toList

/-- The letters of a literal after the first (`stateT` to `stateTru`, `stateF`
to `stateFals`, `stateN` to `stateNul`): returns the text after the literal. -/
def scanLiteral (name : Str) : Str → Str → Except ScanError Str
  | [], s => .ok s
  | e :: _, [] => .error (invalidEnd (literalContext name e))
  | e :: es, c :: r =>
    if c = e then scanLiteral name es r else .error (invalidChar c (literalContext name e))

/-- A JSON value as the decoder sees it: the kind of the value, the elements of
an array, the members of an object in the order written, and for a string the
text between its quotes with the escapes as written. -/
inductive JVal where
  | null
  | bool
  | number
  | string (raw : Str)
  | array (items : List JVal)
  | object (members : List (Str × JVal))

/-- Go `maxNestingDepth`. -/
def maxNestingDepth : Nat := 10000

mutual
/-- Reads one value, after optional white space (`stateBeginValue`); `depth`
counts the arrays and objects around it. Returns the value and the text after
it, or the error of the scanner. Structural on the first argument, a bound on
the calls: `none` says that the bound was reached, which does not happen with
the bound `readJSON` sets (`parseValue_total`). -/
def parseValue : Nat → Nat → Str → Option (Except ScanError (JVal × Str))
  | 0, _, _ => none
  | fuel + 1, depth, s =>
    match skipSpace s with
    | [] => some (.error .unexpectedEnd)
    | c :: r =>
      if c = '"' then
        match scanString r with
        | .ok (raw, after) => some (.ok (.string raw, after))
        | .error e => some (.error e)
      else if c = '[' then
        if depth < maxNestingDepth then
          match skipSpace r with
          | [] => some (.error .unexpectedEnd)
          | c1 :: r1 =>
            if c1 = ']' then some (.ok (.array [], r1))
            else
              match parseElements fuel (depth + 1) (c1 :: r1) with
              | some (.ok (items, after)) => some (.ok (.array items, after))
              | some (.error e) => some (.error e)
              | none => none
        else some (.error (invalidChar c "exceeded max depth".toList))
      else if c = '{' then
        if depth < maxNestingDepth then
          match skipSpace r with
          | [] => some (.error .unexpectedEnd)
          | c1 :: r1 =>
            if c1 = '}' then some (.ok (.object [], r1))
            else
              match parseMembers fuel (depth + 1) (c1 :: r1) with
              | some (.ok (members, after)) => some (.ok (.object members, after))
              | some (.error e) => some (.error e)
              | none => none
        else some (.error (invalidChar c "exceeded max depth".toList))
      else if c = 't' then
        match scanLiteral "true".toList "rue".toList r with
        | .ok after => some (.ok (.bool, after))
        | .error e => some (.error e)
      else if c = 'f' then
        match scanLiteral "false".toList "alse".toList r with
        | .ok after => some (.ok (.bool, after))
        | .error e => some (.error e)
      else if c = 'n' then
        match scanLiteral "null".toList "ull".toList r with
        | .ok after => some (.ok (.null, after))
        | .error e => some (.error e)
      else if c = '-' then
        match scanNeg r with
        | .ok after => some (.ok (.number, after))
        | .error e => some (.error e)
      else if c = '0' then
        match scanFraction r with
        | .ok after => some (.ok (.number, after))
        | .error e => some (.error e)
      else if isDigit c then
        match scanFraction (r.dropWhile isDigit) with
        | .ok after => some (.ok (.number, after))
        | .error e => some (.error e)
      else some (.error (invalidChar c "looking for beginning of value".toList))
/-- Reads the elements of a non-empty array up to its closing bracket: a
value, then (`stateEndValue`) a comma and the other elements, or the closing
bracket. -/
def parseElements : Nat → Nat → Str → Option (Except ScanError (List JVal × Str))
  | 0, _, _ => none
  | fuel + 1, depth, s =>
    match parseValue fuel depth s with
    | none => none
    | some (.error e) => some (.error e)
    | some (.ok (v, r)) =>
      match skipSpace r with
      | [] => some (.error .unexpectedEnd)
      | c :: r1 =>
        if c = ',' then
          match parseElements fuel depth r1 with
          | some (.ok (vs, after)) => some (.ok (v :: vs, after))
          | some (.error e) => some (.error e)
          | none => none
        else if c = ']' then some (.ok ([v], r1))
        else some (.error (invalidChar c "after array element".toList))
/-- Reads the members of a non-empty object up to its closing brace: a key
(`stateBeginString`), a colon, a value, then (`stateEndValue`) a comma and the
other members, or the closing brace. -/
def parseMembers : Nat → Nat → Str → Option (Except ScanError (List (Str × JVal) × Str))
  | 0, _, _ => none
  | fuel + 1, depth, s =>
    match skipSpace s with
    | [] => some (.error .unexpectedEnd)
    | q :: r =>
      if q = '"' then
        match scanString r with
        | .error e => some (.error e)
        | .ok (key, r1) =>
          match skipSpace r1 with
          | [] => some (.error .unexpectedEnd)
          | c1 :: r2 =>
            if c1 = ':' then
              match parseValue fuel depth r2 with
              | none => none
              | some (.error e) => some (.error e)
              | some (.ok (v, r3)) =>
                match skipSpace r3 with
                | [] => some (.error .unexpectedEnd)
                | c3 :: r4 =>
                  if c3 = ',' then
                    match parseMembers fuel depth r4 with
                    | some (.ok (ms, after)) => some (.ok ((key, v) :: ms, after))
                    | some (.error e) => some (.error e)
                    | none => none
                  else if c3 = '}' then some (.ok ([(key, v)], r4))
                  else some (.error (invalidChar c3 "after object key:value pair".toList))
            else some (.error (invalidChar c1 "after object key".toList))
      else some (.error (invalidChar q "looking for beginning of object key string".toList))
end

/-- Go `checkValid` together with the reading of the value: the whole text is
one JSON value between optional white space (`stateEndTop`), and the value is
returned; or the error of the scanner is. -/
def readJSON (data : Str) : Except ScanError JVal :=
  match parseValue (2 * data.length + 2) 0 data with
  | some (.ok (v, after)) =>
    match skipSpace after with
    | [] => .ok v
    | c :: _ => .error (invalidChar c "after top-level value".toList)
  | some (.error e) => .error e
  | none => .error .unexpectedEnd

/-- The value of a text that is valid JSON. -/
def parseJSON (data : Str) : Option JVal :=
  match readJSON data with
  | .ok v => some v
  | .error _ => none

/-! ## The data of the program -/

/-- `type ServerInfo struct`. -/
structure ServerInfo where
  Status : Str
  Hostname : Str
  HostIP : Str
  OtherContent : Str
  deriving DecidableEq, Repr

/-- `type RequestDetails struct`. -/
structure RequestDetails where
  IP : Str
  Time : Time
  Content : Str
  deriving DecidableEq, Repr

/-- The zero value of `RequestDetails`. -/
def RequestDetails.zero : RequestDetails := ⟨[], Time.zero, []⟩

/-- A record whose time RFC 3339 can render. -/
def RequestDetails.wf (r : RequestDetails) : Prop := r.Time.wf

instance (r : RequestDetails) : Decidable r.wf := by
  unfold RequestDetails.wf; infer_instance

/-- `const historyFilePath`. -/
def historyFilePath : Str := "./log/history.json".toList

/-! ## `json.Unmarshal` into `[]RequestDetails` -/

/-- The errors of `json.Unmarshal`: a `*json.SyntaxError`, a
`*json.UnmarshalTypeError` (JSON kind and Go target), and the error of
`Time.UnmarshalJSON`. -/
inductive JsonError where
  | malformed (e : ScanError)
  | unmarshalType (value : Str) (target : Str)
  | time (msg : Str)
  deriving DecidableEq, Repr

/-- The text of an error. -/
def JsonError.Error : JsonError → Str
  | .malformed e => e.Error
  | .unmarshalType value target =>
    "json: cannot unmarshal ".toList ++ value ++ " into Go ".toList ++ target
  | .time msg => msg

/-- The kind of a value, as `UnmarshalTypeError.Value` names it. -/
def JVal.kind : JVal → Str
  | .null => "null".toList
  | .bool => "bool".toList
  | .number => "number".toList
  | .string _ => "string".toList
  | .array _ => "array".toList
  | .object _ => "object".toList

/-- The first of two optional errors (`saveError` keeps the earliest). -/
def firstError (saved new : Option JsonError) : Option JsonError :=
  match saved with
  | some e => some e
  | none => new

/-- The fields of `RequestDetails`. -/
inductive Field where
  | ip
  | time
  | content
  deriving DecidableEq, Repr

/-- ASCII lower case of a character. -/
def asciiLower (c : Char) : Char :=
  if 65 ≤ c.toNat ∧ c.toNat ≤ 90 then Char.ofNat (c.toNat + 32) else c

/-- The field an object key selects: the field whose JSON name equals the key
up to case. (Go prefers an exact match; the three names differ up to case, so
a key selects at most one field. None of the names has a letter to which a
character outside ASCII folds.) -/
def fieldOf (key : Str) : Option Field :=
  if key.map asciiLower = ['i', 'p'] then some .ip
  else if key.map asciiLower = ['t', 'i', 'm', 'e'] then some .time
  else if key.map asciiLower = ['c', 'o', 'n', 't', 'e', 'n', 't'] then some .content
  else none

/-- Decoding a value into a `string` field: a JSON string sets it, `null`
leaves it, any other value leaves it and is a type error to save. -/
def decodeString (old : Str) (field : Str) (v : JVal) : Str × Option JsonError :=
  match v with
  | .string raw => (unquote raw, none)
  | .null => (old, none)
  | other =>
    (old, some (.unmarshalType other.kind
      ("struct field RequestDetails.".toList ++ field ++ " of type string".toList)))

/-- Decoding a value into the `time.Time` field, through `Time.UnmarshalJSON`:
`null` leaves it; a string is parsed by `parseStrictRFC3339`, the text between
the quotes taken as written, and a failure leaves the zero time; any other
value is an error. The error ends the decoding. -/
def decodeTime (old : Time) (v : JVal) : Time × Option JsonError :=
  match v with
  | .null => (old, none)
  | .string raw =>
    match parseStrictRFC3339 raw with
    | .ok t => (t, none)
    | .error msg => (Time.zero, some (.time msg))
  | _ => (old, some (.time "Time.UnmarshalJSON: input is not a JSON string".toList))

/-- Decoding the members of an object into a record, in the order written.
Returns the record, the saved type error and the error that ended the
decoding, if any. -/
def decodeMembers : List (Str × JVal) → RequestDetails → Option JsonError →
    RequestDetails × Option JsonError × Option JsonError
  | [], r, saved => (r, saved, none)
  | (key, v) :: rest, r, saved =>
    match fieldOf (unquote key) with
    | none => decodeMembers rest r saved
    | some .ip =>
      decodeMembers rest { r with IP := (decodeString r.IP ['i', 'p'] v).1 }
        (firstError saved (decodeString r.IP ['i', 'p'] v).2)
    | some .content =>
      decodeMembers rest
        { r with Content := (decodeString r.Content "content".toList v).1 }
        (firstError saved (decodeString r.Content "content".toList v).2)
    | some .time =>
      match (decodeTime r.Time v).2 with
      | none => decodeMembers rest { r with Time := (decodeTime r.Time v).1 } saved
      | some e => ({ r with Time := (decodeTime r.Time v).1 }, saved, some e)

/-- Decoding a value into a new element of the slice, which starts as the zero
record: an object is decoded member by member, `null` leaves the element, any
other value leaves it and is a type error to save. -/
def decodeRecord (v : JVal) (saved : Option JsonError) :
    RequestDetails × Option JsonError × Option JsonError :=
  match v with
  | .object members => decodeMembers members RequestDetails.zero saved
  | .null => (RequestDetails.zero, saved, none)
  | other =>
    (RequestDetails.zero,
      firstError saved (some (.unmarshalType other.kind
        "value of type main.RequestDetails".toList)), none)

/-- Decoding the elements of an array into the slice: the slice grows by one
element before each element is decoded, and an error that ends the decoding
leaves the slice as it is then. -/
def decodeItems : List JVal → Option JsonError →
    List RequestDetails × Option JsonError × Option JsonError
  | [], saved => ([], saved, none)
  | item :: rest, saved =>
    match (decodeRecord item saved).2.2 with
    | some e => ([(decodeRecord item saved).1], (decodeRecord item saved).2.1, some e)
    | none =>
      ((decodeRecord item saved).1 :: (decodeItems rest (decodeRecord item saved).2.1).1,
        (decodeItems rest (decodeRecord item saved).2.1).2)

/-- `json.Unmarshal(data, &history)` for `var history []RequestDetails`, a nil
slice: returns the slice afterwards and the error. The syntax of the whole
text is checked first, and a syntax error leaves the slice nil. Then, in the
words of the package documentation, "if a JSON value is not appropriate for a
given target type ... Unmarshal skips that field and completes the
unmarshaling as best it can", and returns "an UnmarshalTypeError describing
the earliest such error"; an error of `Time.UnmarshalJSON` ends the decoding
at once. In both cases what was decoded stays in the slice. -/
def jsonUnmarshalHistory (data : Str) : List RequestDetails × Option JsonError :=
  match readJSON data with
  | .error e => ([], some (.malformed e))
  | .ok (.array items) =>
    ((decodeItems items none).1,
      firstError (decodeItems items none).2.2 (decodeItems items none).2.1)
  | .ok .null => ([], none)
  | .ok other =>
    ([], some (.unmarshalType other.kind "value of type []main.RequestDetails".toList))

/-! ## `json.Marshal` -/

/-- `json.Marshal` of one `RequestDetails`: the fields in the order of the
struct, under their JSON names. -/
def marshalRecord (r : RequestDetails) : Except Str Str :=
  match r.Time.MarshalJSON with
  | .error e =>
    .error ("json: error calling MarshalJSON for type time.Time: ".toList ++ e)
  | .ok t =>
    .ok ("\x7b\"ip\":".toList ++ quoteString r.IP ++ ",\"time\":".toList ++ t ++
      ",\"content\":".toList ++ quoteString r.Content ++ ['}'])

/-- The elements of a slice, marshalled in order; the first error ends it. -/
def marshalRecords : List RequestDetails → Except Str (List Str)
  | [] => .ok []
  | r :: rest =>
    match marshalRecord r with
    | .error e => .error e
    | .ok t =>
      match marshalRecords rest with
      | .error e => .error e
      | .ok ts => .ok (t :: ts)

/-- `json.Marshal(history)` for a slice that is not nil (the slice
`appendHistory` marshals has at least one element). -/
def jsonMarshalHistory (history : List RequestDetails) : Except Str Str :=
  match marshalRecords history with
  | .error e => .error e
  | .ok ts => .ok (['['] ++ List.intercalate [','] ts ++ [']'])

/-- The members `json.Marshal` writes for a `ServerInfo`, name and value in the
order of the struct; `other_content` is tagged `omitempty` and is left out
when it is the empty string. -/
def ServerInfo.jsonFields (info : ServerInfo) : List (Str × Str) :=
  [("status".toList, info.Status), ("hostname".toList, info.Hostname),
    ("host_ip".toList, info.HostIP)] ++
  (if info.OtherContent = [] then [] else [("other_content".toList, info.OtherContent)])

/-- The text of a JSON object whose values are strings. -/
def encodeObject (fields : List (Str × Str)) : Str :=
  ['{'] ++ List.intercalate [','] (fields.map fun kv => quoteString kv.1 ++ [':'] ++
    quoteString kv.2) ++ ['}']

/-- `json.Marshal(info)`; it has no error for a struct of strings. -/
def jsonMarshalServerInfo (info : ServerInfo) : Except Str Str :=
  .ok (encodeObject info.jsonFields)

/-! ## The world of the program -/

/-- The state of the file `./log/history.json`. -/
inductive FileState where
  | absent
  | unreadable (err : Str)
  | content (data : Str)
  deriving DecidableEq, Repr

/-- What the program changes: the directory `./log`, the history file, and the
lines it prints on standard output. -/
structure World where
  logDir : Bool
  history : FileState
  stdout : List Str
  deriving DecidableEq, Repr

/-- Failures of the file operations of `appendHistory`: the error of
`os.MkdirAll`, if it fails, and the error of `os.WriteFile`, if it fails,
with the state it leaves the file in. -/
structure Faults where
  mkdirAll : Option Str
  writeFile : Option (Str × FileState)
  deriving DecidableEq, Repr

/-- No failure. -/
def Faults.none : Faults := ⟨Option.none, Option.none⟩

/-- What the handler reads from its environment: the results of `os.Hostname()`
and `net.InterfaceAddrs()`, the value of `time.Now()`, the failures of file
operations and the error of writing the response, if any. -/
structure Env where
  hostname : Except Str Str
  ifaddrs : Except Str (List Addr)
  now : Time
  faults : Faults
  responseWriteErr : Option Str
  deriving DecidableEq, Repr

/-- The part of `*http.Request` the handler reads. -/
structure Request where
  Method : Str
  RemoteAddr : Str
  deriving DecidableEq, Repr

/-- The response the handler issues. -/
structure Response where
  status : Nat
  contentType : Str
  body : Str
  deriving DecidableEq, Repr

/-- `fmt.Println` of a label and an error. -/
def World.println (w : World) (label err : Str) : World :=
  { w with stdout := w.stdout ++ [label ++ [' '] ++ err] }

/-- `os.ReadFile(historyFilePath)`. -/
def ReadFile (w : World) : Except Str Str :=
  match w.history with
  | .absent => .error ("open ".toList ++ historyFilePath ++ ": no such file or directory".toList)
  | .unreadable err => .error err
  | .content data => .ok data

/-- `http.Error(w, msg, code)`: a plain-text response whose body is the
message and a line end. -/
def httpError (msg : Str) (code : Nat) : Response :=
  ⟨code, "text/plain; charset=utf-8".toList, msg ++ ['\n']⟩

/-! ## The functions of `main.go` -/

/-- One segment of the rendered history:
`fmt.Sprintf(":: %s - %s - %s ::", req.Time.Format(time.RFC3339), req.Content, req.IP)`. -/
def segment (req : RequestDetails) : Str :=
  ":: ".toList ++ req.Time.FormatRFC3339 ++ " - ".toList ++ req.Content ++ " - ".toList ++
    req.IP ++ " ::".toList

/-- `getHistoryContent`. -/
def getHistoryContent (w : World) : Str :=
  match ReadFile w with
  | .error err => "Error reading history file: ".toList ++ err
  | .ok data =>
    match jsonUnmarshalHistory data with
    | (_, some err) => "Error unmarshalling history: ".toList ++ err.Error
    | (history, none) => history.foldl (fun content req => content ++ segment req) []

/-- `appendHistory`. -/
def appendHistory (io : Faults) (details : RequestDetails) (w : World) : World :=
  let read : List RequestDetails × World :=
    match ReadFile w with
    | .ok data =>
      match jsonUnmarshalHistory data with
      | (history, some err) =>
        (history, w.println "Error unmarshalling history:".toList err.Error)
      | (history, none) => (history, w)
    | .error _ => ([], w)
  match jsonMarshalHistory (read.1 ++ [details]) with
  | .error err => read.2.println "Error marshalling history:".toList err
  | .ok data =>
    match io.mkdirAll with
    | some err => read.2.println "Error creating directory structure:".toList err
    | none =>
      match io.writeFile with
      | some (err, after) =>
        ({ read.2 with logDir := true, history := after }).println
          "Error writing history file:".toList err
      | none => { read.2 with logDir := true, history := .content data }

/-- `logRequestDetails`. -/
def logRequestDetails (env : Env) (r : Request) (w : World) : World :=
  match SplitHostPort r.RemoteAddr with
  | .error err => w.println "Error extracting IP address:".toList err
  | .ok (ip, _) =>
    appendHistory env.faults
      { IP := ip, Time := env.now, Content := "Get Requested".toList } w

/-- The lines after `w.Write(jsonResponse)`: an error of the write is printed,
and handling goes on. -/
def reportWrite (env : Env) (w : World) : World :=
  match env.responseWriteErr with
  | some err => w.println "Error writing JSON response:".toList err
  | none => w

/-- The handler of `/` in `main`. -/
def handler (env : Env) (r : Request) (w : World) : Response × World :=
  match env.hostname with
  | .error err => (httpError err 500, w)
  | .ok hostname =>
    match getHostIP env.ifaddrs with
    | .error err => (httpError err 500, w)
    | .ok hostIP =>
      let info : ServerInfo :=
        { Status := "ok".toList, Hostname := hostname, HostIP := hostIP,
          OtherContent := if r.Method = "GET".toList then getHistoryContent w else [] }
      match jsonMarshalServerInfo info with
      | .error err => (httpError err 500, w)
      | .ok jsonResponse =>
        (⟨200, "application/json".toList, jsonResponse⟩,
          logRequestDetails env r (reportWrite env w))

/-- The history a file state stores: the empty sequence for an absent file, the
decoded sequence for a content that decodes without error. -/
def storedHistory : FileState → Option (List RequestDetails)
  | .absent => some []
  | .unreadable _ => none
  | .content data =>
    match jsonUnmarshalHistory data with
    | (history, none) => some history
    | (_, some _) => none

/-- Calls `appendHistory` on each record in turn, every file operation
succeeding. -/
def appendAll (records : List RequestDetails) (w : World) : World :=
  records.foldl (fun w r => appendHistory Faults.none r w) w

/-! ## What `json.Marshal` writes for a record -/

/-- The text `marshalRecord` writes for a record whose time can be marshalled. -/
def recordText (r : RequestDetails) : Str :=
  "\x7b\"ip\":".toList ++ quoteString r.IP ++ ",\"time\":".toList ++
    (['"'] ++ appendFormatRFC3339 r.Time true ++ ['"']) ++
    ",\"content\":".toList ++ quoteString r.Content ++ ['}']

/-- The value the text of a record is read as. -/
def recordValue (r : RequestDetails) : JVal :=
  .object [(['i', 'p'], .string (escapeString r.IP)),
    (['t', 'i', 'm', 'e'], .string (appendFormatRFC3339 r.Time true)),
    (['c', 'o', 'n', 't', 'e', 'n', 't'], .string (escapeString r.Content))]

/-- The text `json.Marshal` writes for a slice of such records. -/
def historyText (history : List RequestDetails) : Str :=
  ['['] ++ List.intercalate [','] (history.map recordText) ++ [']']

/-- The members of the text of a `ServerInfo`, as they are read. -/
def objectValue (fields : List (Str × Str)) : JVal :=
  .object (fields.map fun kv => (escapeString kv.1, .string (escapeString kv.2)))

/-- A sample time: 29 February 2024, 13:05:09.12, five and a half hours west. -/
def sampleTime : Time := ⟨2024, 2, 29, 13, 5, 9, 120000000, -19800⟩

/-- A sample environment: host `box` with a loopback and a LAN address, no
failure. -/
def sampleEnv : Env :=
  { hostname := .ok "box".toList,
    ifaddrs := .ok [.ipNet [127, 0, 0, 1] [255, 0, 0, 0],
      .ipNet [192, 168, 1, 20] [255, 255, 255, 0]],
    now := sampleTime,
    faults := Faults.none,
    responseWriteErr := none }

/-- A sample record. -/
def sampleRecord : RequestDetails :=
  { IP := "10.1.1.1".toList, Time := sampleTime, Content := "Get Requested".toList }

/-- A history file written by hand: one record, the hour of its time written
with one digit, which `Time.UnmarshalJSON` reads. -/
def handWrittenFile : Str :=
  ("[\x7b\"ip\":\"10.1.1.1\",\"time\":\"2024-02-29T1:05:09Z\"," ++
    "\"content\":\"first\"\x7d]").toList

/-- The record `handWrittenFile` holds. -/
def handWrittenRecord : RequestDetails :=
  { IP := "10.1.1.1".toList, Time := ⟨2024, 2, 29, 1, 5, 9, 0, 0⟩, Content := "first".toList }

/-- A history file written by hand: one record, its time in a zone of `+24:00`,
which `Time.UnmarshalJSON` reads and `Time.MarshalJSON` refuses. -/
def zone24File : Str :=
  ("[\x7b\"ip\":\"10.1.1.1\",\"time\":\"2024-02-29T01:05:09+24:00\"," ++
    "\"content\":\"first\"\x7d]").toList

/-- The world before the first request: no `./log` directory, no history file. -/
def coldWorld : World := { logDir := false, history := .absent, stdout := [] }

/-- A world whose history file holds the given text. -/
def worldWith (data : Str) : World :=
  { logDir := true, history := .content data, stdout := [] }

/-! ## Facts about digits -/

theorem isDigit_digitChar (n : Nat) (h : n < 10) : isDigit (digitChar n) = true := by
  interval_cases n <;> rfl

theorem digitVal_digitChar (n : Nat) (h : n < 10) : digitVal (digitChar n) = n := by
  interval_cases n <;> rfl

theorem digitChar_ne_zero (n : Nat) (h : n < 10) (h0 : n ≠ 0) : digitChar n ≠ '0' := by
  interval_cases n <;> first | exact absurd rfl h0 | decide

theorem takeWhile_digits_stop (ds rest : Str) (c : Char)
    (hds : ∀ x ∈ ds, isDigit x = true) (hc : isDigit c = false) :
    (ds ++ c :: rest).takeWhile isDigit = ds := by
  induction ds with
  | nil => simp [List.takeWhile, hc]
  | cons x xs ih =>
    have hx : isDigit x = true := hds x (by simp)
    simp [List.takeWhile, hx, ih (fun y hy => hds y (by simp [hy]))]

theorem dropWhile_digits_stop (ds rest : Str) (c : Char)
    (hds : ∀ x ∈ ds, isDigit x = true) (hc : isDigit c = false) :
    (ds ++ c :: rest).dropWhile isDigit = c :: rest := by
  induction ds with
  | nil => simp [List.dropWhile, hc]
  | cons x xs ih =>
    have hx : isDigit x = true := hds x (by simp)
    simp [List.dropWhile, hx, ih (fun y hy => hds y (by simp [hy]))]

theorem takeWhile_digits_all (ds : Str) (hds : ∀ x ∈ ds, isDigit x = true) :
    ds.takeWhile isDigit = ds := by
  induction ds with
  | nil => rfl
  | cons x xs ih =>
    have hx : isDigit x = true := hds x (by simp)
    simp [List.takeWhile, hx, ih (fun y hy => hds y (by simp [hy]))]

theorem dropWhile_digits_all (ds : Str) (hds : ∀ x ∈ ds, isDigit x = true) :
    ds.dropWhile isDigit = [] := by
  induction ds with
  | nil => rfl
  | cons x xs ih =>
    have hx : isDigit x = true := hds x (by simp)
    simp [List.dropWhile, hx, ih (fun y hy => hds y (by simp [hy]))]

/-! ## `getHostIP` -/

theorem To4_length (ip ip4 : IP) (h : IP.To4 ip = some ip4) : ip4.length = 4 := by
  unfold IP.To4 at h
  split at h
  · cases h; assumption
  · split at h
    · cases h
      rename_i h16
      simp [h16.1]
    · cases h

theorem byteDecimal_digits (b : Byte) : ∀ x ∈ byteDecimal b, isDigit x = true := by
  intro x hx
  have hb := b.isLt
  unfold byteDecimal at hx
  simp only [List.mem_append, List.mem_singleton] at hx
  rcases hx with (hx | hx) | hx
  · split at hx
    · simp only [List.mem_singleton] at hx
      subst hx; exact isDigit_digitChar _ (by omega)
    · simp at hx
  · split at hx
    · simp only [List.mem_singleton] at hx
      subst hx; exact isDigit_digitChar _ (by omega)
    · simp at hx
  · subst hx; exact isDigit_digitChar _ (by omega)

theorem byteDecimal_octet (b : Byte) :
    ¬ ((byteDecimal b).length = 0 ∨ 3 < (byteDecimal b).length) ∧
    ¬ (1 < (byteDecimal b).length ∧ (byteDecimal b).head? = some '0') ∧
    digitsVal (byteDecimal b) = b.val := by
  have hb := b.isLt
  unfold byteDecimal digitsVal
  by_cases h100 : 100 ≤ b.val
  · have h10 : 10 ≤ b.val := by omega
    have hz : digitChar (b.val / 100) ≠ '0' := digitChar_ne_zero _ (by omega) (by omega)
    simp [h100, h10, hz, digitVal_digitChar (b.val / 100) (by omega),
      digitVal_digitChar (b.val / 10 % 10) (by omega), digitVal_digitChar (b.val % 10) (by omega)]
    omega
  · by_cases h10 : 10 ≤ b.val
    · have hz : digitChar (b.val / 10 % 10) ≠ '0' := digitChar_ne_zero _ (by omega) (by omega)
      simp [h100, h10, hz, 
        digitVal_digitChar (b.val / 10 % 10) (by omega), digitVal_digitChar (b.val % 10) (by omega)]
      omega
    · simp [h100, h10, digitVal_digitChar (b.val % 10) (by omega)]
      omega

theorem readOctet_byteDecimal_dot (b : Byte) (rest : Str) :
    readOctet (byteDecimal b ++ '.' :: rest) = some (b.val, '.' :: rest) := by
  obtain ⟨h1, h2, h3⟩ := byteDecimal_octet b
  have hb := b.isLt
  unfold readOctet
  simp only [takeWhile_digits_stop _ rest '.' (byteDecimal_digits b) (by rfl),
    dropWhile_digits_stop _ rest '.' (byteDecimal_digits b) (by rfl), h3]
  rw [if_neg h1, if_neg h2, if_neg (by omega)]

theorem readOctet_byteDecimal (b : Byte) :
    readOctet (byteDecimal b) = some (b.val, []) := by
  obtain ⟨h1, h2, h3⟩ := byteDecimal_octet b
  have hb := b.isLt
  unfold readOctet
  simp only [takeWhile_digits_all _ (byteDecimal_digits b),
    dropWhile_digits_all _ (byteDecimal_digits b), h3]
  rw [if_neg h1, if_neg h2, if_neg (by omega)]

theorem parseIPv4_dottedDecimal (a b c d : Byte) :
    parseIPv4 (dottedDecimal [a, b, c, d]) = some [a.val, b.val, c.val, d.val] := by
  have e : dottedDecimal [a, b, c, d] =
      byteDecimal a ++ '.' :: (byteDecimal b ++ '.' :: (byteDecimal c ++ '.' :: byteDecimal d)) := by
    simp [dottedDecimal, List.intercalate]
  rw [e]
  unfold parseIPv4
  simp only [readOctet_byteDecimal_dot, readOctet_byteDecimal]

theorem getHostIPLoop_skip (front rest : List Addr) (h : ∀ b ∈ front, b.selected = false) :
    getHostIPLoop (front ++ rest) = getHostIPLoop rest := by
  induction front with
  | nil => rfl
  | cons b bs ih =>
    have hb : b.selected = false := h b (by simp)
    have ih2 := ih (fun y hy => h y (by simp [hy]))
    cases b with
    | ipAddr ip zone => simpa [getHostIPLoop] using ih2
    | ipNet ip mask =>
      simp only [Addr.selected] at hb
      simp only [List.cons_append, getHostIPLoop]
      cases hl : IP.IsLoopback ip with
      | true => simpa using ih2
      | false =>
        cases h4 : IP.To4 ip with
        | none => simpa using ih2
        | some ip4 => simp [hl, h4] at hb

theorem getHostIPLoop_error_iff (addrs : List Addr) :
    (∃ err, getHostIPLoop addrs = .error err) ↔ ∀ a ∈ addrs, a.selected = false := by
  induction addrs with
  | nil => simp [getHostIPLoop]
  | cons b bs ih =>
    rw [List.forall_mem_cons]
    cases b with
    | ipAddr ip zone =>
      have e : (Addr.ipAddr ip zone).selected = false := rfl
      simpa [getHostIPLoop, e] using ih
    | ipNet ip mask =>
      cases hl : IP.IsLoopback ip with
      | true =>
        have e : (Addr.ipNet ip mask).selected = false := by simp [Addr.selected, hl]
        simpa [getHostIPLoop, e, hl] using ih
      | false =>
        cases h4 : IP.To4 ip with
        | none =>
          have e : (Addr.ipNet ip mask).selected = false := by simp [Addr.selected, h4]
          simpa [getHostIPLoop, e, hl, h4] using ih
        | some ip4 =>
          have e : (Addr.ipNet ip mask).selected = true := by simp [Addr.selected, hl, h4]
          simp [getHostIPLoop, e, hl, h4]

theorem getHostIPLoop_error_msg (addrs : List Addr) (err : Str)
    (h : getHostIPLoop addrs = .error err) : err = noHostIPError := by
  induction addrs with
  | nil => simp [getHostIPLoop] at h; exact h.symm
  | cons b bs ih =>
    cases b with
    | ipAddr ip zone => exact ih (by simpa [getHostIPLoop] using h)
    | ipNet ip mask =>
      simp only [getHostIPLoop] at h
      cases hl : IP.IsLoopback ip with
      | true => exact ih (by simpa [hl] using h)
      | false =>
        cases h4 : IP.To4 ip with
        | none => exact ih (by simpa [hl, h4] using h)
        | some ip4 => simp [hl, h4] at h

/-! ## Strings: scanning and unquoting what `json.Marshal` writes -/

theorem hexVal_hexChar (n : Nat) (h : n < 16) : hexVal (hexChar n) = some n := by
  interval_cases n <;> rfl

theorem char_eq_of_toNat (c : Char) (n : Nat) (h : c.toNat = n) : c = Char.ofNat n := by
  rw [← h, Char.ofNat_toNat]

theorem escapeString_cons (c : Char) (cs : Str) :
    escapeString (c :: cs) = escapeChar c ++ escapeString cs := by
  simp [escapeString]

theorem scanStringFrom_escapeChar (c : Char) (tail raw after : Str)
    (h : scanStringFrom .inString tail = .ok (raw, after)) :
    scanStringFrom .inString (escapeChar c ++ tail) = .ok (escapeChar c ++ raw, after) := by
  unfold escapeChar
  split_ifs with h1 h2 h3 h4 h5 h6 h7 h8 h9
  · simp [scanStringFrom, h, keepChar]
  · simp [scanStringFrom, h, keepChar]
  · simp [scanStringFrom, h, keepChar]
  · simp [scanStringFrom, h, keepChar]
  · simp [scanStringFrom, h, keepChar]
  · simp [scanStringFrom, h, keepChar]
  · simp [scanStringFrom, h, keepChar]
  · have hlt : c.toNat < 64 := by
      rcases h8 with h8 | h8 | h8 | h8
      · omega
      · subst h8; decide
      · subst h8; decide
      · subst h8; decide
    have e0 : (hexVal '0').isSome = true := by rfl
    simp [scanStringFrom, h, keepChar, e0, hexVal_hexChar (c.toNat / 16) (by omega),
      hexVal_hexChar (c.toNat % 16) (by omega)]
  · have e0 : (hexVal '0').isSome = true := by rfl
    have e2 : (hexVal '2').isSome = true := by rfl
    simp [scanStringFrom, h, keepChar, e0, e2, hexVal_hexChar (c.toNat % 16) (by omega)]
  · have h8' : ¬ c.toNat < 32 := fun hh => h8 (Or.inl hh)
    simp [scanStringFrom, h, keepChar, h1, h2, h8']

theorem scanString_escapeString (s rest : Str) :
    scanString (escapeString s ++ '"' :: rest) = .ok (escapeString s, rest) := by
  unfold scanString
  induction s with
  | nil => simp [escapeString, scanStringFrom]
  | cons c cs ih =>
    rw [escapeString_cons, List.append_assoc]
    exact scanStringFrom_escapeChar c _ _ _ ih

theorem getu4_cons (h1 h2 h3 h4 : Char) (rest : Str) (a b c d : Nat)
    (e1 : hexVal h1 = some a) (e2 : hexVal h2 = some b) (e3 : hexVal h3 = some c)
    (e4 : hexVal h4 = some d) :
    getu4 ('\\' :: 'u' :: h1 :: h2 :: h3 :: h4 :: rest) =
      some (((a * 16 + b) * 16 + c) * 16 + d) := by
  simp [getu4, e1, e2, e3, e4]

theorem unquoteFrom_u (h1 h2 h3 h4 : Char) (rest : Str) (n : Nat)
    (e : getu4 ('\\' :: 'u' :: h1 :: h2 :: h3 :: h4 :: rest) = some n)
    (hn : ¬ (55296 ≤ n ∧ n < 57344)) :
    unquoteFrom 0 ('\\' :: 'u' :: h1 :: h2 :: h3 :: h4 :: rest) =
      Char.ofNat n :: unquoteFrom 0 rest := by
  rw [unquoteFrom]
  simp only [List.head?_cons, if_true, e, if_neg hn]
  simp [unquoteFrom]

theorem unquoteFrom_simple (d : Char) (rest : Str) (hd : d ≠ 'u') :
    unquoteFrom 0 ('\\' :: d :: rest) = unescape d :: unquoteFrom 0 rest := by
  rw [unquoteFrom]
  simp [hd, unquoteFrom]

theorem unquoteFrom_escapeChar (c : Char) (tail : Str) :
    unquoteFrom 0 (escapeChar c ++ tail) = c :: unquoteFrom 0 tail := by
  unfold escapeChar
  split_ifs with h1 h2 h3 h4 h5 h6 h7 h8 h9
  · subst h1; exact unquoteFrom_simple _ _ (by decide)
  · subst h2; exact unquoteFrom_simple _ _ (by decide)
  · have := char_eq_of_toNat c 8 h3; subst this; exact unquoteFrom_simple _ _ (by decide)
  · have := char_eq_of_toNat c 12 h4; subst this; exact unquoteFrom_simple _ _ (by decide)
  · subst h5; exact unquoteFrom_simple _ _ (by decide)
  · subst h6; exact unquoteFrom_simple _ _ (by decide)
  · subst h7; exact unquoteFrom_simple _ _ (by decide)
  · have hlt : c.toNat < 64 := by
      rcases h8 with h8 | h8 | h8 | h8
      · omega
      · subst h8; decide
      · subst h8; decide
      · subst h8; decide
    have e0 : hexVal '0' = some 0 := by rfl
    have ev : ((0 * 16 + 0) * 16 + c.toNat / 16) * 16 + c.toNat % 16 = c.toNat := by omega
    have hg := getu4_cons '0' '0' (hexChar (c.toNat / 16)) (hexChar (c.toNat % 16)) tail _ _ _ _
      e0 e0 (hexVal_hexChar _ (by omega)) (hexVal_hexChar _ (by omega))
    rw [ev] at hg
    have := unquoteFrom_u _ _ _ _ tail _ hg (by omega)
    rw [Char.ofNat_toNat] at this
    exact this
  · have e0 : hexVal '0' = some 0 := by rfl
    have e2 : hexVal '2' = some 2 := by rfl
    have ev : ((2 * 16 + 0) * 16 + 2) * 16 + c.toNat % 16 = c.toNat := by omega
    have hg := getu4_cons '2' '0' '2' (hexChar (c.toNat % 16)) tail _ _ _ _
      e2 e0 e2 (hexVal_hexChar _ (by omega))
    rw [ev] at hg
    have := unquoteFrom_u _ _ _ _ tail _ hg (by omega)
    rw [Char.ofNat_toNat] at this
    exact this
  · simp [unquoteFrom, h2]

theorem unquote_escapeString (s : Str) : unquote (escapeString s) = s := by
  unfold unquote
  induction s with
  | nil => rfl
  | cons c cs ih => rw [escapeString_cons, unquoteFrom_escapeChar, ih]

/-! ## Time: `parseRFC3339` reads back what `MarshalJSON` writes -/

theorem digitsVal_append_one (ds : Str) (c : Char) :
    digitsVal (ds ++ [c]) = 10 * digitsVal ds + digitVal c := by
  simp [digitsVal, List.foldl_append]

theorem fixedDigits_length (w n : Nat) : (fixedDigits w n).length = w := by
  induction w generalizing n with
  | zero => rfl
  | succ w ih => simp [fixedDigits, ih]

theorem fixedDigits_digits (w n : Nat) : ∀ c ∈ fixedDigits w n, isDigit c = true := by
  induction w generalizing n with
  | zero => intro c hc; simp [fixedDigits] at hc
  | succ w ih =>
    intro c hc
    simp only [fixedDigits, List.mem_append, List.mem_singleton] at hc
    rcases hc with hc | hc
    · exact ih _ c hc
    · subst hc; exact isDigit_digitChar _ (Nat.mod_lt _ (by decide))

theorem digitsVal_fixedDigits (w n : Nat) : digitsVal (fixedDigits w n) = n % 10 ^ w := by
  induction w generalizing n with
  | zero => simp [fixedDigits, digitsVal, Nat.mod_one]
  | succ w ih =>
    rw [fixedDigits, digitsVal_append_one, ih, digitVal_digitChar _ (Nat.mod_lt _ (by decide))]
    rw [Nat.pow_succ, Nat.mul_comm (10 ^ w) 10, Nat.mod_mul]
    omega

theorem trimZeros_append_one (ds : Str) (c : Char) :
    trimZeros (ds ++ [c]) = if c = '0' then trimZeros ds else ds ++ [c] := by
  unfold trimZeros
  by_cases h : c = '0'
  · simp [h, List.dropWhile]
  · simp [h, List.dropWhile]

theorem trimZeros_length_le (ds : Str) : (trimZeros ds).length ≤ ds.length := by
  unfold trimZeros
  rw [List.length_reverse]
  have := (List.dropWhile_sublist (fun x => decide (x = '0')) (l := ds.reverse)).length_le
  simpa using this

theorem trimZeros_mem (ds : Str) (c : Char) (h : c ∈ trimZeros ds) : c ∈ ds := by
  unfold trimZeros at h
  rw [List.mem_reverse] at h
  have := (List.dropWhile_sublist (fun x => decide (x = '0')) (l := ds.reverse)).subset h
  simpa using this

theorem digitsVal_trimZeros (ds : Str) :
    digitsVal (trimZeros ds) * 10 ^ (ds.length - (trimZeros ds).length) = digitsVal ds := by
  induction ds using List.reverseRecOn with
  | nil => rfl
  | append_singleton ds c ih =>
    rw [trimZeros_append_one]
    by_cases h : c = '0'
    · have hl := trimZeros_length_le ds
      have e : (ds ++ [c]).length - (trimZeros ds).length =
          (ds.length - (trimZeros ds).length) + 1 := by
        simp; omega
      have hv : digitVal c = 0 := by subst h; rfl
      rw [if_pos h, e, Nat.pow_succ, ← Nat.mul_assoc, ih, digitsVal_append_one, hv]
      omega
    · rw [if_neg h]
      simp

theorem parseNanoseconds_trimZeros (n : Nat) (h : n < 1000000000) :
    parseNanoseconds (trimZeros (fixedDigits 9 n)) = n := by
  have hl := trimZeros_length_le (fixedDigits 9 n)
  rw [fixedDigits_length] at hl
  have hv := digitsVal_trimZeros (fixedDigits 9 n)
  rw [fixedDigits_length, digitsVal_fixedDigits] at hv
  unfold parseNanoseconds
  rw [List.take_of_length_le hl, hv]
  exact Nat.mod_eq_of_lt h

theorem trimZeros_ne_nil (n : Nat) (h0 : n ≠ 0) (h : n < 1000000000) :
    trimZeros (fixedDigits 9 n) ≠ [] := by
  intro e
  have hv := parseNanoseconds_trimZeros n h
  rw [e] at hv
  simp [parseNanoseconds, digitsVal] at hv
  exact h0 hv.symm

theorem appendInt_two (n : Nat) (h : n < 100) :
    appendInt (n : Int) 2 = [digitChar (n / 10 % 10), digitChar (n % 10)] := by
  have h1 : ¬ ((n : Int) < 0) := by omega
  simp [appendInt, fixedDigits, h1, h]

theorem appendInt_four (y : Int) (h0 : 0 ≤ y) (h : y ≤ 9999) :
    appendInt y 4 = [digitChar (y.toNat / 1000 % 10), digitChar (y.toNat / 100 % 10),
      digitChar (y.toNat / 10 % 10), digitChar (y.toNat % 10)] := by
  obtain ⟨n, rfl⟩ := Int.eq_ofNat_of_zero_le h0
  have h1 : ¬ ((n : Int) < 0) := by omega
  have h2 : n < 10000 := by omega
  simp [appendInt, fixedDigits, h1, h2, Nat.div_div_eq_div_mul]

theorem appendInt_nine (n : Nat) (h : n < 1000000000) :
    appendInt (n : Int) 9 = fixedDigits 9 n := by
  have h1 : ¬ ((n : Int) < 0) := by omega
  simp [appendInt, h1, h]

theorem parseUint_two (n lo hi : Nat) (h : n < 100) (hlo : lo ≤ n) (hhi : n ≤ hi) :
    parseUint [digitChar (n / 10 % 10), digitChar (n % 10)] lo hi = some n := by
  have ha : n / 10 % 10 < 10 := by omega
  have hb : n % 10 < 10 := by omega
  have hv : digitsVal [digitChar (n / 10 % 10), digitChar (n % 10)] = n := by
    simp [digitsVal, digitVal_digitChar _ ha, digitVal_digitChar _ hb]
    omega
  unfold parseUint
  rw [hv]
  simp [isDigit_digitChar _ ha, isDigit_digitChar _ hb, hlo, hhi]

theorem parseUint_four (n lo hi : Nat) (h : n < 10000) (hlo : lo ≤ n) (hhi : n ≤ hi) :
    parseUint [digitChar (n / 1000 % 10), digitChar (n / 100 % 10), digitChar (n / 10 % 10),
      digitChar (n % 10)] lo hi = some n := by
  have ha : n / 1000 % 10 < 10 := by omega
  have hb : n / 100 % 10 < 10 := by omega
  have hc : n / 10 % 10 < 10 := by omega
  have hd : n % 10 < 10 := by omega
  have hv : digitsVal [digitChar (n / 1000 % 10), digitChar (n / 100 % 10),
      digitChar (n / 10 % 10), digitChar (n % 10)] = n := by
    simp [digitsVal, digitVal_digitChar _ ha, digitVal_digitChar _ hb, digitVal_digitChar _ hc,
      digitVal_digitChar _ hd]
    omega
  unfold parseUint
  rw [hv]
  simp [isDigit_digitChar _ ha, isDigit_digitChar _ hb, isDigit_digitChar _ hc,
    isDigit_digitChar _ hd, hlo, hhi]

/-- The zone text of a whole-minute offset below 24 hours, spelled out. -/
theorem appendZone_wf (off : Int) (hm : off % 60 = 0) (hlo : -86400 < off) (hhi : off < 86400) :
    (off = 0 ∧ appendZone off = ['Z']) ∨
    (∃ (sg : Char) (m : Nat), (sg = '-' ∨ sg = '+') ∧ m / 60 ≤ 23 ∧
      appendZone off = [sg, digitChar (m / 60 / 10 % 10), digitChar (m / 60 % 10), ':',
        digitChar (m % 60 / 10 % 10), digitChar (m % 60 % 10)] ∧
      off = if sg = '-' then -(((m / 60 * 60 + m % 60) * 60 : Nat) : Int)
        else (((m / 60 * 60 + m % 60) * 60 : Nat) : Int)) := by
  by_cases h0 : off = 0
  · left; exact ⟨h0, by simp [appendZone, h0]⟩
  · right
    have hd : (60 : Int) ∣ off := Int.dvd_of_emod_eq_zero hm
    have ht : Int.tdiv off 60 = off / 60 := Int.tdiv_eq_ediv_of_dvd hd
    have hhr : (off / 60).natAbs / 60 < 100 := by omega
    have hmm : (off / 60).natAbs % 60 < 100 := by omega
    by_cases hneg : off / 60 < 0
    · refine ⟨'-', (off / 60).natAbs, Or.inl rfl, by omega, ?_, ?_⟩
      · unfold appendZone
        rw [if_neg h0]
        simp only [ht, if_pos hneg, Int.ofNat_eq_coe, appendInt_two _ hhr, appendInt_two _ hmm]
        rfl
      · simp only [if_true]
        omega
    · refine ⟨'+', (off / 60).natAbs, Or.inr rfl, by omega, ?_, ?_⟩
      · unfold appendZone
        rw [if_neg h0]
        simp only [ht, if_neg hneg, Int.ofNat_eq_coe, appendInt_two _ hhr, appendInt_two _ hmm]
        rfl
      · have : ¬ ('+' = '-') := by decide
        simp only [this, if_false]
        omega

theorem parseZone_appendZone (off : Int) (hm : off % 60 = 0) (hlo : -86400 < off)
    (hhi : off < 86400) : parseZone (appendZone off) = some off := by
  rcases appendZone_wf off hm hlo hhi with ⟨h0, e⟩ | ⟨sg, m, hsg, hhr, e, hoff⟩
  · rw [e, h0]; rfl
  · rw [e]
    have h1 := parseUint_two (m / 60) 0 23 (by omega) (by omega) hhr
    have h2 := parseUint_two (m % 60) 0 59 (by omega) (by omega) (by omega)
    simp only [parseZone, h1, h2]
    rw [if_pos ⟨hsg, trivial⟩, ← hoff]

/-- The zone text starts with a character that is neither a digit nor a dot. -/
theorem appendZone_head (off : Int) (hm : off % 60 = 0) (hlo : -86400 < off)
    (hhi : off < 86400) :
    ∃ c r, appendZone off = c :: r ∧ isDigit c = false ∧ c ≠ '.' := by
  rcases appendZone_wf off hm hlo hhi with ⟨_, e⟩ | ⟨sg, m, hsg, _, e, _⟩
  · exact ⟨'Z', [], e, by rfl, by decide⟩
  · refine ⟨sg, _, e, ?_, ?_⟩
    · rcases hsg with h | h <;> subst h <;> rfl
    · rcases hsg with h | h <;> subst h <;> decide

theorem parseFraction_appendNano (n : Nat) (h : n < 1000000000) (off : Int)
    (hm : off % 60 = 0) (hlo : -86400 < off) (hhi : off < 86400) :
    parseFraction (appendNano n ++ appendZone off) = (n, appendZone off) := by
  obtain ⟨c, r, e, hc, hdot⟩ := appendZone_head off hm hlo hhi
  unfold appendNano
  by_cases h0 : n = 0
  · rw [if_pos h0, e, h0]
    unfold parseFraction
    split
    · rename_i heq
      simp at heq
      exact absurd heq.1 hdot
    · rfl
  · rw [if_neg h0, appendInt_nine n h]
    have hne := trimZeros_ne_nil n h0 h
    have hdig : ∀ x ∈ trimZeros (fixedDigits 9 n), isDigit x = true :=
      fun x hx => fixedDigits_digits 9 n x (trimZeros_mem _ _ hx)
    cases htz : trimZeros (fixedDigits 9 n) with
    | nil => exact absurd htz hne
    | cons d ds =>
      have hd : isDigit d = true := hdig d (by rw [htz]; simp)
      have e1 : ('.' :: d :: ds) ++ appendZone off = '.' :: d :: (ds ++ c :: r) := by
        rw [e]; rfl
      have e2 : d :: (ds ++ c :: r) = trimZeros (fixedDigits 9 n) ++ c :: r := by
        rw [htz]; rfl
      rw [e1]
      simp only [parseFraction, hd, if_true]
      rw [e2, takeWhile_digits_stop _ r c hdig hc, dropWhile_digits_stop _ r c hdig hc,
        parseNanoseconds_trimZeros n h, e]

/-- The calendar part of the RFC 3339 text of a renderable time, spelled out. -/
theorem appendFormatRFC3339_wf (t : Time) (h : t.wf) (nanos : Bool) :
    appendFormatRFC3339 t nanos =
      digitChar (t.year.toNat / 1000 % 10) :: digitChar (t.year.toNat / 100 % 10) ::
      digitChar (t.year.toNat / 10 % 10) :: digitChar (t.year.toNat % 10) :: '-' ::
      digitChar (t.month / 10 % 10) :: digitChar (t.month % 10) :: '-' ::
      digitChar (t.day / 10 % 10) :: digitChar (t.day % 10) :: 'T' ::
      digitChar (t.hour / 10 % 10) :: digitChar (t.hour % 10) :: ':' ::
      digitChar (t.minute / 10 % 10) :: digitChar (t.minute % 10) :: ':' ::
      digitChar (t.second / 10 % 10) :: digitChar (t.second % 10) ::
      ((if nanos then appendNano t.nsec else []) ++ appendZone t.offset) := by
  obtain ⟨hy0, hy1, hm0, hm1, hd0, hd1, hh, hmi, hs, hn, ho, ho1, ho2⟩ := h
  have hdays : daysIn t.month t.year.toNat ≤ 31 := by
    unfold daysIn; split_ifs <;> omega
  unfold appendFormatRFC3339
  rw [appendInt_four _ hy0 hy1, appendInt_two _ (by omega : t.month < 100),
    appendInt_two _ (by omega : t.day < 100), appendInt_two _ (by omega : t.hour < 100),
    appendInt_two _ (by omega : t.minute < 100), appendInt_two _ (by omega : t.second < 100)]
  simp

theorem parseRFC3339_appendFormat (t : Time) (h : t.wf) :
    parseRFC3339 (appendFormatRFC3339 t true) = some t := by
  rw [appendFormatRFC3339_wf t h true]
  obtain ⟨hy0, hy1, hm0, hm1, hd0, hd1, hh, hmi, hs, hn, ho, ho1, ho2⟩ := h
  have hdays : daysIn t.month t.year.toNat ≤ 31 := by
    unfold daysIn; split_ifs <;> omega
  have py := parseUint_four t.year.toNat 0 9999 (by omega) (by omega) (by omega)
  have pm := parseUint_two t.month 1 12 (by omega) hm0 hm1
  have pd := parseUint_two t.day 1 (daysIn t.month t.year.toNat) (by omega) hd0 hd1
  have ph := parseUint_two t.hour 0 23 (by omega) (by omega) (by omega)
  have pn := parseUint_two t.minute 0 59 (by omega) (by omega) (by omega)
  have ps := parseUint_two t.second 0 59 (by omega) (by omega) (by omega)
  simp only [parseRFC3339, py, pm, pd, ph, pn, ps, if_true, and_self,
    parseFraction_appendNano t.nsec hn t.offset ho ho1 ho2, parseZone_appendZone t.offset ho ho1 ho2]
  rw [Int.toNat_of_nonneg hy0]

/-! ## Scanning the texts `json.Marshal` writes -/

theorem scanString_plain (s rest : Str)
    (h : ∀ c ∈ s, c ≠ '"' ∧ c ≠ '\\' ∧ ¬ c.toNat < 32) :
    scanString (s ++ '"' :: rest) = .ok (s, rest) := by
  unfold scanString
  induction s with
  | nil => simp [scanStringFrom]
  | cons c cs ih =>
    obtain ⟨h1, h2, h3⟩ := h c (by simp)
    have ih' := ih (fun x hx => h x (by simp [hx]))
    simp [scanStringFrom, h1, h2, h3, ih', keepChar]

theorem digit_plain (c : Char) (h : isDigit c = true) :
    c ≠ '"' ∧ c ≠ '\\' ∧ ¬ c.toNat < 32 := by
  unfold isDigit at h
  simp only [Bool.and_eq_true, decide_eq_true_eq] at h
  refine ⟨?_, ?_, by omega⟩
  · intro e; subst e; revert h; decide
  · intro e; subst e; revert h; decide

theorem digitChar_plain (n : Nat) (h : n < 10) :
    digitChar n ≠ '"' ∧ digitChar n ≠ '\\' ∧ ¬ (digitChar n).toNat < 32 :=
  digit_plain _ (isDigit_digitChar n h)

theorem appendZone_plain (off : Int) (hm : off % 60 = 0) (hlo : -86400 < off)
    (hhi : off < 86400) :
    ∀ c ∈ appendZone off, c ≠ '"' ∧ c ≠ '\\' ∧ ¬ c.toNat < 32 := by
  intro c hc
  rcases appendZone_wf off hm hlo hhi with ⟨_, e⟩ | ⟨sg, m, hsg, _, e, _⟩
  · rw [e] at hc
    simp only [List.mem_singleton] at hc
    subst hc; decide
  · rw [e] at hc
    simp only [List.mem_cons, List.mem_singleton, List.not_mem_nil, or_false] at hc
    rcases hc with hc | hc | hc | hc | hc | hc
    · subst hc; rcases hsg with h | h <;> subst h <;> decide
    · subst hc; exact digitChar_plain _ (by omega)
    · subst hc; exact digitChar_plain _ (by omega)
    · subst hc; decide
    · subst hc; exact digitChar_plain _ (by omega)
    · subst hc; exact digitChar_plain _ (by omega)

theorem appendNano_plain (n : Nat) (h : n < 1000000000) :
    ∀ c ∈ appendNano n, c ≠ '"' ∧ c ≠ '\\' ∧ ¬ c.toNat < 32 := by
  intro c hc
  unfold appendNano at hc
  split at hc
  · simp at hc
  · rw [appendInt_nine n h] at hc
    simp only [List.mem_cons] at hc
    rcases hc with hc | hc
    · subst hc; decide
    · exact digit_plain c (fixedDigits_digits 9 n c (trimZeros_mem _ _ hc))

theorem appendFormatRFC3339_plain (t : Time) (h : t.wf) :
    ∀ c ∈ appendFormatRFC3339 t true, c ≠ '"' ∧ c ≠ '\\' ∧ ¬ c.toNat < 32 := by
  intro c hc
  rw [appendFormatRFC3339_wf t h true] at hc
  obtain ⟨hy0, hy1, hm0, hm1, hd0, hd1, hh, hmi, hs, hn, ho, ho1, ho2⟩ := h
  simp only [List.mem_cons, List.mem_append, if_true] at hc
  rcases hc with hc | hc | hc | hc | hc | hc | hc | hc | hc | hc | hc | hc | hc | hc | hc |
    hc | hc | hc | hc | hc | hc
  all_goals first
    | exact appendNano_plain _ hn c hc
    | exact appendZone_plain _ ho ho1 ho2 c hc
    | (subst hc; exact digitChar_plain _ (by omega))
    | (subst hc; decide)

theorem MarshalJSON_wf (t : Time) (h : t.wf) :
    t.MarshalJSON = .ok ('"' :: (appendFormatRFC3339 t true ++ ['"'])) := by
  obtain ⟨hy0, hy1, hm0, hm1, hd0, hd1, hh, hmi, hs, hn, ho, ho1, ho2⟩ := h
  have hd : (60 : Int) ∣ t.offset := Int.dvd_of_emod_eq_zero ho
  have ht : Int.tdiv t.offset 60 = t.offset / 60 := Int.tdiv_eq_ediv_of_dvd hd
  unfold Time.MarshalJSON
  rw [if_neg (by omega), ht, if_neg (by omega)]
  rfl

/-! ## Parsing the texts `json.Marshal` writes -/

theorem parseValue_string (f d : Nat) (body rest : Str)
    (hb : scanString (body ++ '"' :: rest) = .ok (body, rest)) :
    parseValue (f + 1) d ('"' :: (body ++ '"' :: rest)) = some (.ok (.string body, rest)) := by
  rw [parseValue]
  simp [skipSpace, isSpace, hb]

theorem parseMembers_more (f d : Nat) (key body rest after : Str) (ms : List (Str × JVal))
    (hk : ∀ x, scanString (key ++ '"' :: x) = .ok (key, x))
    (hb : ∀ x, scanString (body ++ '"' :: x) = .ok (body, x))
    (hr : parseMembers (f + 1) d rest = some (.ok (ms, after))) :
    parseMembers (f + 2) d ('"' :: (key ++ '"' :: ':' :: '"' :: (body ++ '"' :: ',' :: rest))) =
      some (.ok ((key, .string body) :: ms, after)) := by
  rw [parseMembers]
  simp [skipSpace, isSpace, hk, parseValue_string f d body _ (hb _), hr]

theorem parseMembers_last (f d : Nat) (key body rest : Str)
    (hk : ∀ x, scanString (key ++ '"' :: x) = .ok (key, x))
    (hb : ∀ x, scanString (body ++ '"' :: x) = .ok (body, x)) :
    parseMembers (f + 2) d ('"' :: (key ++ '"' :: ':' :: '"' :: (body ++ '"' :: '}' :: rest))) =
      some (.ok ([(key, .string body)], rest)) := by
  rw [parseMembers]
  simp [skipSpace, isSpace, hk, parseValue_string f d body _ (hb _)]

theorem recordText_append (r : RequestDetails) (rest : Str) :
    recordText r ++ rest =
      '{' :: '"' :: (['i', 'p'] ++ '"' :: ':' :: '"' :: (escapeString r.IP ++ '"' :: ',' ::
        '"' :: (['t', 'i', 'm', 'e'] ++ '"' :: ':' :: '"' :: (appendFormatRFC3339 r.Time true ++
        '"' :: ',' :: '"' :: (['c', 'o', 'n', 't', 'e', 'n', 't'] ++ '"' :: ':' :: '"' ::
        (escapeString r.Content ++ '"' :: '}' :: rest)))))) := by
  have e1 : "\x7b\"ip\":".toList = ['{', '"', 'i', 'p', '"', ':'] := rfl
  have e2 : ",\"time\":".toList = [',', '"', 't', 'i', 'm', 'e', '"', ':'] := rfl
  have e3 : ",\"content\":".toList = [',', '"', 'c', 'o', 'n', 't', 'e', 'n', 't', '"', ':'] := rfl
  simp only [recordText, quoteString, e1, e2, e3, List.append_assoc, List.cons_append,
    List.nil_append]

theorem scan_ip (x : Str) : scanString (['i', 'p'] ++ '"' :: x) = .ok (['i', 'p'], x) :=
  scanString_plain _ _ (by decide)

theorem scan_time (x : Str) :
    scanString (['t', 'i', 'm', 'e'] ++ '"' :: x) = .ok (['t', 'i', 'm', 'e'], x) :=
  scanString_plain _ _ (by decide)

theorem scan_content (x : Str) :
    scanString (['c', 'o', 'n', 't', 'e', 'n', 't'] ++ '"' :: x) =
      .ok (['c', 'o', 'n', 't', 'e', 'n', 't'], x) :=
  scanString_plain _ _ (by decide)

theorem parseValue_recordText (f d : Nat) (r : RequestDetails) (rest : Str) (h : r.wf)
    (hd : d < maxNestingDepth) :
    parseValue (f + 5) d (recordText r ++ rest) = some (.ok (recordValue r, rest)) := by
  have ht : ∀ x, scanString (appendFormatRFC3339 r.Time true ++ '"' :: x) =
      .ok (appendFormatRFC3339 r.Time true, x) :=
    fun x => scanString_plain _ x (appendFormatRFC3339_plain r.Time h)
  have m3 := parseMembers_last f (d + 1) _ _ rest scan_content
    (scanString_escapeString r.Content)
  have m2 := parseMembers_more (f + 1) (d + 1) _ _ _ _ _ scan_time ht m3
  have m1 := parseMembers_more (f + 2) (d + 1) _ _ _ _ _ scan_ip
    (scanString_escapeString r.IP) m2
  have m0 : parseMembers (f + 4) (d + 1) _ = _ := m1
  simp only [List.cons_append, List.nil_append] at m0
  rw [recordText_append, parseValue]
  simp [skipSpace, isSpace, hd, m0, recordValue]

theorem recordText_head (r : RequestDetails) (rest : Str) :
    ∃ tail, recordText r ++ rest = '{' :: '"' :: tail := by
  rw [recordText_append]; exact ⟨_, rfl⟩

theorem intercalate_cons_cons (sep a b : Str) (l : List Str) :
    List.intercalate sep (a :: b :: l) = a ++ sep ++ List.intercalate sep (b :: l) := by
  simp [List.intercalate]

theorem parseElements_records (d : Nat) (hd : d < maxNestingDepth) (rest : Str) :
    ∀ (rs : List RequestDetails) (r : RequestDetails) (f : Nat),
      (∀ x ∈ r :: rs, x.wf) →
      parseElements (f + 6 + rs.length) d
        (List.intercalate [','] ((r :: rs).map recordText) ++ ']' :: rest) =
        some (.ok ((r :: rs).map recordValue, rest)) := by
  intro rs
  induction rs with
  | nil =>
    intro r f h
    have hv := parseValue_recordText f d r (']' :: rest) (h r (by simp)) hd
    have e : List.intercalate [','] ([r].map recordText) ++ ']' :: rest =
        recordText r ++ ']' :: rest := by simp [List.intercalate]
    rw [e]
    show parseElements (f + 5 + 1) d _ = _
    rw [parseElements]
    simp [hv, skipSpace, isSpace]
  | cons r2 rs ih =>
    intro r f h
    have ih' := ih r2 f (fun x hx => h x (by simp [hx]))
    have e : List.intercalate [','] ((r :: r2 :: rs).map recordText) ++ ']' :: rest =
        recordText r ++ ',' :: (List.intercalate [','] ((r2 :: rs).map recordText) ++
          ']' :: rest) := by
      simp only [List.map_cons, intercalate_cons_cons, List.append_assoc, List.cons_append,
        List.nil_append]
    have hv := parseValue_recordText (f + 1 + rs.length) d r
      (',' :: (List.intercalate [','] ((r2 :: rs).map recordText) ++ ']' :: rest))
      (h r (by simp)) hd
    have e5 : f + 1 + rs.length + 5 = f + 6 + rs.length := by omega
    rw [e5] at hv
    rw [e]
    show parseElements ((f + 6 + rs.length) + 1) d _ = _
    rw [parseElements]
    simp only [hv, skipSpace, isSpace]
    simp only [List.map_cons] at ih'
    simp [ih']

theorem historyText_length (rs : List RequestDetails) :
    rs.length ≤ (List.intercalate [','] (rs.map recordText)).length := by
  induction rs with
  | nil => simp
  | cons r rs ih =>
    cases rs with
    | nil =>
      obtain ⟨tail, e⟩ := recordText_head r []
      simp only [List.append_nil] at e
      simp [List.intercalate, e]
    | cons r2 rs =>
      simp only [List.map_cons, intercalate_cons_cons, List.length_append, List.length_cons] at ih ⊢
      omega

theorem readJSON_historyText (rs : List RequestDetails) (h : ∀ x ∈ rs, x.wf) :
    readJSON (historyText rs) = .ok (.array (rs.map recordValue)) := by
  cases rs with
  | nil => rfl
  | cons r rs =>
    have hlen := historyText_length (r :: rs)
    obtain ⟨f, hf⟩ : ∃ f, 2 * (historyText (r :: rs)).length + 2 = (f + 6 + rs.length) + 1 := by
      refine ⟨2 * (historyText (r :: rs)).length + 2 - (6 + rs.length) - 1, ?_⟩
      simp only [historyText, List.length_append, List.length_cons, List.length_nil] at hlen ⊢
      omega
    have hp := parseElements_records 1 (by decide) [] rs r f h
    obtain ⟨tail, e⟩ : ∃ tail, List.intercalate [','] ((r :: rs).map recordText) ++ [']'] =
        '{' :: '"' :: tail := by
      cases rs with
      | nil =>
        obtain ⟨tail, e⟩ := recordText_head r [']']
        exact ⟨tail, by simpa [List.intercalate] using e⟩
      | cons r2 rs =>
        obtain ⟨tail, e⟩ := recordText_head r
          ([','] ++ List.intercalate [','] ((r2 :: rs).map recordText) ++ [']'])
        refine ⟨tail, ?_⟩
        rw [← e]
        simp only [List.map_cons, intercalate_cons_cons, List.append_assoc]
    unfold readJSON
    rw [hf]
    have e2 : historyText (r :: rs) =
        '[' :: (List.intercalate [','] ((r :: rs).map recordText) ++ [']']) := by
      simp [historyText]
    rw [e2, parseValue]
    rw [e] at hp ⊢
    simp [skipSpace, isSpace, maxNestingDepth, hp]

/-! ## `json.Marshal` and `json.Unmarshal` of the history -/

theorem marshalRecord_wf (r : RequestDetails) (h : r.wf) :
    marshalRecord r = .ok (recordText r) := by
  unfold marshalRecord
  rw [MarshalJSON_wf r.Time h]
  simp [recordText]

theorem marshalRecords_wf (rs : List RequestDetails) (h : ∀ x ∈ rs, x.wf) :
    marshalRecords rs = .ok (rs.map recordText) := by
  induction rs with
  | nil => rfl
  | cons r rs ih =>
    simp [marshalRecords, marshalRecord_wf r (h r (by simp)),
      ih (fun x hx => h x (by simp [hx]))]

theorem jsonMarshalHistory_wf (rs : List RequestDetails) (h : ∀ x ∈ rs, x.wf) :
    jsonMarshalHistory rs = .ok (historyText rs) := by
  simp [jsonMarshalHistory, marshalRecords_wf rs h, historyText]

theorem decodeRecord_recordValue (r : RequestDetails) (h : r.wf) (saved : Option JsonError) :
    decodeRecord (recordValue r) saved = (r, saved, none) := by
  have k1 : fieldOf (unquote ['i', 'p']) = some .ip := by decide
  have k2 : fieldOf (unquote ['t', 'i', 'm', 'e']) = some .time := by decide
  have k3 : fieldOf (unquote ['c', 'o', 'n', 't', 'e', 'n', 't']) = some .content := by decide
  have fe : firstError saved none = saved := by cases saved <;> rfl
  have pt : parseStrictRFC3339 (appendFormatRFC3339 r.Time true) = .ok r.Time := by
    simp only [parseStrictRFC3339, parseRFC3339_appendFormat r.Time h]
  simp only [decodeRecord, recordValue, decodeMembers, k1, k2, k3, decodeString, decodeTime,
    unquote_escapeString, pt, fe]

theorem decodeItems_recordValues (rs : List RequestDetails) (h : ∀ x ∈ rs, x.wf)
    (saved : Option JsonError) :
    decodeItems (rs.map recordValue) saved = (rs, saved, none) := by
  induction rs with
  | nil => rfl
  | cons r rs ih =>
    simp only [List.map_cons, decodeItems, decodeRecord_recordValue r (h r (by simp)),
      ih (fun x hx => h x (by simp [hx]))]

/-- Reading back what `json.Marshal` wrote gives the slice that was marshalled. -/
theorem jsonUnmarshalHistory_historyText (rs : List RequestDetails) (h : ∀ x ∈ rs, x.wf) :
    jsonUnmarshalHistory (historyText rs) = (rs, none) := by
  unfold jsonUnmarshalHistory
  rw [readJSON_historyText rs h]
  simp only [decodeItems_recordValues rs h none]
  rfl

/-! ## What the strict parser reads is renderable -/

theorem digitsVal_lt (ds : Str) (h : ∀ c ∈ ds, isDigit c = true) :
    digitsVal ds < 10 ^ ds.length := by
  induction ds using List.reverseRecOn with
  | nil => simp [digitsVal]
  | append_singleton ds c ih =>
    have hc : isDigit c = true := h c (by simp)
    have ih' := ih (fun x hx => h x (by simp [hx]))
    have hv : digitVal c < 10 := by
      unfold isDigit at hc
      simp only [Bool.and_eq_true, decide_eq_true_eq] at hc
      unfold digitVal; omega
    rw [digitsVal_append_one, List.length_append, List.length_singleton, Nat.pow_succ]
    omega

theorem parseNanoseconds_lt (ds : Str) (h : ∀ c ∈ ds, isDigit c = true) :
    parseNanoseconds ds < 1000000000 := by
  unfold parseNanoseconds
  have hl : (ds.take 9).length ≤ 9 := by simp [List.length_take]
  have hv := digitsVal_lt (ds.take 9) (fun c hc => h c (List.mem_of_mem_take hc))
  have e : (1000000000 : Nat) = 10 ^ (ds.take 9).length * 10 ^ (9 - (ds.take 9).length) := by
    rw [← Nat.pow_add]
    have : (ds.take 9).length + (9 - (ds.take 9).length) = 9 := by omega
    rw [this]
  rw [e]
  exact Nat.mul_lt_mul_of_lt_of_le hv (Nat.le_refl _) (Nat.pow_pos (by decide))

theorem parseFraction_lt (s : Str) : (parseFraction s).1 < 1000000000 := by
  unfold parseFraction
  split
  · split
    · exact parseNanoseconds_lt _ (fun c hc => (List.mem_takeWhile_imp hc))
    · show 0 < 1000000000
      decide
  · show 0 < 1000000000
    decide

theorem parseUint_range (ds : Str) (lo hi n : Nat) (h : parseUint ds lo hi = some n) :
    lo ≤ n ∧ n ≤ hi := by
  unfold parseUint at h
  split at h
  · rename_i hc
    cases h
    exact ⟨hc.2.1, hc.2.2⟩
  · cases h

theorem parseZone_wf (s : Str) (off : Int) (h : parseZone s = some off) :
    off % 60 = 0 ∧ -86400 < off ∧ off < 86400 := by
  unfold parseZone at h
  split at h
  · cases h; decide
  · split at h
    · rename_i hr mm e1 e2
      have r1 := parseUint_range _ _ _ _ e1
      have r2 := parseUint_range _ _ _ _ e2
      split at h
      · cases h
        split <;> omega
      · cases h
    · cases h
  · cases h

theorem parseRFC3339_wf (s : Str) (t : Time) (h : parseRFC3339 s = some t) : t.wf := by
  unfold parseRFC3339 at h
  split at h
  · split at h
    · rename_i year month ey em
      split at h
      · rename_i day hour min sec ed eh en es
        split at h
        · split at h
          · rename_i off eo
            cases h
            have ry := parseUint_range _ _ _ _ ey
            have rm := parseUint_range _ _ _ _ em
            have rd := parseUint_range _ _ _ _ ed
            have rh := parseUint_range _ _ _ _ eh
            have rn := parseUint_range _ _ _ _ en
            have rs := parseUint_range _ _ _ _ es
            have rz := parseZone_wf _ _ eo
            refine ⟨by simp, by simp; omega, rm.1, rm.2, rd.1, ?_, ?_, ?_, ?_,
              ?_, rz.1, rz.2.1, rz.2.2⟩
            · simpa using rd.2
            · show hour < 24
              omega
            · show min < 60
              omega
            · show sec < 60
              omega
            · exact parseFraction_lt _
          · cases h
        · cases h
      · cases h
    · cases h
  · cases h

theorem Time.zero_wf : Time.zero.wf := by decide

/-! ## Every decoded time is a calendar reading -/

theorem Time.wf_calendar (t : Time) (h : t.wf) : t.calendar := by
  obtain ⟨h1, h2, h3, h4, h5, h6, h7, h8, h9, h10, h11, _, _⟩ := h
  exact ⟨h1, h2, h3, h4, h5, h6, h7, h8, h9, h10, h11⟩

theorem getnum_some (s : Str) (fixed : Bool) (n : Nat) (r : Str)
    (h : getnum s fixed = some (n, r)) : n < 100 := by
  have dv : ∀ c, isDigit c = true → digitVal c < 10 := by
    intro c hc
    unfold isDigit at hc
    simp only [Bool.and_eq_true, decide_eq_true_eq] at hc
    unfold digitVal; omega
  unfold getnum at h
  split at h
  · cases h
  · rename_i a r1
    split at h
    · rename_i ha
      have := dv a ha
      split at h
      · split at h
        · cases h
        · cases h; omega
      · rename_i b r2
        split at h
        · rename_i hb
          have := dv b hb
          cases h; omega
        · split at h
          · cases h
          · cases h; omega
    · cases h

theorem expectNum_ok (avalue layoutElem : Str) (fixed : Bool) (value : Str) (n : Nat) (r : Str)
    (h : expectNum avalue layoutElem fixed value = .ok (n, r)) : n < 100 := by
  unfold expectNum at h
  split at h
  · rename_i p e
    cases h
    exact getnum_some _ _ _ _ e
  · cases h

theorem parseFractionLenient_lt (s : Str) : (parseFractionLenient s).1 < 1000000000 := by
  unfold parseFractionLenient
  split
  · split
    · exact parseNanoseconds_lt _ (fun c hc => (List.mem_takeWhile_imp hc))
    · show 0 < 1000000000
      decide
  · show 0 < 1000000000
    decide

theorem parseZoneLenient_ok (avalue value : Str) (off : Int) (r : Str)
    (h : parseZoneLenient avalue value = .ok (off, r)) : off % 60 = 0 := by
  unfold parseZoneLenient at h
  split_ifs at h
  · cases h; rfl
  · cases h; omega
  · cases h; omega

theorem timeParseRest_calendar (avalue : Str) (year : Nat) (value : Str) (t : Time)
    (hy : year ≤ 9999) (h : timeParseRest avalue year value = .ok t) : t.calendar := by
  unfold timeParseRest at h
  split at h
  · cases h
  · split at h
    · cases h
    · rename_i month v2 em
      split at h
      · cases h
      · rename_i hmonth
        split at h
        · cases h
        · split at h
          · cases h
          · rename_i day v4 ed
            split at h
            · cases h
            · split at h
              · cases h
              · rename_i hour v6 eh
                split at h
                · cases h
                · rename_i hhour
                  split at h
                  · cases h
                  · split at h
                    · cases h
                    · rename_i min v8 en
                      split at h
                      · cases h
                      · rename_i hmin
                        split at h
                        · cases h
                        · split at h
                          · cases h
                          · rename_i sec v10 es
                            split at h
                            · cases h
                            · rename_i hsec
                              split at h
                              · cases h
                              · rename_i off v11 ez
                                split at h
                                · cases h
                                · split at h
                                  · cases h
                                  · rename_i hday
                                    cases h
                                    have hz := parseZoneLenient_ok _ _ _ _ ez
                                    have hd1 : 1 ≤ day := by omega
                                    have hd2 : day ≤ daysIn month year := by omega
                                    have hm1 : 1 ≤ month := by omega
                                    have hm2 : month ≤ 12 := by omega
                                    have hh : hour < 24 := by omega
                                    have hn : min < 60 := by omega
                                    have hs : sec < 60 := by omega
                                    exact ⟨by simp, by simp; omega, hm1, hm2, hd1,
                                      by simpa using hd2, hh, hn, hs,
                                      parseFractionLenient_lt _, hz⟩

theorem timeParse_calendar (s : Str) (t : Time) (h : timeParse s = .ok t) : t.calendar := by
  unfold timeParse at h
  split at h
  · rename_i y1 y2 y3 y4 rest
    split at h
    · rename_i hd
      have hv := digitsVal_lt [y1, y2, y3, y4] (by
        intro c hc
        simp only [List.mem_cons, List.mem_singleton, List.not_mem_nil, or_false] at hc
        rcases hc with hc | hc | hc | hc <;> subst hc
        · exact hd.1
        · exact hd.2.1
        · exact hd.2.2.1
        · exact hd.2.2.2)
      exact timeParseRest_calendar _ _ _ _ (by simp at hv; omega) h
    · cases h
  · cases h

theorem parseStrictRFC3339_calendar (s : Str) (t : Time)
    (h : parseStrictRFC3339 s = .ok t) : t.calendar := by
  unfold parseStrictRFC3339 at h
  split at h
  · rename_i t1 e
    cases h
    exact Time.wf_calendar _ (parseRFC3339_wf _ _ e)
  · exact timeParse_calendar _ _ h

theorem decodeTime_calendar (old : Time) (v : JVal) (h : old.calendar) :
    (decodeTime old v).1.calendar := by
  unfold decodeTime
  split
  · exact h
  · split
    · rename_i t e
      exact parseStrictRFC3339_calendar _ t e
    · exact Time.wf_calendar _ Time.zero_wf
  · exact h

theorem decodeMembers_calendar (ms : List (Str × JVal)) :
    ∀ (r : RequestDetails) (saved : Option JsonError), r.Time.calendar →
      (decodeMembers ms r saved).1.Time.calendar := by
  induction ms with
  | nil => intro r saved h; exact h
  | cons m ms ih =>
    intro r saved h
    obtain ⟨key, v⟩ := m
    rw [decodeMembers]
    split
    · exact ih _ _ h
    · exact ih _ _ h
    · exact ih _ _ h
    · split
      · exact ih _ _ (decodeTime_calendar r.Time v h)
      · exact decodeTime_calendar r.Time v h

theorem decodeRecord_calendar (v : JVal) (saved : Option JsonError) :
    (decodeRecord v saved).1.Time.calendar := by
  unfold decodeRecord
  split
  · exact decodeMembers_calendar _ _ _ (Time.wf_calendar _ Time.zero_wf)
  · exact Time.wf_calendar _ Time.zero_wf
  · exact Time.wf_calendar _ Time.zero_wf

theorem decodeItems_calendar (items : List JVal) :
    ∀ (saved : Option JsonError), ∀ r ∈ (decodeItems items saved).1, r.Time.calendar := by
  induction items with
  | nil => intro saved r hr; simp [decodeItems] at hr
  | cons item items ih =>
    intro saved r hr
    rw [decodeItems] at hr
    split at hr
    · simp only [List.mem_singleton] at hr
      subst hr; exact decodeRecord_calendar item saved
    · simp only [List.mem_cons] at hr
      rcases hr with hr | hr
      · subst hr; exact decodeRecord_calendar item saved
      · exact ih _ r hr

/-- Every record `json.Unmarshal` leaves in the slice has a time that is a
calendar reading. -/
theorem jsonUnmarshalHistory_calendar (data : Str) :
    ∀ r ∈ (jsonUnmarshalHistory data).1, r.Time.calendar := by
  intro r hr
  unfold jsonUnmarshalHistory at hr
  split at hr
  · simp at hr
  · exact decodeItems_calendar _ _ r hr
  · simp at hr
  · simp at hr

/-! ## A time that is marshalled is renderable -/

theorem MarshalJSON_ok_wf (t : Time) (s : Str) (hc : t.calendar)
    (h : t.MarshalJSON = .ok s) : t.wf := by
  obtain ⟨h1, h2, h3, h4, h5, h6, h7, h8, h9, h10, h11⟩ := hc
  have hd : (60 : Int) ∣ t.offset := Int.dvd_of_emod_eq_zero h11
  have ht : Int.tdiv t.offset 60 = t.offset / 60 := Int.tdiv_eq_ediv_of_dvd hd
  unfold Time.MarshalJSON at h
  split at h
  · cases h
  · split at h
    · cases h
    · rename_i hz
      rw [ht] at hz
      refine ⟨h1, h2, h3, h4, h5, h6, h7, h8, h9, h10, h11, ?_, ?_⟩ <;> omega

theorem marshalRecords_ok_wf (rs : List RequestDetails) :
    ∀ (ts : List Str), marshalRecords rs = .ok ts → (∀ x ∈ rs, x.Time.calendar) →
      ∀ x ∈ rs, x.wf := by
  induction rs with
  | nil => intro ts _ _ x hx; simp at hx
  | cons r rs ih =>
    intro ts h hc x hx
    rw [marshalRecords] at h
    split at h
    · cases h
    · rename_i t et
      split at h
      · cases h
      · rename_i ts2 ets
        simp only [List.mem_cons] at hx
        rcases hx with hx | hx
        · subst hx
          unfold marshalRecord at et
          split at et
          · cases et
          · rename_i tt em
            exact MarshalJSON_ok_wf _ _ (hc _ (by simp)) em
        · exact ih ts2 ets (fun y hy => hc y (by simp [hy])) x hx

/-- A slice of decoded records that `json.Marshal` accepts holds renderable
times only. -/
theorem jsonMarshalHistory_ok_wf (rs : List RequestDetails) (text : Str)
    (h : jsonMarshalHistory rs = .ok text) (hc : ∀ x ∈ rs, x.Time.calendar) :
    ∀ x ∈ rs, x.wf := by
  unfold jsonMarshalHistory at h
  split at h
  · cases h
  · rename_i ts e
    exact marshalRecords_ok_wf rs ts e hc

/-! ## Parsing the text of a `ServerInfo` -/

theorem memberText_append (kv : Str × Str) (rest : Str) :
    (quoteString kv.1 ++ [':'] ++ quoteString kv.2) ++ rest =
      '"' :: (escapeString kv.1 ++ '"' :: ':' :: '"' :: (escapeString kv.2 ++ '"' :: rest)) := by
  simp [quoteString]

theorem parseMembers_fields (d : Nat) (rest : Str) :
    ∀ (fs : List (Str × Str)) (kv : Str × Str) (f : Nat),
      parseMembers (f + 2 + fs.length) d
        (List.intercalate [','] ((kv :: fs).map fun kv => quoteString kv.1 ++ [':'] ++
          quoteString kv.2) ++ '}' :: rest) =
        some (.ok ((kv :: fs).map fun kv => (escapeString kv.1, JVal.string (escapeString kv.2)),
          rest)) := by
  intro fs
  induction fs with
  | nil =>
    intro kv f
    have e : List.intercalate [','] ([kv].map fun kv => quoteString kv.1 ++ [':'] ++
        quoteString kv.2) ++ '}' :: rest =
        (quoteString kv.1 ++ [':'] ++ quoteString kv.2) ++ '}' :: rest := by
      simp [List.intercalate]
    rw [e, memberText_append]
    exact parseMembers_last f d _ _ rest (scanString_escapeString kv.1)
      (scanString_escapeString kv.2)
  | cons kv2 fs ih =>
    intro kv f
    have ih' := ih kv2 f
    have e : List.intercalate [','] ((kv :: kv2 :: fs).map fun kv => quoteString kv.1 ++ [':'] ++
        quoteString kv.2) ++ '}' :: rest =
        (quoteString kv.1 ++ [':'] ++ quoteString kv.2) ++ ',' ::
          (List.intercalate [','] ((kv2 :: fs).map fun kv => quoteString kv.1 ++ [':'] ++
            quoteString kv.2) ++ '}' :: rest) := by
      simp only [List.map_cons, intercalate_cons_cons, List.append_assoc, List.cons_append,
        List.nil_append]
    rw [e, memberText_append]
    have h2 : f + 2 + (kv2 :: fs).length = (f + 1 + fs.length) + 2 := by
      simp only [List.length_cons]; omega
    have h1 : f + 2 + fs.length = (f + 1 + fs.length) + 1 := by omega
    rw [h2]
    rw [h1] at ih'
    exact parseMembers_more (f + 1 + fs.length) d _ _ _ _ _ (scanString_escapeString kv.1)
      (scanString_escapeString kv.2) ih'

theorem members_length (fs : List (Str × Str)) :
    fs.length ≤ (List.intercalate [','] (fs.map fun kv => quoteString kv.1 ++ [':'] ++
      quoteString kv.2)).length := by
  induction fs with
  | nil => simp
  | cons kv fs ih =>
    cases fs with
    | nil => simp [List.intercalate, quoteString]
    | cons kv2 fs =>
      simp only [List.map_cons, intercalate_cons_cons, List.length_append, List.length_cons] at ih ⊢
      omega

/-- The text `json.Marshal` writes for an object of strings is read as that
object: the members written, in order. -/
theorem parseJSON_encodeObject (fields : List (Str × Str)) :
    parseJSON (encodeObject fields) = some (objectValue fields) := by
  cases fields with
  | nil => rfl
  | cons kv fs =>
    have hlen := members_length (kv :: fs)
    obtain ⟨f, hf⟩ : ∃ f, 2 * (encodeObject (kv :: fs)).length + 2 = (f + 2 + fs.length) + 1 := by
      refine ⟨2 * (encodeObject (kv :: fs)).length + 2 - (2 + fs.length) - 1, ?_⟩
      simp only [encodeObject, List.length_append, List.length_cons, List.length_nil] at hlen ⊢
      omega
    have hp := parseMembers_fields 1 [] fs kv f
    obtain ⟨tail, e⟩ : ∃ tail, List.intercalate [','] ((kv :: fs).map fun kv =>
        quoteString kv.1 ++ [':'] ++ quoteString kv.2) ++ ['}'] = '"' :: tail := by
      cases fs with
      | nil =>
        have := memberText_append kv ['}']
        exact ⟨_, by simpa [List.intercalate] using this⟩
      | cons kv2 fs =>
        have := memberText_append kv ([','] ++ List.intercalate [','] ((kv2 :: fs).map fun kv =>
          quoteString kv.1 ++ [':'] ++ quoteString kv.2) ++ ['}'])
        refine ⟨escapeString kv.1 ++ '"' :: ':' :: '"' :: (escapeString kv.2 ++ '"' ::
          ([','] ++ List.intercalate [','] ((kv2 :: fs).map fun kv =>
            quoteString kv.1 ++ [':'] ++ quoteString kv.2) ++ ['}'])), ?_⟩
        rw [← this]
        simp only [List.map_cons, intercalate_cons_cons, List.append_assoc]
    unfold parseJSON readJSON
    rw [hf]
    have e2 : encodeObject (kv :: fs) =
        '{' :: (List.intercalate [','] ((kv :: fs).map fun kv =>
          quoteString kv.1 ++ [':'] ++ quoteString kv.2) ++ ['}']) := by
      simp [encodeObject]
    rw [e2, parseValue]
    rw [e] at hp ⊢
    simp [skipSpace, isSpace, maxNestingDepth, hp, objectValue]

/-! ## The functions of `main.go` on a history that can be read -/

theorem foldl_segments (history : List RequestDetails) (acc : Str) :
    history.foldl (fun content req => content ++ segment req) acc =
      acc ++ (history.map segment).flatten := by
  induction history generalizing acc with
  | nil => simp
  | cons r rs ih => simp [ih, List.append_assoc]

theorem getHistoryContent_content (w : World) (data : Str) (h : List RequestDetails)
    (hf : w.history = .content data) (hd : jsonUnmarshalHistory data = (h, none)) :
    getHistoryContent w = (h.map segment).flatten := by
  simp [getHistoryContent, ReadFile, hf, hd, foldl_segments]

theorem getHistoryContent_absent (w : World) (hf : w.history = .absent) :
    getHistoryContent w = ("Error reading history file: open ./log/history.json: " ++
      "no such file or directory").toList := by
  simp only [getHistoryContent, ReadFile, hf]
  decide

theorem appendHistory_absent (w : World) (r : RequestDetails) (hf : w.history = .absent)
    (hr : r.wf) :
    appendHistory Faults.none r w =
      { w with logDir := true, history := .content (historyText [r]) } := by
  have hm := jsonMarshalHistory_wf [r] (by simpa using hr)
  simp only [List.nil_append] at hm
  simp [appendHistory, ReadFile, hf, hm, Faults.none]

theorem appendHistory_marshal (w : World) (r : RequestDetails) (data text : Str)
    (h : List RequestDetails) (hf : w.history = .content data)
    (hd : jsonUnmarshalHistory data = (h, none))
    (hm : jsonMarshalHistory (h ++ [r]) = .ok text) :
    appendHistory Faults.none r w = { w with logDir := true, history := .content text } := by
  simp [appendHistory, ReadFile, hf, hd, hm, Faults.none]

/-- When `json.Marshal` accepts a decoded slice followed by a record whose
time is a calendar reading, every time in it is renderable, and the text is the
one written for such records. -/
theorem marshal_decoded (data text : Str) (h : List RequestDetails) (e : Option JsonError)
    (r : RequestDetails) (hd : jsonUnmarshalHistory data = (h, e)) (hr : r.Time.calendar)
    (hm : jsonMarshalHistory (h ++ [r]) = .ok text) :
    (∀ x ∈ h ++ [r], x.wf) ∧ text = historyText (h ++ [r]) := by
  have hc : ∀ x ∈ h ++ [r], x.Time.calendar := by
    intro x hx
    simp only [List.mem_append, List.mem_singleton] at hx
    rcases hx with hx | hx
    · have := jsonUnmarshalHistory_calendar data x
      rw [hd] at this
      exact this hx
    · subst hx; exact hr
  have hwf := jsonMarshalHistory_ok_wf _ _ hm hc
  have := jsonMarshalHistory_wf _ hwf
  rw [hm] at this
  exact ⟨hwf, Except.ok.inj this⟩

theorem appendHistory_stored (w : World) (r : RequestDetails) (h : List RequestDetails)
    (hs : storedHistory w.history = some h) (hh : ∀ x ∈ h, x.wf) (hr : r.wf) :
    appendHistory Faults.none r w =
      { w with logDir := true, history := .content (historyText (h ++ [r])) } := by
  have hwf : ∀ x ∈ h ++ [r], x.wf := by
    intro x hx
    simp only [List.mem_append, List.mem_singleton] at hx
    rcases hx with hx | hx
    · exact hh x hx
    · subst hx; exact hr
  have hm := jsonMarshalHistory_wf (h ++ [r]) hwf
  cases hf : w.history with
  | absent =>
    rw [hf] at hs
    simp only [storedHistory, Option.some.injEq] at hs
    subst hs
    exact appendHistory_absent w r hf hr
  | unreadable err => rw [hf] at hs; simp [storedHistory] at hs
  | content data =>
    rw [hf] at hs
    simp only [storedHistory] at hs
    split at hs
    · rename_i hist hd
      simp only [Option.some.injEq] at hs
      subst hs
      exact appendHistory_marshal w r data _ _ hf hd hm
    · cases hs

/-- When `json.Marshal` accepts the stored history followed by a record whose
time is a calendar reading, every time in it is renderable. -/
theorem stored_marshal_wf (fs : FileState) (h : List RequestDetails) (r : RequestDetails)
    (text : Str) (hs : storedHistory fs = some h) (hr : r.Time.calendar)
    (hm : jsonMarshalHistory (h ++ [r]) = .ok text) : ∀ x ∈ h ++ [r], x.wf := by
  cases fs with
  | absent =>
    simp only [storedHistory, Option.some.injEq] at hs
    subst hs
    exact jsonMarshalHistory_ok_wf _ _ hm (by simpa using hr)
  | unreadable err => simp [storedHistory] at hs
  | content data =>
    simp only [storedHistory] at hs
    split at hs
    · rename_i hist hd
      simp only [Option.some.injEq] at hs
      subst hs
      exact (marshal_decoded data text _ none r hd hr hm).1
    · cases hs

theorem storedHistory_historyText (h : List RequestDetails) (hwf : ∀ x ∈ h, x.wf) :
    storedHistory (.content (historyText h)) = some h := by
  simp [storedHistory, jsonUnmarshalHistory_historyText h hwf]

theorem appendAll_stored (rs : List RequestDetails) :
    ∀ (w : World) (h : List RequestDetails), storedHistory w.history = some h →
      (∀ x ∈ h, x.wf) → (∀ r ∈ rs, r.wf) → rs ≠ [] →
      (appendAll rs w).history = .content (historyText (h ++ rs)) := by
  induction rs with
  | nil => intro w h _ _ _ hne; exact absurd rfl hne
  | cons r rs ih =>
    intro w h hs hh hwf _
    have hr : r.wf := hwf r (by simp)
    have hstep := appendHistory_stored w r h hs hh hr
    have hall : ∀ x ∈ h ++ [r], x.wf := by
      intro x hx
      simp only [List.mem_append, List.mem_singleton] at hx
      rcases hx with hx | hx
      · exact hh x hx
      · subst hx; exact hr
    show (appendAll rs (appendHistory Faults.none r w)).history = _
    rw [hstep]
    cases rs with
    | nil => rfl
    | cons r2 rs2 =>
      have := ih { w with logDir := true, history := .content (historyText (h ++ [r])) }
        (h ++ [r]) (storedHistory_historyText _ hall) hall (fun x hx => hwf x (by simp [hx]))
        (by simp)
      simpa using this

theorem appendZone_rfc3339 (off : Int) (hm : off % 60 = 0) (hlo : -86400 < off)
    (hhi : off < 86400) :
    appendZone off =
      (if off = 0 then ['Z']
       else
        [if off < 0 then '-' else '+',
          digitChar (off.natAbs / 3600 / 10), digitChar (off.natAbs / 3600 % 10), ':',
          digitChar (off.natAbs / 60 % 60 / 10), digitChar (off.natAbs / 60 % 60 % 10)]) := by
  by_cases h0 : off = 0
  · simp [appendZone, h0]
  · have hd : (60 : Int) ∣ off := Int.dvd_of_emod_eq_zero hm
    have ht : Int.tdiv off 60 = off / 60 := Int.tdiv_eq_ediv_of_dvd hd
    have hhr : (off / 60).natAbs / 60 < 100 := by omega
    have hmm : (off / 60).natAbs % 60 < 100 := by omega
    have e1 : (off / 60).natAbs / 60 / 10 % 10 = off.natAbs / 3600 / 10 := by omega
    have e2 : (off / 60).natAbs / 60 % 10 = off.natAbs / 3600 % 10 := by omega
    have e3 : (off / 60).natAbs % 60 / 10 % 10 = off.natAbs / 60 % 60 / 10 := by omega
    have e4 : (off / 60).natAbs % 60 % 10 = off.natAbs / 60 % 60 % 10 := by omega
    unfold appendZone
    rw [if_neg h0, if_neg h0]
    by_cases hneg : off / 60 < 0
    · have hn : off < 0 := by omega
      simp only [ht, if_pos hneg, if_pos hn, Int.ofNat_eq_coe, appendInt_two _ hhr,
        appendInt_two _ hmm, e1, e2, e3, e4]
      rfl
    · have hn : ¬ off < 0 := by omega
      simp only [ht, if_neg hneg, if_neg hn, Int.ofNat_eq_coe, appendInt_two _ hhr,
        appendInt_two _ hmm, e1, e2, e3, e4]
      rfl

/-- For a renderable time `Format(time.RFC3339)` writes the text RFC 3339
prescribes. -/
theorem FormatRFC3339_wf (t : Time) (h : t.wf) : t.FormatRFC3339 = rfc3339Text t := by
  unfold Time.FormatRFC3339
  rw [appendFormatRFC3339_wf t h false]
  obtain ⟨hy0, hy1, hm0, hm1, hd0, hd1, hh, hmi, hs, hn, ho, ho1, ho2⟩ := h
  have hdays : daysIn t.month t.year.toNat ≤ 31 := by
    unfold daysIn; split_ifs <;> omega
  rw [appendZone_rfc3339 t.offset ho ho1 ho2]
  have e1 : t.month / 10 % 10 = t.month / 10 := by omega
  have e2 : t.day / 10 % 10 = t.day / 10 := by omega
  have e3 : t.hour / 10 % 10 = t.hour / 10 := by omega
  have e4 : t.minute / 10 % 10 = t.minute / 10 := by omega
  have e5 : t.second / 10 % 10 = t.second / 10 := by omega
  rw [e1, e2, e3, e4, e5]
  simp [rfc3339Text]

theorem segments_wf (rs : List RequestDetails) (h : ∀ r ∈ rs, r.wf) :
    (rs.map segment).flatten =
      (rs.map fun r => ":: ".toList ++ rfc3339Text r.Time ++ " - ".toList ++ r.Content ++
        " - ".toList ++ r.IP ++ " ::".toList).flatten := by
  induction rs with
  | nil => simp only [List.map_nil]
  | cons r rs ih =>
    simp only [List.map_cons, List.flatten_cons]
    rw [ih (fun x hx => h x (by simp [hx]))]
    simp only [segment, FormatRFC3339_wf r.Time (h r (by simp))]

/-! ## The bound of `readJSON` is high enough -/

theorem skipSpace_length (s : Str) : (skipSpace s).length ≤ s.length := by
  induction s with
  | nil => simp [skipSpace]
  | cons c cs ih =>
    rw [skipSpace]
    split
    · simp only [List.length_cons]; omega
    · exact Nat.le_refl _

theorem keepChar_some (c : Char) (x : Except ScanError (Str × Str)) (raw after : Str)
    (h : keepChar c x = .ok (raw, after)) : ∃ raw0, x = .ok (raw0, after) := by
  cases x with
  | error e => simp [keepChar] at h
  | ok p =>
    obtain ⟨raw0, after0⟩ := p
    simp only [keepChar, Except.ok.injEq, Prod.mk.injEq] at h
    exact ⟨raw0, by rw [h.2]⟩

theorem scanStringFrom_length (s : Str) :
    ∀ (st : StringState) (raw after : Str),
      scanStringFrom st s = .ok (raw, after) → after.length < s.length := by
  induction s with
  | nil => intro st raw after h; cases st <;> simp [scanStringFrom] at h
  | cons c cs ih =>
    intro st raw after h
    cases st with
    | inString =>
      rw [scanStringFrom] at h
      split at h
      · simp only [Except.ok.injEq, Prod.mk.injEq] at h
        rw [← h.2]; simp
      · split at h
        · obtain ⟨raw0, h0⟩ := keepChar_some _ _ _ _ h
          have := ih _ _ _ h0
          simp only [List.length_cons]; omega
        · split at h
          · cases h
          · obtain ⟨raw0, h0⟩ := keepChar_some _ _ _ _ h
            have := ih _ _ _ h0
            simp only [List.length_cons]; omega
    | inStringEsc =>
      rw [scanStringFrom] at h
      split at h
      · obtain ⟨raw0, h0⟩ := keepChar_some _ _ _ _ h
        have := ih _ _ _ h0
        simp only [List.length_cons]; omega
      · split at h
        · obtain ⟨raw0, h0⟩ := keepChar_some _ _ _ _ h
          have := ih _ _ _ h0
          simp only [List.length_cons]; omega
        · cases h
    | inStringEscU digits =>
      rw [scanStringFrom] at h
      split at h
      · obtain ⟨raw0, h0⟩ := keepChar_some _ _ _ _ h
        have := ih _ _ _ h0
        simp only [List.length_cons]; omega
      · cases h

theorem scanString_length (s raw after : Str) (h : scanString s = .ok (raw, after)) :
    after.length < s.length :=
  scanStringFrom_length s _ raw after h

theorem dropWhile_length (p : Char → Bool) (s : Str) : (s.dropWhile p).length ≤ s.length :=
  (List.dropWhile_sublist p).length_le

theorem scanExponent_length (s after : Str) (h : scanExponent s = .ok after) :
    after.length < s.length := by
  unfold scanExponent at h
  split at h
  · cases h
  · rename_i c r
    split at h
    · split at h
      · cases h
      · rename_i d r1
        split at h
        · simp only [Except.ok.injEq] at h
          have := dropWhile_length isDigit r1
          rw [← h]; simp only [List.length_cons]; omega
        · cases h
    · split at h
      · simp only [Except.ok.injEq] at h
        have := dropWhile_length isDigit r
        rw [← h]; simp only [List.length_cons]; omega
      · cases h

theorem scanFraction_length (s after : Str) (h : scanFraction s = .ok after) :
    after.length ≤ s.length := by
  unfold scanFraction at h
  split at h
  · simp only [Except.ok.injEq] at h
    rw [← h]
  · rename_i c r
    split at h
    · split at h
      · cases h
      · rename_i d r1
        split at h
        · have hd := dropWhile_length isDigit r1
          split at h
          · simp only [Except.ok.injEq] at h
            rw [← h]; simp
          · rename_i e r2 he
            rw [he] at hd
            simp only [List.length_cons] at hd
            split at h
            · have := scanExponent_length _ _ h
              simp only [List.length_cons]; omega
            · simp only [Except.ok.injEq] at h
              rw [← h]; simp only [List.length_cons]; omega
        · cases h
    · split at h
      · have := scanExponent_length _ _ h
        simp only [List.length_cons]; omega
      · simp only [Except.ok.injEq] at h
        rw [← h]

theorem scanNeg_length (s after : Str) (h : scanNeg s = .ok after) :
    after.length ≤ s.length := by
  unfold scanNeg at h
  split at h
  · cases h
  · rename_i c r
    split at h
    · have := scanFraction_length _ _ h
      simp only [List.length_cons]; omega
    · split at h
      · have := scanFraction_length _ _ h
        have := dropWhile_length isDigit r
        simp only [List.length_cons]; omega
      · cases h

theorem scanLiteral_length (name : Str) (es : Str) :
    ∀ (s after : Str), scanLiteral name es s = .ok after → after.length ≤ s.length := by
  induction es with
  | nil => intro s after h; simp only [scanLiteral, Except.ok.injEq] at h; rw [← h]
  | cons e es ih =>
    intro s after h
    cases s with
    | nil => simp [scanLiteral] at h
    | cons c r =>
      rw [scanLiteral] at h
      split at h
      · have := ih _ _ h
        simp only [List.length_cons]; omega
      · cases h

theorem skipSpace_cons_length (s r : Str) (c : Char) (h : skipSpace s = c :: r) :
    r.length < s.length := by
  have := skipSpace_length s
  rw [h] at this
  simp only [List.length_cons] at this
  omega

/-- Each of the three readers consumes at least one character. -/
theorem parse_length (f : Nat) :
    (∀ d s v r, parseValue f d s = some (.ok (v, r)) → r.length < s.length) ∧
    (∀ d s vs r, parseElements f d s = some (.ok (vs, r)) → r.length < s.length) ∧
    (∀ d s ms r, parseMembers f d s = some (.ok (ms, r)) → r.length < s.length) := by
  induction f with
  | zero =>
    refine ⟨?_, ?_, ?_⟩
    · intro d s v r h; simp [parseValue] at h
    · intro d s vs r h; simp [parseElements] at h
    · intro d s ms r h; simp [parseMembers] at h
  | succ f ih =>
    obtain ⟨ihv, ihe, ihm⟩ := ih
    refine ⟨?_, ?_, ?_⟩
    · intro d s v r h
      rw [parseValue] at h
      split at h
      · cases h
      · rename_i c r0 hs
        have h0 := skipSpace_cons_length s r0 c hs
        split at h
        · split at h
          · rename_i raw after hscan
            simp only [Option.some.injEq, Except.ok.injEq, Prod.mk.injEq] at h
            have := scanString_length _ _ _ hscan
            rw [← h.2]; omega
          · cases h
        · split at h
          · split at h
            · split at h
              · cases h
              · rename_i c1 r1 hs1
                have h1 := skipSpace_cons_length r0 r1 c1 hs1
                split at h
                · simp only [Option.some.injEq, Except.ok.injEq, Prod.mk.injEq] at h
                  rw [← h.2]; omega
                · split at h
                  · rename_i items after he
                    simp only [Option.some.injEq, Except.ok.injEq, Prod.mk.injEq] at h
                    have := ihe _ _ _ _ he
                    simp only [List.length_cons] at this
                    rw [← h.2]; omega
                  · cases h
                  · cases h
            · cases h
          · split at h
            · split at h
              · split at h
                · cases h
                · rename_i c1 r1 hs1
                  have h1 := skipSpace_cons_length r0 r1 c1 hs1
                  split at h
                  · simp only [Option.some.injEq, Except.ok.injEq, Prod.mk.injEq] at h
                    rw [← h.2]; omega
                  · split at h
                    · rename_i members after he
                      simp only [Option.some.injEq, Except.ok.injEq, Prod.mk.injEq] at h
                      have := ihm _ _ _ _ he
                      simp only [List.length_cons] at this
                      rw [← h.2]; omega
                    · cases h
                    · cases h
              · cases h
            · split at h
              · split at h
                · rename_i after hl
                  simp only [Option.some.injEq, Except.ok.injEq, Prod.mk.injEq] at h
                  have := scanLiteral_length _ _ _ _ hl
                  rw [← h.2]; omega
                · cases h
              · split at h
                · split at h
                  · rename_i after hl
                    simp only [Option.some.injEq, Except.ok.injEq, Prod.mk.injEq] at h
                    have := scanLiteral_length _ _ _ _ hl
                    rw [← h.2]; omega
                  · cases h
                · split at h
                  · split at h
                    · rename_i after hl
                      simp only [Option.some.injEq, Except.ok.injEq, Prod.mk.injEq] at h
                      have := scanLiteral_length _ _ _ _ hl
                      rw [← h.2]; omega
                    · cases h
                  · split at h
                    · split at h
                      · rename_i after hnum
                        simp only [Option.some.injEq, Except.ok.injEq, Prod.mk.injEq] at h
                        have := scanNeg_length _ _ hnum
                        rw [← h.2]; omega
                      · cases h
                    · split at h
                      · split at h
                        · rename_i after hnum
                          simp only [Option.some.injEq, Except.ok.injEq, Prod.mk.injEq] at h
                          have := scanFraction_length _ _ hnum
                          rw [← h.2]; omega
                        · cases h
                      · split at h
                        · split at h
                          · rename_i after hnum
                            simp only [Option.some.injEq, Except.ok.injEq, Prod.mk.injEq] at h
                            have := scanFraction_length _ _ hnum
                            have := dropWhile_length isDigit r0
                            rw [← h.2]; omega
                          · cases h
                        · cases h
    · intro d s vs r h
      rw [parseElements] at h
      split at h
      · cases h
      · cases h
      · rename_i v r0 hv
        have h0 := ihv _ _ _ _ hv
        split at h
        · cases h
        · rename_i c r1 hs1
          have h1 := skipSpace_cons_length r0 r1 c hs1
          split at h
          · split at h
            · rename_i vs0 after he
              simp only [Option.some.injEq, Except.ok.injEq, Prod.mk.injEq] at h
              have := ihe _ _ _ _ he
              rw [← h.2]; omega
            · cases h
            · cases h
          · split at h
            · simp only [Option.some.injEq, Except.ok.injEq, Prod.mk.injEq] at h
              rw [← h.2]; omega
            · cases h
    · intro d s ms r h
      rw [parseMembers] at h
      split at h
      · cases h
      · rename_i q r0 hs
        have h0 := skipSpace_cons_length s r0 q hs
        split at h
        · split at h
          · cases h
          · rename_i key r1 hscan
            have h1 := scanString_length _ _ _ hscan
            split at h
            · cases h
            · rename_i c1 r2 hs2
              have h2 := skipSpace_cons_length r1 r2 c1 hs2
              split at h
              · split at h
                · cases h
                · cases h
                · rename_i v r3 hv
                  have h3 := ihv _ _ _ _ hv
                  split at h
                  · cases h
                  · rename_i c3 r4 hs4
                    have h4 := skipSpace_cons_length r3 r4 c3 hs4
                    split at h
                    · split at h
                      · rename_i ms0 after hm
                        simp only [Option.some.injEq, Except.ok.injEq, Prod.mk.injEq] at h
                        have := ihm _ _ _ _ hm
                        rw [← h.2]; omega
                      · cases h
                      · cases h
                    · split at h
                      · simp only [Option.some.injEq, Except.ok.injEq, Prod.mk.injEq] at h
                        rw [← h.2]; omega
                      · cases h
              · cases h
        · cases h

/-- One more unit of the bound changes nothing once the bound is twice the
length of the text. -/
theorem parse_fuel_succ (f : Nat) :
    (∀ d s, 2 * s.length + 1 ≤ f → parseValue (f + 1) d s = parseValue f d s) ∧
    (∀ d s, 2 * s.length + 2 ≤ f → parseElements (f + 1) d s = parseElements f d s) ∧
    (∀ d s, 2 * s.length + 2 ≤ f → parseMembers (f + 1) d s = parseMembers f d s) := by
  induction f with
  | zero =>
    refine ⟨?_, ?_, ?_⟩ <;> intro d s h <;> omega
  | succ f ih =>
    obtain ⟨ihv, ihe, ihm⟩ := ih
    refine ⟨?_, ?_, ?_⟩
    · intro d s hf
      rw [parseValue.eq_2 d s (f + 1), parseValue.eq_2 d s f]
      cases hs : skipSpace s with
      | nil => rfl
      | cons c r0 =>
        have h0 := skipSpace_cons_length s r0 c hs
        dsimp only
        by_cases hq : c = '"'
        · simp only [hq, if_true]
        · simp only [hq, if_false]
          by_cases hb : c = '['
          · simp only [hb, if_true]
            by_cases hd : d < maxNestingDepth
            · simp only [hd, if_true]
              cases hs1 : skipSpace r0 with
              | nil => rfl
              | cons c1 r1 =>
                have h1 := skipSpace_cons_length r0 r1 c1 hs1
                dsimp only
                by_cases hc1 : c1 = ']'
                · simp only [hc1, if_true]
                · simp only [hc1, if_false]
                  rw [ihe (d + 1) (c1 :: r1) (by simp only [List.length_cons]; omega)]
            · simp only [hd, if_false]
          · simp only [hb, if_false]
            by_cases hc : c = '{'
            · simp only [hc, if_true]
              by_cases hd : d < maxNestingDepth
              · simp only [hd, if_true]
                cases hs1 : skipSpace r0 with
                | nil => rfl
                | cons c1 r1 =>
                  have h1 := skipSpace_cons_length r0 r1 c1 hs1
                  dsimp only
                  by_cases hc1 : c1 = '}'
                  · simp only [hc1, if_true]
                  · simp only [hc1, if_false]
                    rw [ihm (d + 1) (c1 :: r1) (by simp only [List.length_cons]; omega)]
              · simp only [hd, if_false]
            · simp only [hc, if_false]
    · intro d s hf
      rw [parseElements.eq_2 d s (f + 1), parseElements.eq_2 d s f,
        ihv d s (by omega)]
      cases hv : parseValue f d s with
      | none => rfl
      | some p =>
        cases p with
        | error e => rfl
        | ok p =>
        obtain ⟨v, r0⟩ := p
        have h0 := (parse_length f).1 _ _ _ _ hv
        dsimp only
        cases hs1 : skipSpace r0 with
        | nil => rfl
        | cons c r1 =>
          have h1 := skipSpace_cons_length r0 r1 c hs1
          dsimp only
          by_cases hc : c = ','
          · simp only [hc, if_true]
            rw [ihe d r1 (by omega)]
          · simp only [hc, if_false]
    · intro d s hf
      rw [parseMembers.eq_2 d s (f + 1), parseMembers.eq_2 d s f]
      cases hs : skipSpace s with
      | nil => rfl
      | cons q r0 =>
        have h0 := skipSpace_cons_length s r0 q hs
        dsimp only
        by_cases hq : q = '"'
        · simp only [hq, if_true]
          cases hscan : scanString r0 with
          | error e => rfl
          | ok p =>
            obtain ⟨key, r1⟩ := p
            have h1 := scanString_length _ _ _ hscan
            dsimp only
            cases hs2 : skipSpace r1 with
            | nil => rfl
            | cons c1 r2 =>
              have h2 := skipSpace_cons_length r1 r2 c1 hs2
              dsimp only
              by_cases hc1 : c1 = ':'
              · simp only [hc1, if_true]
                rw [ihv d r2 (by omega)]
                cases hv : parseValue f d r2 with
                | none => rfl
                | some p3 =>
                  cases p3 with
                  | error e => rfl
                  | ok p3 =>
                  obtain ⟨v, r3⟩ := p3
                  have h3 := (parse_length f).1 _ _ _ _ hv
                  dsimp only
                  cases hs4 : skipSpace r3 with
                  | nil => rfl
                  | cons c3 r4 =>
                    have h4 := skipSpace_cons_length r3 r4 c3 hs4
                    dsimp only
                    by_cases hc3 : c3 = ','
                    · simp only [hc3, if_true]
                      rw [ihm d r4 (by omega)]
                    · simp only [hc3, if_false]
              · simp only [hc1, if_false]
        · simp only [hq, if_false]

/-- The result of `parseValue` is the same for every bound from the one
`readJSON` uses upwards: the bound never cuts the reading of a text short. -/
theorem parseValue_fuel (data : Str) (extra : Nat) :
    parseValue (2 * data.length + 2 + extra) 0 data =
      parseValue (2 * data.length + 2) 0 data := by
  induction extra with
  | zero => rfl
  | succ n ih =>
    rw [← ih]
    exact (parse_fuel_succ (2 * data.length + 2 + n)).1 0 data (by omega)

/-- With a bound of twice the length of the text the readers return a value
or an error of the scanner: the bound is not reached. -/
theorem parse_total (f : Nat) :
    (∀ d s, 2 * s.length + 1 ≤ f → parseValue f d s ≠ none) ∧
    (∀ d s, 2 * s.length + 2 ≤ f → parseElements f d s ≠ none) ∧
    (∀ d s, 2 * s.length + 2 ≤ f → parseMembers f d s ≠ none) := by
  induction f with
  | zero =>
    refine ⟨?_, ?_, ?_⟩ <;> intro d s h <;> omega
  | succ f ih =>
    obtain ⟨ihv, ihe, ihm⟩ := ih
    refine ⟨?_, ?_, ?_⟩
    · intro d s hf
      rw [parseValue.eq_2 d s f]
      cases hs : skipSpace s with
      | nil => simp
      | cons c r0 =>
        have h0 := skipSpace_cons_length s r0 c hs
        dsimp only
        by_cases hq : c = '"'
        · simp only [hq, if_true]
          cases scanString r0 <;> simp
        · simp only [hq, if_false]
          by_cases hb : c = '['
          · simp only [hb, if_true]
            by_cases hd : d < maxNestingDepth
            · simp only [hd, if_true]
              cases hs1 : skipSpace r0 with
              | nil => simp
              | cons c1 r1 =>
                have h1 := skipSpace_cons_length r0 r1 c1 hs1
                dsimp only
                by_cases hc1 : c1 = ']'
                · simp only [hc1, if_true]
                  simp
                · simp only [hc1, if_false]
                  have := ihe (d + 1) (c1 :: r1) (by simp only [List.length_cons]; omega)
                  cases hp : parseElements f (d + 1) (c1 :: r1) with
                  | none => exact absurd hp this
                  | some p => cases p <;> simp
            · simp only [hd, if_false]
              simp
          · simp only [hb, if_false]
            by_cases hc : c = '{'
            · simp only [hc, if_true]
              by_cases hd : d < maxNestingDepth
              · simp only [hd, if_true]
                cases hs1 : skipSpace r0 with
                | nil => simp
                | cons c1 r1 =>
                  have h1 := skipSpace_cons_length r0 r1 c1 hs1
                  dsimp only
                  by_cases hc1 : c1 = '}'
                  · simp only [hc1, if_true]
                    simp
                  · simp only [hc1, if_false]
                    have := ihm (d + 1) (c1 :: r1) (by simp only [List.length_cons]; omega)
                    cases hp : parseMembers f (d + 1) (c1 :: r1) with
                    | none => exact absurd hp this
                    | some p => cases p <;> simp
              · simp only [hd, if_false]
                simp
            · simp only [hc, if_false]
              split_ifs
              · cases scanLiteral "true".toList "rue".toList r0 <;> simp
              · cases scanLiteral "false".toList "alse".toList r0 <;> simp
              · cases scanLiteral "null".toList "ull".toList r0 <;> simp
              · cases scanNeg r0 <;> simp
              · cases scanFraction r0 <;> simp
              · cases scanFraction (r0.dropWhile isDigit) <;> simp
              · simp
    · intro d s hf
      rw [parseElements.eq_2 d s f]
      have hv0 := ihv d s (by omega)
      cases hv : parseValue f d s with
      | none => exact absurd hv hv0
      | some p =>
        cases p with
        | error e => simp
        | ok p =>
        obtain ⟨v, r0⟩ := p
        have h0 := (parse_length f).1 _ _ _ _ hv
        dsimp only
        cases hs1 : skipSpace r0 with
        | nil => simp
        | cons c r1 =>
          have h1 := skipSpace_cons_length r0 r1 c hs1
          dsimp only
          by_cases hc : c = ','
          · simp only [hc, if_true]
            have := ihe d r1 (by omega)
            cases hp : parseElements f d r1 with
            | none => exact absurd hp this
            | some p => cases p <;> simp
          · simp only [hc, if_false]
            split_ifs <;> simp
    · intro d s hf
      rw [parseMembers.eq_2 d s f]
      cases hs : skipSpace s with
      | nil => simp
      | cons q r0 =>
        have h0 := skipSpace_cons_length s r0 q hs
        dsimp only
        by_cases hq : q = '"'
        · simp only [hq, if_true]
          cases hscan : scanString r0 with
          | error e => simp
          | ok p =>
            obtain ⟨key, r1⟩ := p
            have h1 := scanString_length _ _ _ hscan
            dsimp only
            cases hs2 : skipSpace r1 with
            | nil => simp
            | cons c1 r2 =>
              have h2 := skipSpace_cons_length r1 r2 c1 hs2
              dsimp only
              by_cases hc1 : c1 = ':'
              · simp only [hc1, if_true]
                have hv0 := ihv d r2 (by omega)
                cases hv : parseValue f d r2 with
                | none => exact absurd hv hv0
                | some p3 =>
                  cases p3 with
                  | error e => simp
                  | ok p3 =>
                  obtain ⟨v, r3⟩ := p3
                  have h3 := (parse_length f).1 _ _ _ _ hv
                  dsimp only
                  cases hs4 : skipSpace r3 with
                  | nil => simp
                  | cons c3 r4 =>
                    have h4 := skipSpace_cons_length r3 r4 c3 hs4
                    dsimp only
                    by_cases hc3 : c3 = ','
                    · simp only [hc3, if_true]
                      have := ihm d r4 (by omega)
                      cases hp : parseMembers f d r4 with
                      | none => exact absurd hp this
                      | some p => cases p <;> simp
                    · simp only [hc3, if_false]
                      split_ifs <;> simp
              · simp only [hc1, if_false]
                simp
        · simp only [hq, if_false]
          simp

/-- The bound `readJSON` sets is not reached: `parseValue` returns a value or
an error of the scanner. -/
theorem parseValue_total (data : Str) (d : Nat) :
    parseValue (2 * data.length + 2) d data ≠ none :=
  (parse_total (2 * data.length + 2)).1 d data (by omega)

/-! ## `net.SplitHostPort` on `host:port` -/

theorem indexOf?_not_mem (c : Char) (l1 l2 : Str) (h : c ∉ l1) :
    (l1 ++ c :: l2).indexOf? c = some l1.length := by
  induction l1 with
  | nil => simp [List.indexOf?]
  | cons x xs ih =>
    have hx : x ≠ c := fun e => h (by simp [e])
    have ih' := ih (fun hm => h (by simp [hm]))
    simp only [List.indexOf?] at ih' ⊢
    simp [List.findIdx?_cons, hx, ih']

theorem contains_false (c : Char) (l : Str) (h : c ∉ l) : l.contains c = false := by
  cases hc : l.contains c with
  | false => rfl
  | true => exact absurd (List.elem_iff.1 hc) h

/-- An address `host:port` whose host and port contain no colon and no square
bracket splits into that host and that port. -/
theorem SplitHostPort_plain (host port : Str)
    (hh : ':' ∉ host ∧ '[' ∉ host ∧ ']' ∉ host)
    (hp : ':' ∉ port ∧ '[' ∉ port ∧ ']' ∉ port) :
    SplitHostPort (host ++ ':' :: port) = .ok (host, port) := by
  have hlast : lastIndexOf ':' (host ++ ':' :: port) = some host.length := by
    unfold lastIndexOf
    have e : (host ++ ':' :: port).reverse = port.reverse ++ ':' :: host.reverse := by simp
    rw [e, indexOf?_not_mem ':' _ _ (by simpa using hp.1)]
    simp only [List.length_append, List.length_cons, List.length_reverse]
    congr 1
    omega
  have hhead : (host ++ ':' :: port).head? ≠ some '[' := by
    cases host with
    | nil => simp
    | cons x xs =>
      intro e
      simp only [List.cons_append, List.head?_cons, Option.some.injEq] at e
      exact hh.2.1 (by simp [e])
  have hmem : ∀ c, c ≠ ':' → c ∉ host → c ∉ port → c ∉ host ++ ':' :: port := by
    intro c hc h1 h2 hm
    simp only [List.mem_append, List.mem_cons] at hm
    rcases hm with hm | hm | hm
    · exact h1 hm
    · exact hc hm
    · exact h2 hm
  unfold SplitHostPort
  simp only [hlast]
  rw [if_neg hhead]
  have ht : (host ++ ':' :: port).take host.length = host := by simp
  have hd : (host ++ ':' :: port).drop (host.length + 1) = port := by
    rw [← List.drop_drop]
    simp
  rw [ht, hd, contains_false _ _ hh.1,
    contains_false _ _ (hmem '[' (by decide) hh.2.1 hp.2.1),
    contains_false _ _ (hmem ']' (by decide) hh.2.2 hp.2.2)]
  rfl

/-! ## Claims about `getHostIP` -/

theorem exists_first_selected (addrs : List Addr) (h : ∃ a ∈ addrs, a.selected = true) :
    ∃ front a back, addrs = front ++ a :: back ∧ (∀ b ∈ front, b.selected = false) ∧
      a.selected = true := by
  induction addrs with
  | nil => obtain ⟨a, ha, _⟩ := h; simp at ha
  | cons x xs ih =>
    cases hx : x.selected with
    | true => exact ⟨[], x, xs, rfl, by simp, hx⟩
    | false =>
      obtain ⟨a, ha, hsel⟩ := h
      simp only [List.mem_cons] at ha
      rcases ha with ha | ha
      · subst ha; rw [hx] at hsel; cases hsel
      · obtain ⟨front, a', back, e, hf, ha'⟩ := ih ⟨a, ha, hsel⟩
        refine ⟨x :: front, a', back, by rw [e]; rfl, ?_, ha'⟩
        intro b hb
        simp only [List.mem_cons] at hb
        rcases hb with hb | hb
        · subst hb; exact hx
        · exact hf b hb

theorem getHostIPLoop_selected (a : Addr) (back : List Addr) (ha : a.selected = true) :
    ∃ b0 b1 b2 b3 : Byte, IP.To4 a.ip = some [b0, b1, b2, b3] ∧ b0.val ≠ 127 ∧
      getHostIPLoop (a :: back) = .ok (dottedDecimal [b0, b1, b2, b3]) := by
  cases a with
  | ipAddr ip zone => simp [Addr.selected] at ha
  | ipNet ip mask =>
    simp only [Addr.selected, Bool.and_eq_true, Bool.not_eq_true'] at ha
    obtain ⟨hl, h4⟩ := ha
    cases e4 : IP.To4 ip with
    | none => rw [e4] at h4; simp at h4
    | some ip4 =>
      have hlen := To4_length ip ip4 e4
      match ip4, hlen with
      | [b0, b1, b2, b3], _ =>
        refine ⟨b0, b1, b2, b3, e4, ?_, ?_⟩
        · intro h127
          have : b0 = 127 := Fin.ext h127
          subst this
          simp [IP.IsLoopback, e4] at hl
        · simp [getHostIPLoop, hl, e4]

/-- C3 (as amended): for every list of interface addresses that contains a
`*net.IPNet` entry which is not loopback and has a 4-byte IPv4 form, `getHostIP`
succeeds and returns the dotted-decimal text of the first such entry in
enumeration order; the entries before it (none of which passes the test) and
all entries after it do not affect the result. The text returned reads back as
the IPv4 literal of the four octets of that address, and its first octet is
not 127. -/
theorem getHostIP_first_selected (addrs : List Addr)
    (h : ∃ a ∈ addrs, a.selected = true) :
    ∃ (front : List Addr) (a : Addr) (back : List Addr) (b0 b1 b2 b3 : Byte),
      addrs = front ++ a :: back ∧ (∀ b ∈ front, b.selected = false) ∧ a.selected = true ∧
      IP.To4 a.ip = some [b0, b1, b2, b3] ∧ b0.val ≠ 127 ∧
      getHostIP (.ok addrs) = .ok (dottedDecimal [b0, b1, b2, b3]) ∧
      parseIPv4 (dottedDecimal [b0, b1, b2, b3]) = some [b0.val, b1.val, b2.val, b3.val] := by
  obtain ⟨front, a, back, e, hf, ha⟩ := exists_first_selected addrs h
  obtain ⟨b0, b1, b2, b3, e4, h127, hres⟩ := getHostIPLoop_selected a back ha
  refine ⟨front, a, back, b0, b1, b2, b3, e, hf, ha, e4, h127, ?_, parseIPv4_dottedDecimal _ _ _ _⟩
  rw [e]
  show getHostIPLoop (front ++ a :: back) = _
  rw [getHostIPLoop_skip front _ hf, hres]

/-- Witness of C3 (as amended): a loopback entry, an `*net.IPAddr` entry and
an IPv4-mapped `*net.IPNet` entry, in this order. -/
theorem getHostIP_first_selected_witness :
    (∃ a ∈ [Addr.ipNet [127, 0, 0, 1] [255, 0, 0, 0], Addr.ipAddr [10, 0, 0, 1] [],
        Addr.ipNet [0, 0, 0, 0, 0, 0, 0, 0, 0, 0, 255, 255, 192, 168, 1, 20] []],
      a.selected = true) ∧
    ∃ (front : List Addr) (a : Addr) (back : List Addr) (b0 b1 b2 b3 : Byte),
      [Addr.ipNet [127, 0, 0, 1] [255, 0, 0, 0], Addr.ipAddr [10, 0, 0, 1] [],
        Addr.ipNet [0, 0, 0, 0, 0, 0, 0, 0, 0, 0, 255, 255, 192, 168, 1, 20] []] =
        front ++ a :: back ∧ (∀ b ∈ front, b.selected = false) ∧ a.selected = true ∧
      IP.To4 a.ip = some [b0, b1, b2, b3] ∧ b0.val ≠ 127 ∧
      getHostIP (.ok [Addr.ipNet [127, 0, 0, 1] [255, 0, 0, 0], Addr.ipAddr [10, 0, 0, 1] [],
        Addr.ipNet [0, 0, 0, 0, 0, 0, 0, 0, 0, 0, 255, 255, 192, 168, 1, 20] []]) =
        .ok (dottedDecimal [b0, b1, b2, b3]) ∧
      parseIPv4 (dottedDecimal [b0, b1, b2, b3]) = some [b0.val, b1.val, b2.val, b3.val] :=
  ⟨by decide, getHostIP_first_selected _ (by decide)⟩

/-- C3 fails as stated: the list whose only entry is the `*net.IPAddr`
`10.0.0.1` contains an address that is not loopback and has a 4-byte IPv4
form, and `getHostIP` returns an error on it. -/
theorem getHostIP_ipAddr_skipped :
    (∃ a ∈ [Addr.ipAddr [10, 0, 0, 1] []], a.usableIPv4 = true) ∧
    getHostIP (.ok [Addr.ipAddr [10, 0, 0, 1] []]) =
      .error "Unable to determine host IP address".toList := by
  decide

/-- C4 (as amended): for every list of interface addresses, `getHostIP` fails
exactly when no entry is a `*net.IPNet` that is not loopback and has a 4-byte
IPv4 form, and the error it then returns is "Unable to determine host IP
address". -/
theorem getHostIP_error_iff (addrs : List Addr) :
    (getHostIP (.ok addrs) = .error "Unable to determine host IP address".toList ↔
      ∀ a ∈ addrs, a.selected = false) ∧
    ∀ err, getHostIP (.ok addrs) = .error err →
      err = "Unable to determine host IP address".toList := by
  constructor
  · constructor
    · intro h
      exact (getHostIPLoop_error_iff addrs).1 ⟨_, h⟩
    · intro h
      obtain ⟨err, e⟩ := (getHostIPLoop_error_iff addrs).2 h
      have := getHostIPLoop_error_msg addrs err e
      subst this
      exact e
  · intro err h
    exact getHostIPLoop_error_msg addrs err h

/-- C4 fails as stated: on the empty list the error is not "no host IP address
available", and on the list whose only entry is the `*net.IPAddr` `10.0.0.1`
`getHostIP` fails although an address that is not loopback and has a 4-byte
IPv4 form exists. -/
theorem getHostIP_error_text :
    getHostIP (.ok []) = .error "Unable to determine host IP address".toList ∧
    getHostIP (.ok []) ≠ .error "no host IP address available".toList ∧
    (∃ a ∈ [Addr.ipAddr [10, 0, 0, 1] []], a.usableIPv4 = true) ∧
    (∃ err, getHostIP (.ok [Addr.ipAddr [10, 0, 0, 1] []]) = .error err) := by
  refine ⟨by decide, by decide, by decide, ⟨_, rfl⟩⟩

/-! ## Claims about the history store -/

theorem segments_head (rs : List RequestDetails) :
    (rs.map segment).flatten = [] ∨ ∃ tail, (rs.map segment).flatten = ':' :: tail := by
  cases rs with
  | nil => left; rfl
  | cons r rs =>
    right
    exact ⟨_, by simp only [List.map_cons, List.flatten_cons, segment]; rfl⟩

set_option maxRecDepth 100000 in
/-- C1: starting from an absent history file, or from one whose content decodes
to the empty sequence, calling `appendHistory` on the records `rs` in order
(every file operation succeeding, no other access to the file) and then
`getHistoryContent` returns exactly the concatenation, without separator, of
one segment per record, in that order, each segment being `:: `, the time of
the record in the text RFC 3339 prescribes (`YYYY-MM-DDTHH:MM:SS` and `Z` or
`+HH:MM` or `-HH:MM`), ` - `, the content, ` - `, the IP and ` ::`. With no
record appended the start is the file holding the empty sequence, and the
result is the empty string. The records are those of the data model: their
time is one RFC 3339 can render. -/
theorem getHistoryContent_appendAll (w : World) (rs : List RequestDetails)
    (hwf : ∀ r ∈ rs, r.wf)
    (hstart : (w.history = .absent ∧ rs ≠ []) ∨
      ∃ data, w.history = .content data ∧ jsonUnmarshalHistory data = ([], none)) :
    getHistoryContent (appendAll rs w) =
      (rs.map fun r => ":: ".toList ++ rfc3339Text r.Time ++ " - ".toList ++ r.Content ++
        " - ".toList ++ r.IP ++ " ::".toList).flatten := by
  rw [← segments_wf rs hwf]
  have key : ∀ (hne : rs ≠ []) (hs : storedHistory w.history = some []),
      getHistoryContent (appendAll rs w) = (rs.map segment).flatten := by
    intro hne hs
    have hh := appendAll_stored rs w [] hs (by simp) hwf hne
    simp only [List.nil_append] at hh
    exact getHistoryContent_content _ _ rs hh (jsonUnmarshalHistory_historyText rs hwf)
  rcases hstart with ⟨ha, hne⟩ | ⟨data, hc, hd⟩
  · exact key hne (by rw [ha]; rfl)
  · by_cases hne : rs = []
    · subst hne
      exact getHistoryContent_content w data [] hc hd
    · exact key hne (by rw [hc]; simp [storedHistory, hd])

set_option maxRecDepth 100000 in
/-- Witness of C1: two records appended to an absent file give the two
segments, written out; no record appended to a file that holds `[]` gives the
empty string. -/
theorem getHistoryContent_appendAll_witness :
    (∀ r ∈ [sampleRecord, { sampleRecord with IP := "::1".toList }], r.wf) ∧
    ((coldWorld.history = .absent ∧
        [sampleRecord, { sampleRecord with IP := "::1".toList }] ≠ []) ∨
      ∃ data, coldWorld.history = .content data ∧ jsonUnmarshalHistory data = ([], none)) ∧
    getHistoryContent
        (appendAll [sampleRecord, { sampleRecord with IP := "::1".toList }] coldWorld) =
      (":: 2024-02-29T13:05:09-05:30 - Get Requested - 10.1.1.1 ::" ++
        ":: 2024-02-29T13:05:09-05:30 - Get Requested - ::1 ::").toList ∧
    getHistoryContent (appendAll [] (worldWith "[]".toList)) = [] :=
  ⟨by decide, Or.inl ⟨rfl, by decide⟩,
    (getHistoryContent_appendAll coldWorld
      [sampleRecord, { sampleRecord with IP := "::1".toList }] (by decide)
      (Or.inl ⟨rfl, by decide⟩)).trans (by decide),
    (getHistoryContent_appendAll (worldWith "[]".toList) [] (by decide)
      (Or.inr ⟨_, rfl, by decide⟩)).trans (by decide)⟩

/-- C7: when the content of the history file decodes without error to the
sequence `h`, and serialization of `h` followed by the record `r` succeeds
with the text `text`, then after `appendHistory r`, with directory creation
and the write succeeding, the file holds exactly `text`, and that content
decodes to exactly `h` followed by `r`: nothing stored is changed or dropped,
and the length grows by one. The time of `r` is a calendar reading with a zone
offset of whole minutes, which is what the layout `Z07:00` can write. -/
theorem appendHistory_appends (w : World) (data text : Str) (h : List RequestDetails)
    (r : RequestDetails) (hf : w.history = .content data)
    (hd : jsonUnmarshalHistory data = (h, none)) (hr : r.Time.calendar)
    (hm : jsonMarshalHistory (h ++ [r]) = .ok text) :
    (appendHistory Faults.none r w).history = .content text ∧
    jsonUnmarshalHistory text = (h ++ [r], none) ∧
    (h ++ [r]).length = h.length + 1 := by
  have hdec := marshal_decoded data text h none r hd hr hm
  refine ⟨?_, ?_, by simp⟩
  · rw [appendHistory_marshal w r data text h hf hd hm]
  · rw [hdec.2]
    exact jsonUnmarshalHistory_historyText _ hdec.1

set_option maxRecDepth 100000 in
/-- Serialization can fail on what was decoded: a stored time in a zone of
`+24:00` is read without error, `json.Marshal` refuses it, and `appendHistory`
prints the error and leaves the file as it is. -/
theorem appendHistory_zone24 :
    jsonUnmarshalHistory zone24File =
      ([⟨"10.1.1.1".toList, ⟨2024, 2, 29, 1, 5, 9, 0, 86400⟩, "first".toList⟩], none) ∧
    appendHistory Faults.none sampleRecord (worldWith zone24File) =
      (worldWith zone24File).println "Error marshalling history:".toList
        ("json: error calling MarshalJSON for type time.Time: " ++
          "Time.MarshalJSON: timezone hour outside of range [0,23]").toList := by
  decide

set_option maxRecDepth 100000 in
/-- Witness of C7: a record appended to a file that holds one record, whose
time is written with a one-digit hour. -/
theorem appendHistory_appends_witness :
    (worldWith handWrittenFile).history = .content handWrittenFile ∧
    jsonUnmarshalHistory handWrittenFile = ([handWrittenRecord], none) ∧
    sampleRecord.Time.calendar ∧
    jsonMarshalHistory ([handWrittenRecord] ++ [sampleRecord]) =
      .ok ("[\x7b\"ip\":\"10.1.1.1\",\"time\":\"2024-02-29T01:05:09Z\"," ++
        "\"content\":\"first\"\x7d," ++
        "\x7b\"ip\":\"10.1.1.1\",\"time\":\"2024-02-29T13:05:09.12-05:30\"," ++
        "\"content\":\"Get Requested\"\x7d]").toList ∧
    (appendHistory Faults.none sampleRecord (worldWith handWrittenFile)).history =
      .content ("[\x7b\"ip\":\"10.1.1.1\",\"time\":\"2024-02-29T01:05:09Z\"," ++
        "\"content\":\"first\"\x7d," ++
        "\x7b\"ip\":\"10.1.1.1\",\"time\":\"2024-02-29T13:05:09.12-05:30\"," ++
        "\"content\":\"Get Requested\"\x7d]").toList ∧
    jsonUnmarshalHistory ("[\x7b\"ip\":\"10.1.1.1\",\"time\":\"2024-02-29T01:05:09Z\"," ++
        "\"content\":\"first\"\x7d," ++
        "\x7b\"ip\":\"10.1.1.1\",\"time\":\"2024-02-29T13:05:09.12-05:30\"," ++
        "\"content\":\"Get Requested\"\x7d]").toList =
      ([handWrittenRecord] ++ [sampleRecord], none) ∧
    ([handWrittenRecord] ++ [sampleRecord]).length = [handWrittenRecord].length + 1 :=
  ⟨rfl, by decide, by decide, by decide,
    appendHistory_appends (worldWith handWrittenFile) handWrittenFile _ [handWrittenRecord]
      sampleRecord rfl (by decide) (by decide) (by decide)⟩

/-- C8: `getHistoryContent` returns the read error as text when the file
cannot be read, and the decoding error as text when the content does not
decode as a sequence of request records: `unexpected end of JSON input` or
`invalid character <byte> <context>` for text that is not JSON, `json: cannot
unmarshal <kind> into Go <target>` for JSON of the wrong shape, and the text of
the time parser for a time that cannot be read. In each case the result is the
label and that message and nothing else, whatever was decoded before the
error, and it is not the rendering of any sequence of records. (The function
only reads the file: its model takes the world and returns a string.) -/
theorem getHistoryContent_error (w : World) (msg : Str)
    (h : (∃ err, ReadFile w = .error err ∧
        msg = "Error reading history file: ".toList ++ err) ∨
      (∃ data decoded, ReadFile w = .ok data ∧
        ((jsonUnmarshalHistory data = (decoded, some (.malformed .unexpectedEnd)) ∧
            msg = "Error unmarshalling history: unexpected end of JSON input".toList) ∨
          (∃ byte context,
            jsonUnmarshalHistory data =
              (decoded, some (.malformed (.invalidCharacter byte context))) ∧
            msg = "Error unmarshalling history: invalid character ".toList ++
              quoteChar byte ++ [' '] ++ context) ∨
          (∃ kind target,
            jsonUnmarshalHistory data = (decoded, some (.unmarshalType kind target)) ∧
            msg = "Error unmarshalling history: json: cannot unmarshal ".toList ++ kind ++
              " into Go ".toList ++ target) ∨
          (∃ text, jsonUnmarshalHistory data = (decoded, some (.time text)) ∧
            msg = "Error unmarshalling history: ".toList ++ text)))) :
    getHistoryContent w = msg ∧ ∀ rs : List RequestDetails, msg ≠ (rs.map segment).flatten := by
  have hE : ∀ tail : Str, ∀ rs : List RequestDetails,
      'E' :: tail ≠ (rs.map segment).flatten := by
    intro tail rs e
    rcases segments_head rs with h0 | ⟨t, h1⟩
    · rw [h0] at e; cases e
    · rw [h1] at e
      simp only [List.cons.injEq] at e
      exact absurd e.1 (by decide)
  rcases h with ⟨err, hr, hm⟩ | ⟨data, decoded, hr, ⟨hd, hm⟩ | ⟨b, ctx, hd, hm⟩ |
    ⟨kind, target, hd, hm⟩ | ⟨text, hd, hm⟩⟩
  · subst hm
    exact ⟨by simp [getHistoryContent, hr], hE _⟩
  · subst hm
    exact ⟨by simp only [getHistoryContent, hr, hd, JsonError.Error, ScanError.Error]; rfl, hE _⟩
  · subst hm
    exact ⟨by
      simp only [getHistoryContent, hr, hd, JsonError.Error, ScanError.Error,
        List.append_assoc]
      rfl, hE _⟩
  · subst hm
    exact ⟨by
      simp only [getHistoryContent, hr, hd, JsonError.Error, List.append_assoc]
      rfl, hE _⟩
  · subst hm
    exact ⟨by simp only [getHistoryContent, hr, hd, JsonError.Error], hE _⟩

set_option maxRecDepth 100000 in
/-- Witness of C8: a missing file; text that is not JSON; text cut short; JSON
of the wrong shape, `[1]`, from which a zero record was decoded; two times
that cannot be read; and a text with single quotes. Each result is written
out. -/
theorem getHistoryContent_error_witness :
    (getHistoryContent coldWorld =
        "Error reading history file: open ./log/history.json: no such file or directory".toList ∧
      ∀ rs : List RequestDetails,
        "Error reading history file: open ./log/history.json: no such file or directory".toList ≠
          (rs.map segment).flatten) ∧
    getHistoryContent (worldWith "not json".toList) =
      ("Error unmarshalling history: " ++
        "invalid character 'o' in literal null (expecting 'u')").toList ∧
    getHistoryContent (worldWith "[\x7b\"ip\":\"10.1.1.1\",".toList) =
      "Error unmarshalling history: unexpected end of JSON input".toList ∧
    (jsonUnmarshalHistory "[1]".toList).1 = [RequestDetails.zero] ∧
    getHistoryContent (worldWith "[1]".toList) =
      ("Error unmarshalling history: " ++
        "json: cannot unmarshal number into Go value of type main.RequestDetails").toList ∧
    getHistoryContent (worldWith "[\x7b\"time\":\"2024-02-29 13:05:09Z\"\x7d]".toList) =
      ("Error unmarshalling history: parsing time \"2024-02-29 13:05:09Z\" as " ++
        "\"2006-01-02T15:04:05Z07:00\": cannot parse \" 13:05:09Z\" as \"T\"").toList ∧
    getHistoryContent (worldWith "[\x7b\"time\":\"2024-02-30T13:05:09Z\"\x7d]".toList) =
      ("Error unmarshalling history: " ++
        "parsing time \"2024-02-30T13:05:09Z\": day out of range").toList ∧
    getHistoryContent (worldWith "['ip']".toList) =
      ("Error unmarshalling history: " ++
        "invalid character '\\'' looking for beginning of value").toList :=
  ⟨getHistoryContent_error coldWorld _ (Or.inl ⟨_, rfl, rfl⟩),
    ((getHistoryContent_error (worldWith "not json".toList) _
      (Or.inr ⟨_, [], rfl, Or.inr (Or.inl ⟨111, "in literal null (expecting 'u')".toList,
        by decide, rfl⟩)⟩)).1).trans (by decide),
    (getHistoryContent_error (worldWith "[\x7b\"ip\":\"10.1.1.1\",".toList) _
      (Or.inr ⟨_, [], rfl, Or.inl ⟨by decide, rfl⟩⟩)).1,
    by decide,
    ((getHistoryContent_error (worldWith "[1]".toList) _
      (Or.inr ⟨_, [RequestDetails.zero], rfl, Or.inr (Or.inr (Or.inl
        ⟨"number".toList, "value of type main.RequestDetails".toList,
          by decide, rfl⟩))⟩)).1).trans (by decide),
    ((getHistoryContent_error
      (worldWith "[\x7b\"time\":\"2024-02-29 13:05:09Z\"\x7d]".toList) _
      (Or.inr ⟨_, [RequestDetails.zero], rfl, Or.inr (Or.inr (Or.inr
        ⟨("parsing time \"2024-02-29 13:05:09Z\" as " ++
          "\"2006-01-02T15:04:05Z07:00\": cannot parse \" 13:05:09Z\" as \"T\"").toList,
          by decide, rfl⟩))⟩)).1).trans (by decide),
    ((getHistoryContent_error
      (worldWith "[\x7b\"time\":\"2024-02-30T13:05:09Z\"\x7d]".toList) _
      (Or.inr ⟨_, [RequestDetails.zero], rfl, Or.inr (Or.inr (Or.inr
        ⟨"parsing time \"2024-02-30T13:05:09Z\": day out of range".toList,
          by decide, rfl⟩))⟩)).1).trans (by decide),
    ((getHistoryContent_error (worldWith "['ip']".toList) _
      (Or.inr ⟨_, [], rfl, Or.inr (Or.inl ⟨39, "looking for beginning of value".toList,
        by decide, rfl⟩)⟩)).1).trans (by decide)⟩

/-! ## Claims about the handler -/

theorem handler_ok (env : Env) (r : Request) (w : World) (name ip : Str)
    (hn : env.hostname = .ok name) (hip : getHostIP env.ifaddrs = .ok ip) :
    handler env r w =
      (⟨200, "application/json".toList,
          encodeObject (ServerInfo.jsonFields
            { Status := "ok".toList, Hostname := name, HostIP := ip,
              OtherContent := if r.Method = "GET".toList then getHistoryContent w else [] })⟩,
        logRequestDetails env r (reportWrite env w)) := by
  simp only [handler, hn, hip, jsonMarshalServerInfo]

theorem jsonFields_other (name ip method content : Str) :
    ServerInfo.jsonFields
        { Status := "ok".toList, Hostname := name, HostIP := ip,
          OtherContent := if method = "GET".toList then content else [] } =
      [("status".toList, "ok".toList), ("hostname".toList, name), ("host_ip".toList, ip)] ++
        (if method = "GET".toList ∧ content ≠ [] then [("other_content".toList, content)]
          else []) := by
  unfold ServerInfo.jsonFields
  by_cases hg : method = "GET".toList
  · by_cases he : content = []
    · simp only [if_pos hg, he, if_true, ne_eq, not_true_eq_false, and_false, if_false]
    · rw [if_pos hg, if_neg he, if_pos ⟨hg, he⟩]
  · rw [if_neg hg, if_pos rfl, if_neg (fun h => hg h.1)]

theorem history_after_write (env : Env) (w : World) :
    (reportWrite env w).history = w.history := by
  unfold reportWrite
  cases env.responseWriteErr <;> rfl

theorem logRequestDetails_stored (env : Env) (r : Request) (w : World) (host port : Str)
    (h : List RequestDetails) (hs : SplitHostPort r.RemoteAddr = .ok (host, port))
    (hfaults : env.faults = Faults.none) (hnow : env.now.wf)
    (hst : storedHistory w.history = some h) (hh : ∀ x ∈ h, x.wf) :
    (logRequestDetails env r w).logDir = true ∧
    (logRequestDetails env r w).history =
      .content (historyText (h ++ [⟨host, env.now, "Get Requested".toList⟩])) := by
  have := appendHistory_stored w ⟨host, env.now, "Get Requested".toList⟩ h hst hh hnow
  simp only [logRequestDetails, hs, hfaults, this, and_self]

/-- C9: for every request, of any method, when the host name lookup fails, or
it succeeds and `getHostIP` fails, the handler answers status 500 with a
plain-text body that is the error message (followed by the line end
`http.Error` writes), not a JSON payload, and the world is unchanged: the
history file is exactly as before and nothing is printed. -/
theorem handler_identity_failure (env : Env) (r : Request) (w : World) (err : Str)
    (h : env.hostname = .error err ∨
      ∃ name, env.hostname = .ok name ∧ getHostIP env.ifaddrs = .error err) :
    handler env r w = (⟨500, "text/plain; charset=utf-8".toList, err ++ ['\n']⟩, w) := by
  rcases h with h | ⟨name, hn, hip⟩
  · simp [handler, h, httpError]
  · simp [handler, hn, hip, httpError]

/-- Witness of C9: a POST on a host without any interface address. -/
theorem handler_identity_failure_witness :
    (({ sampleEnv with ifaddrs := .ok [] } : Env).hostname =
        .error "Unable to determine host IP address".toList ∨
      ∃ name, ({ sampleEnv with ifaddrs := .ok [] } : Env).hostname = .ok name ∧
        getHostIP ({ sampleEnv with ifaddrs := .ok [] } : Env).ifaddrs =
          .error "Unable to determine host IP address".toList) ∧
    handler { sampleEnv with ifaddrs := .ok [] } ⟨"POST".toList, "10.1.1.1:4000".toList⟩
        (worldWith (historyText [sampleRecord])) =
      (⟨500, "text/plain; charset=utf-8".toList,
          "Unable to determine host IP address".toList ++ ['\n']⟩,
        worldWith (historyText [sampleRecord])) :=
  ⟨Or.inr ⟨_, rfl, rfl⟩, handler_identity_failure _ _ _ _ (Or.inr ⟨_, rfl, rfl⟩)⟩

/-- C2 (as amended): for every request for which the host name and the host
IP are resolved, and every state of the history file, the response is 200
with a JSON object whose members are `status`, `hostname`, `host_ip` and, only
when the method is GET and the rendered history is not the empty string,
`other_content` holding the rendered history. The body reads back as a JSON
object with exactly these members, so `other_content` is present if and only
if the method is GET and the rendered history is not empty; every other
response has the member absent. -/
theorem handler_other_content (env : Env) (r : Request) (w : World) (name ip : Str)
    (hn : env.hostname = .ok name) (hip : getHostIP env.ifaddrs = .ok ip) :
    ∃ fields : List (Str × Str),
      fields = [("status".toList, "ok".toList), ("hostname".toList, name),
          ("host_ip".toList, ip)] ++
        (if r.Method = "GET".toList ∧ getHistoryContent w ≠ []
          then [("other_content".toList, getHistoryContent w)] else []) ∧
      (handler env r w).1 = ⟨200, "application/json".toList, encodeObject fields⟩ ∧
      parseJSON (handler env r w).1.body = some (objectValue fields) ∧
      ("other_content".toList ∈ fields.map Prod.fst ↔
        (r.Method = "GET".toList ∧ getHistoryContent w ≠ [])) := by
  refine ⟨_, rfl, ?_, ?_, ?_⟩
  · rw [handler_ok env r w name ip hn hip, jsonFields_other]
  · rw [handler_ok env r w name ip hn hip, jsonFields_other]
    exact parseJSON_encodeObject _
  · have hnot : "other_content".toList ∉ List.map Prod.fst
        [("status".toList, "ok".toList), ("hostname".toList, name), ("host_ip".toList, ip)] := by
      intro hmem
      simp only [List.map_cons, List.map_nil, List.mem_cons, List.not_mem_nil,
        or_false] at hmem
      rcases hmem with h | h | h <;> exact absurd h (by decide)
    by_cases hc : r.Method = "GET".toList ∧ getHistoryContent w ≠ []
    · rw [if_pos hc]
      exact ⟨fun _ => hc, fun _ => by
        rw [List.map_append, List.mem_append]
        exact Or.inr (List.mem_singleton.2 rfl)⟩
    · simp only [if_neg hc, hc, iff_false, List.append_nil]
      exact hnot

/-- Witness of C2 (as amended): a GET while the history file holds one record. -/
theorem handler_other_content_witness :
    sampleEnv.hostname = .ok "box".toList ∧
    getHostIP sampleEnv.ifaddrs = .ok "192.168.1.20".toList ∧
    ∃ fields : List (Str × Str),
      fields = [("status".toList, "ok".toList), ("hostname".toList, "box".toList),
          ("host_ip".toList, "192.168.1.20".toList)] ++
        (if (⟨"GET".toList, "10.1.1.1:4000".toList⟩ : Request).Method = "GET".toList ∧
            getHistoryContent (worldWith (historyText [sampleRecord])) ≠ []
          then [("other_content".toList,
            getHistoryContent (worldWith (historyText [sampleRecord])))] else []) ∧
      (handler sampleEnv ⟨"GET".toList, "10.1.1.1:4000".toList⟩
        (worldWith (historyText [sampleRecord]))).1 =
        ⟨200, "application/json".toList, encodeObject fields⟩ ∧
      parseJSON (handler sampleEnv ⟨"GET".toList, "10.1.1.1:4000".toList⟩
        (worldWith (historyText [sampleRecord]))).1.body = some (objectValue fields) ∧
      ("other_content".toList ∈ fields.map Prod.fst ↔
        ((⟨"GET".toList, "10.1.1.1:4000".toList⟩ : Request).Method = "GET".toList ∧
          getHistoryContent (worldWith (historyText [sampleRecord])) ≠ [])) :=
  ⟨rfl, by decide, handler_other_content sampleEnv _ _ _ _ rfl (by decide)⟩

set_option maxRecDepth 100000 in
/-- C2 fails as stated: for a GET while the history file holds the empty array
`[]`, the rendered history is the empty string and the JSON response has no
member `other_content`. -/
theorem handler_get_omits_empty :
    (handler sampleEnv ⟨"GET".toList, "10.1.1.1:4000".toList⟩ (worldWith "[]".toList)).1 =
      ⟨200, "application/json".toList,
        "\x7b\"status\":\"ok\",\"hostname\":\"box\",\"host_ip\":\"192.168.1.20\"\x7d".toList⟩ ∧
    getHistoryContent (worldWith "[]".toList) = [] := by
  decide

/-- C5 (as amended): with no log directory and no history file, for a GET whose
host name and host IP are resolved, whose remote address splits into host and
port, with the clock giving a time RFC 3339 can render and the file operations
succeeding, the handler answers 200 with a JSON object of exactly the four
members `status`, `hostname`, `host_ip`, `other_content`, where
`other_content` is the text of the read error of the missing file (not the
empty string); afterwards the directory exists and the history file holds a
one-element array, whose record has the host of the remote address, the time
of the clock and content `Get Requested`. -/
theorem handler_cold_start (env : Env) (r : Request) (w : World) (name ip host port : Str)
    (_hdir : w.logDir = false) (hfile : w.history = .absent)
    (hget : r.Method = "GET".toList)
    (hn : env.hostname = .ok name) (hip : getHostIP env.ifaddrs = .ok ip)
    (hs : SplitHostPort r.RemoteAddr = .ok (host, port))
    (hfaults : env.faults = Faults.none) (hnow : env.now.wf) :
    (handler env r w).1 = ⟨200, "application/json".toList,
      encodeObject [("status".toList, "ok".toList), ("hostname".toList, name),
        ("host_ip".toList, ip),
        ("other_content".toList, ("Error reading history file: open ./log/history.json: " ++
          "no such file or directory").toList)]⟩ ∧
    parseJSON (handler env r w).1.body =
      some (objectValue [("status".toList, "ok".toList), ("hostname".toList, name),
        ("host_ip".toList, ip),
        ("other_content".toList, ("Error reading history file: open ./log/history.json: " ++
          "no such file or directory").toList)]) ∧
    (handler env r w).2.logDir = true ∧
    ∃ text, (handler env r w).2.history = .content text ∧
      jsonUnmarshalHistory text = ([⟨host, env.now, "Get Requested".toList⟩], none) := by
  have hc : getHistoryContent w = ("Error reading history file: open ./log/history.json: " ++
      "no such file or directory").toList :=
    getHistoryContent_absent w hfile
  have hne : ("Error reading history file: open ./log/history.json: " ++
      "no such file or directory").toList ≠ [] := by decide
  have hf : ServerInfo.jsonFields
        { Status := "ok".toList, Hostname := name, HostIP := ip,
          OtherContent := if r.Method = "GET".toList then getHistoryContent w else [] } =
      [("status".toList, "ok".toList), ("hostname".toList, name), ("host_ip".toList, ip),
        ("other_content".toList, ("Error reading history file: open ./log/history.json: " ++
          "no such file or directory").toList)] := by
    rw [jsonFields_other, hc, if_pos ⟨hget, hne⟩]
    rfl
  have hst : storedHistory (reportWrite env w).history = some [] := by
    rw [history_after_write, hfile]; rfl
  have hlog := logRequestDetails_stored env r _ host port [] hs hfaults hnow hst (by simp)
  simp only [List.nil_append] at hlog
  rw [handler_ok env r w name ip hn hip, hf]
  refine ⟨rfl, parseJSON_encodeObject _, hlog.1, _, hlog.2, ?_⟩
  exact jsonUnmarshalHistory_historyText _ (by simpa using hnow)

/-- Witness of C5 (as amended): the sample host, first request. -/
theorem handler_cold_start_witness :
    coldWorld.logDir = false ∧ coldWorld.history = .absent ∧
    (⟨"GET".toList, "10.1.1.1:4000".toList⟩ : Request).Method = "GET".toList ∧
    sampleEnv.hostname = .ok "box".toList ∧
    getHostIP sampleEnv.ifaddrs = .ok "192.168.1.20".toList ∧
    SplitHostPort (⟨"GET".toList, "10.1.1.1:4000".toList⟩ : Request).RemoteAddr =
      .ok ("10.1.1.1".toList, "4000".toList) ∧
    sampleEnv.faults = Faults.none ∧ sampleEnv.now.wf ∧
    (handler sampleEnv ⟨"GET".toList, "10.1.1.1:4000".toList⟩ coldWorld).2.logDir = true ∧
    ∃ text, (handler sampleEnv ⟨"GET".toList, "10.1.1.1:4000".toList⟩ coldWorld).2.history =
        .content text ∧
      jsonUnmarshalHistory text =
        ([⟨"10.1.1.1".toList, sampleEnv.now, "Get Requested".toList⟩], none) :=
  ⟨rfl, rfl, rfl, rfl, by decide, by decide, rfl, by decide,
    (handler_cold_start sampleEnv ⟨"GET".toList, "10.1.1.1:4000".toList⟩ coldWorld
      "box".toList "192.168.1.20".toList "10.1.1.1".toList "4000".toList
      rfl rfl rfl rfl (by decide) (by decide) rfl (by decide)).2.2⟩

set_option maxRecDepth 100000 in
/-- C5 fails as stated: on the first GET, with no log directory and no history
file, `other_content` is not the empty string but the text of the read
error. -/
theorem handler_cold_start_other_content :
    (handler sampleEnv ⟨"GET".toList, "10.1.1.1:4000".toList⟩ coldWorld).1 =
      ⟨200, "application/json".toList,
        ("\x7b\"status\":\"ok\",\"hostname\":\"box\",\"host_ip\":\"192.168.1.20\"," ++
          "\"other_content\":\"Error reading history file: open ./log/history.json: " ++
          "no such file or directory\"\x7d").toList⟩ ∧
    getHistoryContent coldWorld ≠ [] := by
  decide

/-- C10: for every request, of any method, whose host name and host IP are
resolved, whose remote address splits into host and port, with the clock
giving a calendar reading with a zone offset of whole minutes and the file
operations succeeding, and for every stored history `h` (an absent file
stores the empty sequence) such that the serialization of `h` followed by the
new record succeeds, with text `text`, the handler answers 200 and afterwards
the file holds `text` and stores `h` followed by exactly one new record: its
IP is the host of the remote address, without the port, and its content is
`Get Requested`. For a method other than GET, a POST for one, the response is
a JSON object of exactly the three members `status`, `hostname`, `host_ip`. -/
theorem handler_records_request (env : Env) (r : Request) (w : World)
    (name ip host port text : Str) (h : List RequestDetails)
    (hn : env.hostname = .ok name) (hip : getHostIP env.ifaddrs = .ok ip)
    (hs : SplitHostPort r.RemoteAddr = .ok (host, port))
    (hfaults : env.faults = Faults.none) (hnow : env.now.calendar)
    (hst : storedHistory w.history = some h)
    (hser : jsonMarshalHistory (h ++ [⟨host, env.now, "Get Requested".toList⟩]) = .ok text) :
    (handler env r w).1.status = 200 ∧
    (handler env r w).2.history = .content text ∧
    storedHistory (handler env r w).2.history =
      some (h ++ [⟨host, env.now, "Get Requested".toList⟩]) ∧
    (r.Method ≠ "GET".toList →
      (handler env r w).1 = ⟨200, "application/json".toList,
        encodeObject [("status".toList, "ok".toList), ("hostname".toList, name),
          ("host_ip".toList, ip)]⟩ ∧
      parseJSON (handler env r w).1.body =
        some (objectValue [("status".toList, "ok".toList), ("hostname".toList, name),
          ("host_ip".toList, ip)])) := by
  have hst' : storedHistory (reportWrite env w).history = some h := by
    rw [history_after_write]; exact hst
  have hwf : ∀ x ∈ h ++ [⟨host, env.now, "Get Requested".toList⟩], x.wf :=
    stored_marshal_wf _ h _ text hst hnow hser
  have htext : text = historyText (h ++ [⟨host, env.now, "Get Requested".toList⟩]) := by
    have := jsonMarshalHistory_wf _ hwf
    rw [hser] at this
    exact Except.ok.inj this
  have hlog := logRequestDetails_stored env r _ host port h hs hfaults
    (hwf ⟨host, env.now, "Get Requested".toList⟩ (by simp)) hst'
    (fun x hx => hwf x (by simp [hx]))
  rw [handler_ok env r w name ip hn hip]
  refine ⟨rfl, ?_, ?_, ?_⟩
  · show (logRequestDetails env r _).history = _
    rw [hlog.2, htext]
  · show storedHistory (logRequestDetails env r _).history = _
    rw [hlog.2]
    exact storedHistory_historyText _ hwf
  · intro hm
    have hf : ServerInfo.jsonFields
          { Status := "ok".toList, Hostname := name, HostIP := ip,
            OtherContent := if r.Method = "GET".toList then getHistoryContent w else [] } =
        [("status".toList, "ok".toList), ("hostname".toList, name),
          ("host_ip".toList, ip)] := by
      rw [jsonFields_other, if_neg (fun hh => hm hh.1)]
      rfl
    rw [hf]
    exact ⟨rfl, parseJSON_encodeObject _⟩

set_option maxRecDepth 100000 in
/-- Witness of C10: a POST from an IPv6 client while the file holds one
record, written by hand with a one-digit hour. -/
theorem handler_records_request_witness :
    sampleEnv.hostname = .ok "box".toList ∧
    getHostIP sampleEnv.ifaddrs = .ok "192.168.1.20".toList ∧
    SplitHostPort (⟨"POST".toList, "[::1]:4000".toList⟩ : Request).RemoteAddr =
      .ok ("::1".toList, "4000".toList) ∧
    sampleEnv.faults = Faults.none ∧ sampleEnv.now.calendar ∧
    storedHistory (worldWith handWrittenFile).history = some [handWrittenRecord] ∧
    jsonMarshalHistory
        ([handWrittenRecord] ++ [⟨"::1".toList, sampleEnv.now, "Get Requested".toList⟩]) =
      .ok ("[\x7b\"ip\":\"10.1.1.1\",\"time\":\"2024-02-29T01:05:09Z\"," ++
        "\"content\":\"first\"\x7d," ++
        "\x7b\"ip\":\"::1\",\"time\":\"2024-02-29T13:05:09.12-05:30\"," ++
        "\"content\":\"Get Requested\"\x7d]").toList ∧
    (⟨"POST".toList, "[::1]:4000".toList⟩ : Request).Method ≠ "GET".toList ∧
    (handler sampleEnv ⟨"POST".toList, "[::1]:4000".toList⟩
        (worldWith handWrittenFile)).1.status = 200 ∧
    (handler sampleEnv ⟨"POST".toList, "[::1]:4000".toList⟩
        (worldWith handWrittenFile)).2.history =
      .content ("[\x7b\"ip\":\"10.1.1.1\",\"time\":\"2024-02-29T01:05:09Z\"," ++
        "\"content\":\"first\"\x7d," ++
        "\x7b\"ip\":\"::1\",\"time\":\"2024-02-29T13:05:09.12-05:30\"," ++
        "\"content\":\"Get Requested\"\x7d]").toList ∧
    storedHistory (handler sampleEnv ⟨"POST".toList, "[::1]:4000".toList⟩
        (worldWith handWrittenFile)).2.history =
      some ([handWrittenRecord] ++
        [⟨"::1".toList, sampleEnv.now, "Get Requested".toList⟩]) ∧
    (handler sampleEnv ⟨"POST".toList, "[::1]:4000".toList⟩
        (worldWith handWrittenFile)).1.body =
      "\x7b\"status\":\"ok\",\"hostname\":\"box\",\"host_ip\":\"192.168.1.20\"\x7d".toList :=
  ⟨rfl, by decide, by decide, rfl, by decide, by decide, by decide, by decide,
    (handler_records_request sampleEnv ⟨"POST".toList, "[::1]:4000".toList⟩
      (worldWith handWrittenFile) "box".toList "192.168.1.20".toList
      "::1".toList "4000".toList
      ("[\x7b\"ip\":\"10.1.1.1\",\"time\":\"2024-02-29T01:05:09Z\"," ++
        "\"content\":\"first\"\x7d," ++
        "\x7b\"ip\":\"::1\",\"time\":\"2024-02-29T13:05:09.12-05:30\"," ++
        "\"content\":\"Get Requested\"\x7d]").toList [handWrittenRecord]
      rfl (by decide) (by decide) rfl (by decide) (by decide) (by decide)).1,
    (handler_records_request sampleEnv ⟨"POST".toList, "[::1]:4000".toList⟩
      (worldWith handWrittenFile) "box".toList "192.168.1.20".toList
      "::1".toList "4000".toList
      ("[\x7b\"ip\":\"10.1.1.1\",\"time\":\"2024-02-29T01:05:09Z\"," ++
        "\"content\":\"first\"\x7d," ++
        "\x7b\"ip\":\"::1\",\"time\":\"2024-02-29T13:05:09.12-05:30\"," ++
        "\"content\":\"Get Requested\"\x7d]").toList [handWrittenRecord]
      rfl (by decide) (by decide) rfl (by decide) (by decide) (by decide)).2.1,
    (handler_records_request sampleEnv ⟨"POST".toList, "[::1]:4000".toList⟩
      (worldWith handWrittenFile) "box".toList "192.168.1.20".toList
      "::1".toList "4000".toList
      ("[\x7b\"ip\":\"10.1.1.1\",\"time\":\"2024-02-29T01:05:09Z\"," ++
        "\"content\":\"first\"\x7d," ++
        "\x7b\"ip\":\"::1\",\"time\":\"2024-02-29T13:05:09.12-05:30\"," ++
        "\"content\":\"Get Requested\"\x7d]").toList [handWrittenRecord]
      rfl (by decide) (by decide) rfl (by decide) (by decide) (by decide)).2.2.1,
    (congrArg Response.body
      ((handler_records_request sampleEnv ⟨"POST".toList, "[::1]:4000".toList⟩
        (worldWith handWrittenFile) "box".toList "192.168.1.20".toList
        "::1".toList "4000".toList
      ("[\x7b\"ip\":\"10.1.1.1\",\"time\":\"2024-02-29T01:05:09Z\"," ++
        "\"content\":\"first\"\x7d," ++
        "\x7b\"ip\":\"::1\",\"time\":\"2024-02-29T13:05:09.12-05:30\"," ++
        "\"content\":\"Get Requested\"\x7d]").toList [handWrittenRecord]
        rfl (by decide) (by decide) rfl (by decide) (by decide) (by decide)).2.2.2
        (by decide)).1).trans (by decide)⟩

end HostInfo
